import Mathlib

/-!
Caneda: netlist export and port connectivity.

A shallow embedding of `FormatSpice` (src/src/fileexport.cpp) and of the port
connectivity model (src/src/port.h, src/src/wire.h, src/src/portsymbol.h),
followed by the properties proved about them.

Conventions of the embedding:

* a `Port*` is modelled by a natural number (the identity of the object);
* a `QString` is the list of its characters;
* a `QList<T>` is a `List T`; `QList::at` is the lookup `l[i]?`, so an index
  out of range is visible as `none`;
* an `int` net id is an `Int`.  The counter `equiId` is incremented at most
  once per element of a `QList`, whose size is itself an `int`, so no id that
  is written into the table can wrap.
-/

namespace Caneda

/-! ## Definitions -/

/-! ### Data model -/

/-- Identity of a `Port` object, i.e. the value of a `Port*`. -/
abbrev Port := Nat

/-- A `QString`, as the list of its characters. -/
abbrev QString := List Char

/-- A point of the scene, `QPointF`; only equality of points is used. -/
abbrev Point := Int × Int

/-- The topology table `QList<QPair<Port*, int> >`. -/
abbrev Netlist := List (Port × Int)

/-! ### `FormatSpice::generateNetlistTopology`: the numbering loop -/

/-- The `foreach(Port *p, ports)` loop of `generateNetlistTopology`
(fileexport.cpp, lines 198-211).  The state is `equiId`, `netlist` and
`parsedPorts`; `getEquipotentialPorts p` is the list that
`p->getEquipotentialPorts(equi)` fills starting from the empty list `equi`. -/
def topologyLoop (getEquipotentialPorts : Port → List Port) :
    List Port → Int → Netlist → List Port → Netlist × Int × List Port
  | [], equiId, netlist, parsedPorts => (netlist, equiId, parsedPorts)
  | p :: ports, equiId, netlist, parsedPorts =>
    if parsedPorts.contains p then
      topologyLoop getEquipotentialPorts ports equiId netlist parsedPorts
    else
      topologyLoop getEquipotentialPorts ports (equiId + 1)
        (netlist ++ (getEquipotentialPorts p).map (fun q => (q, equiId)))
        (parsedPorts ++ getEquipotentialPorts p)

/-- The table of `generateNetlistTopology` just before `replacePortNames` is
called: the loop started with `equiId = 1` and two empty lists
(fileexport.cpp, lines 194-211). -/
def assignNetIds (getEquipotentialPorts : Port → List Port) (ports : List Port) : Netlist :=
  (topologyLoop getEquipotentialPorts ports 1 [] []).1

/-! #### Specification side of the numbering -/

/-- The ports of `ports` that are the first of their connectivity class: a
port is kept when none of the ports `seen` before it lies in its class. -/
def firstPorts (equi : Port → List Port) : List Port → List Port → List Port
  | _, [] => []
  | seen, p :: ports =>
    if seen.any (fun q => (equi p).contains q) then firstPorts equi (seen ++ [p]) ports
    else p :: firstPorts equi (seen ++ [p]) ports

/-- The table in which the classes of `reps` are numbered `first`, `first + 1`,
... in the order of `reps`. -/
def netBlocks (equi : Port → List Port) : Int → List Port → Netlist
  | _, [] => []
  | first, r :: reps => (equi r).map (fun q => (q, first)) ++ netBlocks equi (first + 1) reps

/-- The hypothesis on `getEquipotentialPorts`: it returns the connectivity
class of its port.  The class contains the port, and two ports of one class
have the same class (as sets of ports). -/
def ReturnsClasses (equi : Port → List Port) : Prop :=
  (∀ p, p ∈ equi p) ∧ ∀ p q, q ∈ equi p → ∀ r, r ∈ equi q ↔ r ∈ equi p


/-- An example of connectivity classes: ports 1 and 2 are joined, every other
port is alone. -/
def pairClasses (p : Port) : List Port :=
  if p = 1 ∨ p = 2 then [1, 2] else [p]

/-! ### Scene items -/

/-- A `Component`, as far as the export reads it. -/
structure Component where
  /-- The result of `label()`. -/
  label : QString
  /-- The list `ports()`, each port with its `name()`. -/
  ports : List (Port × QString)
  /-- The call `properties()->propertyValue(name)`. -/
  propertyValue : QString → QString
  /-- The call `model(type)`, i.e. `d->models[type]` (component.cpp). -/
  model : QString → QString

/-- A `Wire` (wire.h): its two ports and their scene positions. -/
structure Wire where
  port1 : Port
  port2 : Port
  scenePos1 : Point
  scenePos2 : Point

/-- The test `Wire::isNull` (wire.h, line 66):
`port1()->scenePos() == port2()->scenePos()`. -/
def Wire.isNull (w : Wire) : Bool := w.scenePos1 == w.scenePos2

/-- A `PortSymbol` (portsymbol.h): its single port and its label. -/
structure PortSymbol where
  port : Port
  label : QString

/-- The items of a scene that are Caneda items. -/
inductive GraphicsItem where
  | component (c : Component)
  | wire (w : Wire)
  | portSymbol (s : PortSymbol)
  | painting

/-- The list `ports()` of an item. -/
def GraphicsItem.ports : GraphicsItem → List Port
  | .component c => c.ports.map Prod.fst
  | .wire w => [w.port1, w.port2]
  | .portSymbol s => [s.port]
  | .painting => []

/-- The call `filterItems<Component>(items)`: the components, in scene order. -/
def filterComponents (items : List GraphicsItem) : List Component :=
  items.filterMap fun
    | .component c => some c
    | _ => none

/-- The call `filterItems<PortSymbol>(items)`. -/
def filterPortSymbols (items : List GraphicsItem) : List PortSymbol :=
  items.filterMap fun
    | .portSymbol s => some s
    | _ => none

/-- The list `ports` built by `generateNetlistTopology` (lines 187-192): the
ports of every item, in scene order. -/
def scenePorts (items : List GraphicsItem) : List Port :=
  items.flatMap GraphicsItem.ports

/-! ### `FormatSpice::replacePortNames` -/

/-- The first loop of `replacePortNames` (lines 241-246): `netName` takes the
id of every pair whose port is `port`, so the last such pair wins.  `netName`
is declared without a value; `none` stands for that state. -/
def findNetName (port : Port) : Netlist → Option Int → Option Int
  | [], netName => netName
  | e :: netlist, netName =>
    findNetName port netlist (if e.1 = port then some e.2 else netName)

/-- The conversion `QString::toLower` on the letters A to Z. -/
def toLower (s : QString) : QString := s.map Char.toLower

/-- The test of line 251 on the label of a port symbol. -/
def isGroundLabel (label : QString) : Bool :=
  toLower label == "ground".toList || toLower label == "gnd".toList

/-- The second loop of `replacePortNames` (lines 249-259) for one port symbol:
every pair whose id equals `netName` is replaced by the same port with id 0
when the label is a ground label.  A `netName` without a value equals no id. -/
def renameNet (label : QString) (netName : Option Int) (netlist : Netlist) : Netlist :=
  netlist.map fun e =>
    if some e.2 = netName then
      if isGroundLabel label then (e.1, 0) else e
    else e

/-- The procedure `FormatSpice::replacePortNames` (lines 232-261): the port
symbols are handled one after the other on the table being rewritten. -/
def replacePortNames : List PortSymbol → Netlist → Netlist
  | [], netlist => netlist
  | p :: portSymbols, netlist =>
    replacePortNames portSymbols (renameNet p.label (findNetName p.port netlist none) netlist)

/-- The function `FormatSpice::generateNetlistTopology` (lines 180-216). -/
def generateNetlistTopology (getEquipotentialPorts : Port → List Port)
    (items : List GraphicsItem) : Netlist :=
  replacePortNames (filterPortSymbols items)
    (assignNetIds getEquipotentialPorts (scenePorts items))

/-! ### `FormatSpice::generateNetlist` -/

/-- The call `s.split(sep)` that keeps empty parts. -/
def splitKeepEmpty (sep : Char) : QString → List QString
  | [] => [[]]
  | c :: cs =>
    if c = sep then [] :: splitKeepEmpty sep cs
    else
      match splitKeepEmpty sep cs with
      | [] => [[c]]
      | part :: parts => (c :: part) :: parts

/-- The call `s.split(sep, QString::SkipEmptyParts)` for a separator of one
character. -/
def split (sep : Char) (s : QString) : List QString :=
  (splitKeepEmpty sep s).filter fun part => !part.isEmpty

/-- The call `QString::number(n)` for an `int`: decimal digits, with a minus
sign for a negative number. -/
def number : Int → QString
  | .ofNat n => Nat.toDigits 10 n
  | .negSucc n => '-' :: Nat.toDigits 10 (n + 1)

/-- The loop of lines 139-143: the number of every pair of the table whose
port is `port` is appended. -/
def netNumbers (port : Port) : Netlist → QString
  | [] => []
  | e :: netlist =>
    if e.1 = port then number e.2 ++ netNumbers port netlist else netNumbers port netlist

/-- The `foreach(Port *_port, c->ports())` loop of lines 136-145.  The
argument `modelCommands.at(1)` is read once for every port of the component. -/
def expandPort (netlist : Netlist) (modelCommands : List QString) :
    List (Port × QString) → Option QString
  | [] => some []
  | port :: ports =>
    match modelCommands[1]? with
    | none => none
    | some name =>
      match expandPort netlist modelCommands ports with
      | none => none
      | some rest =>
        some ((if port.2 = name then netNumbers port.1 netlist else []) ++ rest)

/-- The body of the loop over sub-blocks (lines 130-153): what one sub-block
appends to `retVal`, or `none` when `at` is called out of range. -/
def expandSubBlock (c : Component) (netlist : Netlist) (subBlock : QString) :
    Option QString :=
  let modelCommands := split '=' subBlock
  match modelCommands[0]? with
  | none => none
  | some command =>
    if command = "label".toList then some c.label
    else if command = "port".toList then expandPort netlist modelCommands c.ports
    else if command = "property".toList then
      match modelCommands[1]? with
      | none => none
      | some name => some (c.propertyValue name)
    else some subBlock

/-- The loop over the sub-blocks of one block (lines 128-155). -/
def expandSubBlocks (c : Component) (netlist : Netlist) : List QString → Option QString
  | [] => some []
  | subBlock :: subBlocks =>
    match expandSubBlock c netlist subBlock with
    | none => none
    | some text =>
      match expandSubBlocks c netlist subBlocks with
      | none => none
      | some rest => some (text ++ rest)

/-- One block (lines 127-156): the sub-blocks between `%`, then a space. -/
def expandBlock (c : Component) (netlist : Netlist) (block : QString) : Option QString :=
  match expandSubBlocks c netlist (split '%' block) with
  | none => none
  | some text => some (text ++ [' '])

/-- The loop over the blocks of a model (lines 125-158). -/
def expandBlocks (c : Component) (netlist : Netlist) : List QString → Option QString
  | [] => some []
  | block :: blocks =>
    match expandBlock c netlist block with
    | none => none
    | some text =>
      match expandBlocks c netlist blocks with
      | none => none
      | some rest => some (text ++ rest)

/-- The blocks of the spice model of a component (lines 122-124). -/
def modelBlocks (c : Component) : List QString :=
  split ' ' (c.model "spice".toList)

/-- What one component appends to `retVal` (lines 119-160). -/
def componentLine (c : Component) (netlist : Netlist) : Option QString :=
  match expandBlocks c netlist (modelBlocks c) with
  | none => none
  | some text => some (text ++ ['\n'])

/-- The loop over the components (lines 119-160). -/
def componentLines (netlist : Netlist) : List Component → Option QString
  | [] => some []
  | c :: components =>
    match componentLine c netlist with
    | none => none
    | some line =>
      match componentLines netlist components with
      | none => none
      | some rest => some (line ++ rest)

/-- The header written at line 115. -/
def header : QString := "* Spice automatic export. Generated by Caneda.\n".toList

/-- The function `FormatSpice::generateNetlist` (lines 107-163); `none` when a
list is read out of range. -/
def generateNetlist (getEquipotentialPorts : Port → List Port)
    (items : List GraphicsItem) : Option QString :=
  match componentLines (generateNetlistTopology getEquipotentialPorts items)
      (filterComponents items) with
  | none => none
  | some text => some (header ++ text)

/-- The resistor of the examples: label, ports A and B, property R = 1k and the
model of the spice export. -/
def resistor (label : QString) (a b : Port) : Component where
  label := label
  ports := [(a, "A".toList), (b, "B".toList)]
  propertyValue := fun name => if name = "R".toList then "1k".toList else []
  model := fun type =>
    if type = "spice".toList then "%label %port=A %port=B R=%property=R".toList else []

/-! #### Specification side of the ground renaming -/

/-- The ids that the table records for the ports of the ground symbols. -/
def groundIds (portSymbols : List PortSymbol) (netlist : Netlist) : List Int :=
  portSymbols.filterMap fun s =>
    if isGroundLabel s.label then findNetName s.port netlist none else none

/-- The table in which every pair with an id of `ids` has its id set to 0. -/
def foldGround (ids : List Int) (netlist : Netlist) : Netlist :=
  netlist.map fun e => if e.2 ∈ ids then (e.1, 0) else e

/-- Port symbols of an example: two ground symbols on different nets and a
symbol with another label. -/
def sampleSymbols : List PortSymbol :=
  [⟨20, "GND".toList⟩, ⟨21, "Ground".toList⟩, ⟨22, "out".toList⟩]

/-- A table of an example, before the renaming: nets 1, 2, 3 and 4. -/
def sampleTable : Netlist :=
  [(10, 1), (20, 1), (11, 2), (22, 2), (21, 3), (12, 4)]

/-- The scene of the example: R1 (ports 10 and 11), R2 (ports 12 and 13), a wire
(ports 14 and 15) joining R1.B to R2.A and a ground symbol (port 16) on R1.A,
enumerated in this order. -/
def twoResistors : List GraphicsItem :=
  [.component (resistor "R1".toList 10 11), .component (resistor "R2".toList 12 13),
    .wire ⟨14, 15, (100, 0), (200, 0)⟩, .portSymbol ⟨16, "Ground".toList⟩]

/-- The same scene enumerated as wire, R2, R1, ground symbol. -/
def twoResistorsGroundLast : List GraphicsItem :=
  [.wire ⟨14, 15, (100, 0), (200, 0)⟩, .component (resistor "R2".toList 12 13),
    .component (resistor "R1".toList 10 11), .portSymbol ⟨16, "Ground".toList⟩]

/-- The connectivity classes of the example scene: R1.A with the ground symbol,
R1.B with the wire and R2.A, and R2.B alone. -/
def twoResistorsClasses (p : Port) : List Port :=
  if p = 10 ∨ p = 16 then [10, 16]
  else if p = 11 ∨ p = 12 ∨ p = 14 ∨ p = 15 then [11, 14, 15, 12]
  else [p]

/-- A component whose spice model separates two blocks by a tab. -/
def tabComponent : Component where
  label := "R1".toList
  ports := [(10, "A".toList)]
  propertyValue := fun _ => []
  model := fun _ => "%label\t%port=A".toList

/-- A component with one port and the given spice model. -/
def modelComponent (model : QString) : Component where
  label := "X1".toList
  ports := [(10, "A".toList)]
  propertyValue := fun _ => []
  model := fun _ => model

/-! #### Specification side of the splitting into blocks -/

/-- The maximal runs of characters that are not separators, found by reading
the text from left to right; `current` is the run being read. -/
def runsFrom (isSeparator : Char → Bool) : QString → QString → List QString
  | current, [] => if current.isEmpty then [] else [current]
  | current, c :: cs =>
    if isSeparator c then
      if current.isEmpty then runsFrom isSeparator [] cs
      else current :: runsFrom isSeparator [] cs
    else runsFrom isSeparator (current ++ [c]) cs

/-- The maximal runs of characters of `s` that are not separators. -/
def maximalRuns (isSeparator : Char → Bool) (s : QString) : List QString :=
  runsFrom isSeparator [] s

/-- A scene that holds a null wire (both ends at the origin, ports 1 and 2)
and a resistor with the ports 3 and 4. -/
def nullWireScene : List GraphicsItem :=
  [.wire ⟨1, 2, (0, 0), (0, 0)⟩, .component (resistor "R1".toList 3 4)]

/-! ### `Port::connectTo` and `Port::disconnect` -/

/-- The connection lists of the scene: `m p` is the list `m_connections` of
the port `p` (port.h, line 93). -/
abbrev Connections := Port → List Port

/-- Modelled from the spec: the body of `Port::connectTo` is in port.cpp, which
is not among the sources.  The spec says that `connectTo(other)` adds each port
to the peer list of the other and that a repeated connect does not duplicate
an entry. -/
def connectTo (a other : Port) (m : Connections) : Connections :=
  let m₁ : Connections := fun p =>
    if p = a then (if other ∈ m a then m a else m a ++ [other]) else m p
  fun p =>
    if p = other then (if a ∈ m₁ other then m₁ other else m₁ other ++ [a]) else m₁ p

/-- Modelled from the spec: the body of `Port::disconnect` is in port.cpp, which
is not among the sources.  The spec says that `disconnect()` removes this port
from the peer lists of all its peers and clears its own list. -/
def disconnect (a : Port) (m : Connections) : Connections := fun p =>
  if p = a then []
  else if p ∈ m a then (m p).filter (fun q => q ≠ a)
  else m p

/-- The two operations on ports. -/
inductive PortOp where
  | connectTo (a other : Port)
  | disconnect (a : Port)

/-- One operation applied to the connection lists. -/
def PortOp.apply : PortOp → Connections → Connections
  | .connectTo a other, m => Caneda.connectTo a other m
  | .disconnect a, m => Caneda.disconnect a m

/-- A sequence of operations applied from left to right. -/
def runPortOps : List PortOp → Connections → Connections
  | [], m => m
  | op :: ops, m => runPortOps ops (op.apply m)

/-- The connection lists of newly constructed ports: all empty. -/
def noConnections : Connections := fun _ => []

/-- Symmetry of the connection lists. -/
def Symmetric (m : Connections) : Prop := ∀ x y, y ∈ m x ↔ x ∈ m y

/-! ### `Port::getEquipotentialPorts` -/

/-- Modelled from the spec: the body of `Port::getEquipotentialPorts` is in
port.cpp, which is not among the sources.  The spec describes a depth-first
traversal over the peer graph that starts from this port, collects every
reachable port once and guards against revisiting: a call on a port returns
when the list contains the port, and otherwise appends the port and calls
itself on every peer.  `pending` is the stack of the calls still to be made,
in the order in which they are made, and `fuel` bounds the number of calls;
`none` is returned when the fuel does not suffice. -/
def equipotentialLoop (m : Connections) : Nat → List Port → List Port → Option (List Port)
  | _, [], connectedPorts => some connectedPorts
  | 0, _ :: _, _ => none
  | fuel + 1, p :: pending, connectedPorts =>
    if connectedPorts.contains p then equipotentialLoop m fuel pending connectedPorts
    else equipotentialLoop m fuel (m p ++ pending) (connectedPorts ++ [p])

/-- Modelled from the spec: the call `p->getEquipotentialPorts(connectedPorts)`
(declared in port.h, line 77) on the list `connectedPorts`. -/
def getEquipotentialPorts (m : Connections) (fuel : Nat) (p : Port)
    (connectedPorts : List Port) : Option (List Port) :=
  equipotentialLoop m fuel [p] connectedPorts

/-- The ports that can be reached from `p` by following connections. -/
def Reachable (m : Connections) (p q : Port) : Prop :=
  Relation.ReflTransGen (fun a b => b ∈ m a) p q

/-- A number of calls that suffices for a graph whose ports are `scenePorts`:
one call for the start and one for every entry of a connection list. -/
def callBound (m : Connections) (scenePorts : List Port) : Nat :=
  1 + (scenePorts.map fun p => (m p).length).sum

/-- Peers yet to be expanded: the entries of the connection lists of the ports
of `scenePorts` that are not in `visited`. -/
def pendingPeers (m : Connections) (scenePorts visited : List Port) : Nat :=
  ((scenePorts.filter fun p => !visited.contains p).map fun p => (m p).length).sum

/-- A graph with a cycle: the ports 1, 2 and 3 are connected in a triangle and
port 4 is alone. -/
def triangle : Connections := fun p =>
  if p = 1 then [2, 3] else if p = 2 then [1, 3] else if p = 3 then [2, 1] else []

/-! ### The state of `GraphicsScene` -/

/-- The enumeration `Caneda::MouseAction`, with the names used by
`sendMouseActionEvent` (graphicsscene.cpp, lines 1088-1124). -/
inductive MouseAction where
  | Wiring
  | Deleting
  | Rotating
  | MirroringX
  | MirroringY
  | ZoomingAreaEvent
  | PaintingDrawEvent
  | InsertingItems
  | Normal
  deriving DecidableEq

/-- Identity of an item of the scene, i.e. the value of a `GraphicsItem*`. -/
abbrev ItemPtr := Nat

/-- The kinds of painting that `paintingDrawEvent` distinguishes through
`m_paintingDrawItem->type()`. -/
inductive PaintingType where
  | EllipseArc
  | GraphicText
  | Generic
  deriving DecidableEq

/-- A painting item, as far as `paintingDrawEvent` reads and writes it. -/
structure Painting where
  type : PaintingType
  /-- The position `pos()`. -/
  pos : Point
  /-- The corners `topLeft()` and `bottomRight()` of `paintingRect()`. -/
  paintingRect : Point × Point
  /-- The field `m_startAngle` of an arc. -/
  startAngle : Int
  /-- The field `m_spanAngle` of an arc. -/
  spanAngle : Int
  /-- The text of a text item. -/
  text : QString
  /-- Whether `addItem` was called for the item. -/
  inScene : Bool
  deriving DecidableEq

/-- The calls of the connection methods, recorded in the order in which they
are made; the argument is the list `ports()` of the item. -/
inductive SceneCall where
  | connectItems (ports : List Port)
  | splitAndCreateNodes (ports : List Port)
  deriving DecidableEq

deriving instance DecidableEq for Wire

/-- The state of a `GraphicsScene`: its member variables and the part of the
scene content that the mouse actions read and write. -/
structure GraphicsScene where
  /-- The field `m_mouseAction`. -/
  mouseAction : MouseAction
  /-- The field `m_areItemsMoving`. -/
  areItemsMoving : Bool
  /-- The field `m_shortcutsBlocked`. -/
  shortcutsBlocked : Bool
  /-- Whether the scene is installed as event filter of `qApp`. -/
  eventFilterInstalled : Bool
  /-- The number of macros begun and not yet ended on `m_undoStack`. -/
  openMacros : Nat
  /-- The wires of the scene, each with its pointer. -/
  wires : List (ItemPtr × Wire)
  /-- The ports of the other items of the scene with their scene positions. -/
  otherPorts : List (Port × Point)
  /-- The lists `m_connections` of the ports. -/
  connections : Connections
  /-- The next value that `new` returns for a wire and for its first port. -/
  nextId : Nat
  /-- The selected items. -/
  selectedItems : List ItemPtr
  /-- The focus item. -/
  focusItem : Option ItemPtr
  /-- The list `m_insertibles`. -/
  insertibles : List ItemPtr
  /-- The field `m_currentlyWiring`. -/
  currentlyWiring : Bool
  /-- The field `m_currentWiringWire`, `none` for a null pointer. -/
  currentWiringWire : Option ItemPtr
  /-- The field `m_paintingDrawItem`, `none` for a null pointer. -/
  paintingDrawItem : Option Painting
  /-- The field `m_paintingDrawClicks`. -/
  paintingDrawClicks : Int
  /-- The calls of `placeItem`: the item and the position. -/
  placedItems : List (Painting × Point)
  /-- The corners of `m_zoomRect`. -/
  zoomRect : Point × Point
  /-- Whether `m_zoomBand` is visible. -/
  zoomBandVisible : Bool
  /-- The field `m_zoomBandClicks`. -/
  zoomBandClicks : Int
  /-- The calls of `connectItems` and `splitAndCreateNodes` made so far. -/
  calls : List SceneCall

/-- The constructor `GraphicsScene::GraphicsScene` (lines 54-96): an empty
scene in mode `Normal`. -/
def newGraphicsScene : GraphicsScene where
  mouseAction := .Normal
  areItemsMoving := false
  shortcutsBlocked := false
  eventFilterInstalled := false
  openMacros := 0
  wires := []
  otherPorts := []
  connections := noConnections
  nextId := 0
  selectedItems := []
  focusItem := none
  insertibles := []
  currentlyWiring := false
  currentWiringWire := none
  paintingDrawItem := none
  paintingDrawClicks := 0
  placedItems := []
  zoomRect := ((0, 0), (0, 0))
  zoomBandVisible := false
  zoomBandClicks := 0
  calls := []

/-- The wire that a pointer refers to, when the wire is in the scene. -/
def wireAt (s : GraphicsScene) (ptr : ItemPtr) : Option Wire :=
  (s.wires.find? fun w => w.1 = ptr).map Prod.snd

/-- Modelled from the spec: `delete` of a wire; the destructors are in wire.cpp
and port.cpp, which are not among the sources.  The spec says that the ports
are destroyed with their item and that their connections are removed from the
peers on destruction.  The wire leaves the scene and the selection. -/
def deleteWire (ptr : ItemPtr) (s : GraphicsScene) : GraphicsScene :=
  match wireAt s ptr with
  | none => s
  | some w =>
    { s with
      wires := s.wires.filter fun x => x.1 ≠ ptr
      connections := disconnect w.port2 (disconnect w.port1 s.connections)
      selectedItems := s.selectedItems.filter fun x => x ≠ ptr
      focusItem := if s.focusItem = some ptr then none else s.focusItem }

/-- The method `GraphicsScene::blockShortcuts` (lines 2040-2054). -/
def blockShortcuts (block : Bool) (s : GraphicsScene) : GraphicsScene :=
  if block then
    if !s.shortcutsBlocked then
      { s with eventFilterInstalled := true, shortcutsBlocked := true }
    else s
  else
    if s.shortcutsBlocked then
      { s with eventFilterInstalled := false, shortcutsBlocked := false }
    else s

/-- The method `GraphicsScene::resetState` (lines 1969-1996).  The pointer
`m_currentWiringWire` keeps its value after `delete`. -/
def resetState (s : GraphicsScene) : GraphicsScene :=
  let s₁ := { s with focusItem := none, selectedItems := [], insertibles := [] }
  let s₂ :=
    if s₁.currentlyWiring then
      match s₁.currentWiringWire with
      | some ptr => { deleteWire ptr s₁ with currentlyWiring := false }
      | none => { s₁ with currentlyWiring := false }
    else s₁
  { s₂ with
    paintingDrawItem := none
    paintingDrawClicks := 0
    zoomRect := ((0, 0), (0, 0))
    zoomBandVisible := false
    zoomBandClicks := 0 }

/-- The two tests of `setMouseAction` on the shortcuts (lines 522-530): the
blocking is removed when the action until now was `InsertingItems` and set
when the new action is `InsertingItems`. -/
def updateShortcutBlocking (action : MouseAction) (s : GraphicsScene) : GraphicsScene :=
  let s₁ := if s.mouseAction = .InsertingItems then blockShortcuts false s else s
  if action = .InsertingItems then blockShortcuts true s₁ else s₁

/-- The method `GraphicsScene::setMouseAction` (lines 516-540). -/
def setMouseAction (action : MouseAction) (s : GraphicsScene) : GraphicsScene :=
  if s.mouseAction = action then s
  else
    resetState
      { updateShortcutBlocking action s with areItemsMoving := false, mouseAction := action }

/-- A sequence of calls of `setMouseAction`, from left to right. -/
def setMouseActions : List MouseAction → GraphicsScene → GraphicsScene
  | [], s => s
  | action :: actions, s => setMouseActions actions (setMouseAction action s)

/-- A scene in mode `Normal` in which the item 7 is selected. -/
def selectedScene : GraphicsScene :=
  { newGraphicsScene with selectedItems := [7] }

/-! ### Connecting items and splitting wires -/

/-- The ports of the scene with their scene positions: the ports of the other
items, then the two ports of every wire. -/
def scenePortPositions (s : GraphicsScene) : List (Port × Point) :=
  s.otherPorts ++ s.wires.flatMap fun w => [(w.2.port1, w.2.scenePos1), (w.2.port2, w.2.scenePos2)]

/-- The position `port->scenePos()` of a port of the scene. -/
def scenePos (s : GraphicsScene) (port : Port) : Point :=
  (((scenePortPositions s).find? fun x => x.1 = port).map Prod.snd).getD (0, 0)

/-- Modelled from the spec: `Port::isConnectedTo` (port.cpp is not among the
sources) is the direct adjacency test. -/
def isConnectedTo (m : Connections) (port other : Port) : Bool :=
  (m port).contains other

/-- Modelled from the spec: `Port::hasAnyConnection` (port.cpp is not among the
sources) is true exactly when the peer list is not empty. -/
def hasAnyConnection (m : Connections) (port : Port) : Bool :=
  !(m port).isEmpty

/-- The two queries on the scene that `connectItems` and `splitAndCreateNodes`
make and whose code is not among the sources. -/
structure SceneQueries where
  /-- The call `port->findCoincidingPort()` (port.cpp): according to the spec
  another port at the same scene coordinate that is not already connected, or
  null. -/
  findCoincidingPort : GraphicsScene → Port → Option Port
  /-- The wires among `port->collidingItems(Qt::IntersectsItemBoundingRect)`,
  in the order of that list. -/
  collidingWires : GraphicsScene → Port → List ItemPtr

/-- The statements `new Wire(startPos, endPos)` and `addItem`: the wire and its
two ports are new objects without connections, the ports are at `startPos` and
`endPos` (the constructor is in wire.cpp, which is not among the sources). -/
def addNewWire (startPos endPos : Point) (s : GraphicsScene) : ItemPtr × Wire × GraphicsScene :=
  let w : Wire := ⟨s.nextId, s.nextId + 1, startPos, endPos⟩
  (s.nextId, w,
    { s with
      wires := s.wires ++ [(s.nextId, w)]
      nextId := s.nextId + 2
      connections := fun p => if p = s.nextId ∨ p = s.nextId + 1 then [] else s.connections p })

/-- The loop of `connectItems` (graphicsscene.cpp, lines 660-665). -/
def connectPorts (q : SceneQueries) : List Port → GraphicsScene → GraphicsScene
  | [], s => s
  | port :: ports, s =>
    match q.findCoincidingPort s port with
    | some other =>
      connectPorts q ports { s with connections := connectTo port other s.connections }
    | none => connectPorts q ports s

/-- The method `GraphicsScene::connectItems(GraphicsItem *item)` (lines
657-666); `ports` is the list `item->ports()`. -/
def connectItems (q : SceneQueries) (ports : List Port) (s : GraphicsScene) : GraphicsScene :=
  connectPorts q ports { s with calls := s.calls ++ [.connectItems ports] }

/-- The test `alreadyConnected` of `splitAndCreateNodes` (lines 729-734). -/
def alreadyConnected (m : Connections) (itemPorts : List Port) (collidingWire : Wire) : Bool :=
  itemPorts.any fun portIterator =>
    isConnectedTo m portIterator collidingWire.port1 ||
      isConnectedTo m portIterator collidingWire.port2

/-- The body of the loop over the colliding wires (lines 724-765) for one
colliding wire: the state and the list `markedForDeletion`. -/
def splitCollidingWire (q : SceneQueries) (itemPorts : List Port) (port : Port)
    (acc : GraphicsScene × List ItemPtr) (collidingWire : ItemPtr) :
    GraphicsScene × List ItemPtr :=
  match wireAt acc.1 collidingWire with
  | none => acc
  | some w =>
    if alreadyConnected acc.1.connections itemPorts w then acc
    else
      let startPoint := w.scenePos1
      let middlePoint := scenePos acc.1 port
      let endPoint := w.scenePos2
      let new₁ := addNewWire startPoint middlePoint acc.1
      let new₂ := addNewWire middlePoint endPoint new₁.2.2
      let wire1 := new₁.2.1
      let wire2 := new₂.2.1
      let s₁ := { new₂.2.2 with
        connections := connectTo port wire2.port1 (connectTo port wire1.port2 new₂.2.2.connections) }
      let s₂ := connectItems q [wire1.port1, wire1.port2] s₁
      let s₃ := connectItems q [wire2.port1, wire2.port2] s₂
      (s₃, acc.2 ++ [collidingWire])

/-- The body of the loop over the ports of the item (lines 715-778) for one
port: the colliding wires are split, then the marked wires are deleted. -/
def splitAtPort (q : SceneQueries) (itemPorts : List Port) (s : GraphicsScene) (port : Port) :
    GraphicsScene :=
  let split := (q.collidingWires s port).foldl (splitCollidingWire q itemPorts port) (s, [])
  split.2.foldl (fun t w => deleteWire w t) split.1

/-- The method `GraphicsScene::splitAndCreateNodes(GraphicsItem *item)` (lines
711-779); `itemPorts` is the list `item->ports()`. -/
def splitAndCreateNodes (q : SceneQueries) (itemPorts : List Port) (s : GraphicsScene) :
    GraphicsScene :=
  itemPorts.foldl (splitAtPort q itemPorts)
    { s with calls := s.calls ++ [.splitAndCreateNodes itemPorts] }

/-! ### Wiring -/

/-- The wire `*m_currentWiringWire`; `none` when the pointer is null or the
wire is not in the scene. -/
def currentWire (s : GraphicsScene) : Option Wire :=
  match s.currentWiringWire with
  | none => none
  | some ptr => wireAt s ptr

/-- The method `GraphicsScene::wiringEventLeftMouseClick` (lines 1484-1519);
`none` when `m_currentWiringWire` is dereferenced without referring to a wire
of the scene.  The sum `port2()->pos() + pos()` of line 1511 is the scene
position of port 2, the coordinates of a wire being those of the scene up to
the translation by `pos()`. -/
def wiringEventLeftMouseClick (q : SceneQueries) (pos : Point) (s : GraphicsScene) :
    Option GraphicsScene :=
  if !s.currentlyWiring then
    let new := addNewWire pos pos s
    some { new.2.2 with currentWiringWire := some new.1, currentlyWiring := true }
  else
    match currentWire s with
    | none => none
    | some w =>
      if w.isNull then some s
      else
        let s₁ := connectItems q [w.port1, w.port2] s
        let s₂ := splitAndCreateNodes q [w.port1, w.port2] s₁
        match currentWire s₂ with
        | none => none
        | some w₂ =>
          if hasAnyConnection s₂.connections w₂.port2 then
            some { s₂ with currentWiringWire := none, currentlyWiring := false }
          else
            let refPos := w₂.scenePos2
            let new := addNewWire refPos refPos s₂
            some { new.2.2 with currentWiringWire := some new.1 }

/-- The method `GraphicsScene::wiringEventRightMouseClick` (lines 1522-1539). -/
def wiringEventRightMouseClick (q : SceneQueries) (s : GraphicsScene) : Option GraphicsScene :=
  if s.currentlyWiring then
    match currentWire s with
    | none => none
    | some w =>
      if w.isNull then some s
      else
        let s₁ := connectItems q [w.port1, w.port2] s
        let s₂ := splitAndCreateNodes q [w.port1, w.port2] s₁
        some { s₂ with currentWiringWire := none, currentlyWiring := false }
  else some s

/-- Modelled from the spec: `Wire::movePort2(newScenePos)` (wire.cpp is not
among the sources) moves port 2 of the wire to the scene position. -/
def movePort2 (ptr : ItemPtr) (newScenePos : Point) (s : GraphicsScene) : GraphicsScene :=
  { s with
    wires := s.wires.map fun x =>
      if x.1 = ptr then (x.1, { x.2 with scenePos2 := newScenePos }) else x }

/-- The method `GraphicsScene::wiringEventMouseMove` (lines 1546-1560). -/
def wiringEventMouseMove (newPos : Point) (s : GraphicsScene) : Option GraphicsScene :=
  if s.currentlyWiring then
    match s.currentWiringWire, currentWire s with
    | some ptr, some w =>
      let refPos := w.scenePos1
      if (refPos.1 - newPos.1).natAbs > (refPos.2 - newPos.2).natAbs then
        some (movePort2 ptr (newPos.1, refPos.2) s)
      else
        some (movePort2 ptr (refPos.1, newPos.2) s)
    | _, _ => none
  else some s

/-- The buttons `event->buttons()` of a mouse event. -/
structure MouseButtons where
  left : Bool
  right : Bool
  deriving DecidableEq

/-- The type `event->type()` of a mouse event of the scene. -/
inductive MouseEventType where
  | press
  | move
  | release
  | doubleClick
  deriving DecidableEq

/-- A `QGraphicsSceneMouseEvent`, as far as the wiring reads it. -/
structure MouseEvent where
  type : MouseEventType
  scenePos : Point
  buttons : MouseButtons

/-- The method `GraphicsScene::wiringEventMouseClick` (lines 1466-1476). -/
def wiringEventMouseClick (q : SceneQueries) (buttons : MouseButtons) (pos : Point)
    (s : GraphicsScene) : Option GraphicsScene :=
  if buttons.left then wiringEventLeftMouseClick q pos s
  else if buttons.right then wiringEventRightMouseClick q s
  else some s

/-- The method `GraphicsScene::wiringEvent` (lines 1446-1458); `snap` is
`smartNearingGridPoint`. -/
def wiringEvent (q : SceneQueries) (snap : Point → Point) (event : MouseEvent)
    (s : GraphicsScene) : Option GraphicsScene :=
  let pos := snap event.scenePos
  if event.type = .press then wiringEventMouseClick q event.buttons pos s
  else if event.type = .move then wiringEventMouseMove pos s
  else some s

/-! #### Queries for the examples -/

/-- Modelled from the spec: `Port::findCoincidingPort` (port.cpp is not among
the sources) returns another port at the same scene coordinate that is not
already connected, or null.  Of several such ports the first in the order of
`scenePortPositions` is taken. -/
def firstCoincidingPort (s : GraphicsScene) (port : Port) : Option Port :=
  ((scenePortPositions s).find? fun x =>
    decide (x.1 ≠ port) && decide (x.2 = scenePos s port) &&
      !isConnectedTo s.connections port x.1).map Prod.fst

/-- The same query with the last such port taken. -/
def lastCoincidingPort (s : GraphicsScene) (port : Port) : Option Port :=
  ((scenePortPositions s).reverse.find? fun x =>
    decide (x.1 ≠ port) && decide (x.2 = scenePos s port) &&
      !isConnectedTo s.connections port x.1).map Prod.fst

/-- Whether the point `p` lies on the segment from `a` to `b`. -/
def onSegment (a b p : Point) : Bool :=
  decide ((p.1 - a.1) * (b.2 - a.2) = (p.2 - a.2) * (b.1 - a.1)) &&
    decide (min a.1 b.1 ≤ p.1) && decide (p.1 ≤ max a.1 b.1) &&
    decide (min a.2 b.2 ≤ p.2) && decide (p.2 ≤ max a.2 b.2)

/-- A collision query for the examples: the wires through the position of the
port, other than the wire of the port itself. -/
def wiresThrough (s : GraphicsScene) (port : Port) : List ItemPtr :=
  (s.wires.filter fun x =>
    decide (x.2.port1 ≠ port) && decide (x.2.port2 ≠ port) &&
      onSegment x.2.scenePos1 x.2.scenePos2 (scenePos s port)).map Prod.fst

/-- The queries used in the examples. -/
def exampleQueries : SceneQueries := ⟨firstCoincidingPort, wiresThrough⟩

/-- The examples' queries with the last coinciding port taken. -/
def exampleQueriesLast : SceneQueries := ⟨lastCoincidingPort, wiresThrough⟩

/-- A sequence of wiring steps, each applied to the state that the step before
returned. -/
def runSteps : List (GraphicsScene → Option GraphicsScene) → GraphicsScene →
    Option GraphicsScene
  | [], s => some s
  | step :: steps, s =>
    match step s with
    | none => none
    | some t => runSteps steps t

/-- The wires of a state as pointer, ports and positions, for comparison. -/
def wiresOf (s : Option GraphicsScene) : List (ItemPtr × Wire) :=
  match s with
  | none => []
  | some t => t.wires

/-- The pointers of the wires of the scene are below the next value that `new`
returns: a new wire is a new object. -/
def FreshPointers (s : GraphicsScene) : Prop :=
  ∀ x ∈ s.wires, x.1 < s.nextId

/-- What the connection methods leave as it is when they take the state `s` to
the state `t`: the wiring fields, and that new objects are new. -/
def Keeps (s t : GraphicsScene) : Prop :=
  t.currentlyWiring = s.currentlyWiring ∧ t.currentWiringWire = s.currentWiringWire ∧
    s.nextId ≤ t.nextId ∧ (FreshPointers s → FreshPointers t)

/-- A scene in mode Wiring with a pending wire from (0,0) to (100,0). -/
def pendingWireScene : GraphicsScene :=
  { newGraphicsScene with
    mouseAction := .Wiring
    wires := [(0, ⟨0, 1, (0, 0), (100, 0)⟩)]
    nextId := 2
    currentlyWiring := true
    currentWiringWire := some 0 }

/-- A scene in mode Wiring with a pending null wire at (100,50). -/
def pendingNullWireScene : GraphicsScene :=
  { newGraphicsScene with
    mouseAction := .Wiring
    wires := [(0, ⟨0, 1, (100, 50), (100, 50)⟩)]
    nextId := 2
    currentlyWiring := true
    currentWiringWire := some 0 }

/-- The example of the wiring: click at (0,0), move and click at (100,0), move
and click at (100,50), right click, in an empty scene in mode Wiring. -/
def wiringExample : Option GraphicsScene :=
  runSteps
    [wiringEventLeftMouseClick exampleQueries (0, 0), wiringEventMouseMove (100, 0),
      wiringEventLeftMouseClick exampleQueries (100, 0), wiringEventMouseMove (100, 50),
      wiringEventLeftMouseClick exampleQueries (100, 50),
      wiringEventRightMouseClick exampleQueries]
    (setMouseAction .Wiring newGraphicsScene)

/-- A scene for the splitting: a wire from (0,0) to (100,0) (ports 0 and 1) and
two ports 10 and 11 of other items at (0,0), connected to each other but not
to the wire. -/
def portOnWireEndScene : GraphicsScene :=
  { newGraphicsScene with
    wires := [(0, ⟨0, 1, (0, 0), (100, 0)⟩)]
    otherPorts := [(10, (0, 0)), (11, (0, 0))]
    connections := connectTo 10 11 noConnections
    nextId := 20 }

/-- A scene for the splitting: a null wire at (50,0) (ports 0 and 1) and a port
10 of another item at the same point, without connections. -/
def portOnNullWireScene : GraphicsScene :=
  { newGraphicsScene with
    wires := [(0, ⟨0, 1, (50, 0), (50, 0)⟩)]
    otherPorts := [(10, (50, 0))]
    nextId := 20 }

/-- A scene for the splitting: a wire W from (0,0) to (100,0) (ports 0 and 1)
whose port 1 is connected to the ports 10 and 11 of two other items at (0,0),
and a port 12 of a further item in the middle of the wire, at (50,0). -/
def junctionScene : GraphicsScene :=
  { newGraphicsScene with
    wires := [(0, ⟨0, 1, (0, 0), (100, 0)⟩)]
    otherPorts := [(10, (0, 0)), (11, (0, 0)), (12, (50, 0))]
    connections := connectTo 0 11 (connectTo 0 10 noConnections)
    nextId := 20 }

/-- The state after lines 741-757 of `splitAndCreateNodes` for the port `port`
and the colliding wire `w`: the two new wires are in the scene and the port is
connected to port 2 of the first and to port 1 of the second. -/
def createNode (port : Port) (w : Wire) (s : GraphicsScene) : GraphicsScene :=
  let new₁ := addNewWire w.scenePos1 (scenePos s port) s
  let new₂ := addNewWire (scenePos s port) w.scenePos2 new₁.2.2
  { new₂.2.2 with
    connections :=
      connectTo port new₂.2.1.port1 (connectTo port new₁.2.1.port2 new₂.2.2.connections) }

/-! ### Drawing paintings -/

/-- A mouse event of the scene as `paintingDrawEvent` reads it. -/
structure DrawMouseEvent where
  type : MouseEventType
  scenePos : Point
  /-- The value of `int(180/M_PI * qAtan2(-delta.y(), delta.x()))` of lines
  1348-1349 for this event. -/
  angle : Int
  /-- Whether the text dialog of line 1313 is accepted at this event. -/
  dialogAccepted : Bool

/-- The loops `while(angle < 0) angle += 360;` of lines 1352-1354 and
1360-1362. -/
def addFullTurns (angle : Int) : Int :=
  if angle < 0 then addFullTurns (angle + 360) else angle
termination_by (-angle).toNat
decreasing_by omega

/-- The method `GraphicsScene::beginPaintingDraw` (lines 606-613); `copy()`
returns a new item with the same data that is not in the scene. -/
def beginPaintingDraw (item : Painting) (s : GraphicsScene) : GraphicsScene :=
  { s with paintingDrawClicks := 0, paintingDrawItem := some { item with inScene := false } }

/-- The method `GraphicsScene::placeItem` (lines 1711-1727) for a painting: the
macro "Place items" is begun and ended around the insertion of the item at
`pos`, which is recorded. -/
def placeItem (item : Painting) (pos : Point) (s : GraphicsScene) : GraphicsScene :=
  { s with placedItems := s.placedItems ++ [(item, pos)] }

/-- The empty copy of lines 1341-1342: `copy()` followed by
`setPaintingRect(QRectF(0, 0, 0, 0))`. -/
def emptyCopy (item : Painting) : Painting :=
  { item with paintingRect := ((0, 0), (0, 0)), inScene := false }

/-- The branch of `paintingDrawEvent` for a mouse press (lines 1291-1344) with
the drawing item `item` and the point `dest`. -/
def paintingDrawPress (event : DrawMouseEvent) (item : Painting) (dest : Point)
    (s : GraphicsScene) : GraphicsScene :=
  let s₁ := { s with selectedItems := [], paintingDrawClicks := s.paintingDrawClicks + 1 }
  if item.type = .EllipseArc ∧ s₁.paintingDrawClicks < 4 then
    if s₁.paintingDrawClicks = 1 then
      { s₁ with
        paintingDrawItem :=
          some { item with startAngle := 0, spanAngle := 360, pos := dest, inScene := true } }
    else if s₁.paintingDrawClicks = 2 then
      { s₁ with paintingDrawItem := some { item with spanAngle := 180 } }
    else s₁
  else if item.type = .GraphicText then
    let s₂ :=
      if event.dialogAccepted then
        { placeItem item dest s₁ with
          paintingDrawItem := some { emptyCopy item with text := [] } }
      else s₁
    { s₂ with paintingDrawClicks := 0 }
  else if s₁.paintingDrawClicks = 1 then
    { s₁ with paintingDrawItem := some { item with pos := dest, inScene := true } }
  else
    let s₂ := { s₁ with paintingDrawClicks := 0 }
    { placeItem item item.pos s₂ with paintingDrawItem := some (emptyCopy item) }

/-- The branch of `paintingDrawEvent` for a mouse move (lines 1346-1373);
`gridifiedPos` is the snapped position of the cursor, mapped into the item by
subtracting the position of the item. -/
def paintingDrawMove (event : DrawMouseEvent) (item : Painting) (gridifiedPos : Point)
    (s : GraphicsScene) : GraphicsScene :=
  if item.type = .EllipseArc ∧ s.paintingDrawClicks > 1 then
    if s.paintingDrawClicks = 2 then
      { s with paintingDrawItem := some { item with startAngle := addFullTurns event.angle } }
    else if s.paintingDrawClicks = 3 then
      { s with
        paintingDrawItem :=
          some { item with spanAngle := addFullTurns (event.angle - item.startAngle) } }
    else s
  else if s.paintingDrawClicks = 1 then
    { s with
      paintingDrawItem :=
        some { item with
          paintingRect :=
            (item.paintingRect.1, (gridifiedPos.1 - item.pos.1, gridifiedPos.2 - item.pos.2)) } }
  else s

/-- The method `GraphicsScene::paintingDrawEvent` (lines 1270-1375); `snap` is
`smartNearingGridPoint`. -/
def paintingDrawEvent (snap : Point → Point) (event : DrawMouseEvent) (s : GraphicsScene) :
    GraphicsScene :=
  match s.paintingDrawItem with
  | none => s
  | some item =>
    let dest := snap (event.scenePos.1 + item.paintingRect.1.1,
      event.scenePos.2 + item.paintingRect.1.2)
    if event.type = .press then paintingDrawPress event item dest s
    else if event.type = .move then paintingDrawMove event item (snap event.scenePos) s
    else s

/-- A sequence of mouse events in mode PaintingDraw, from left to right. -/
def paintingDrawEvents (snap : Point → Point) : List DrawMouseEvent → GraphicsScene →
    GraphicsScene
  | [], s => s
  | event :: events, s => paintingDrawEvents snap events (paintingDrawEvent snap event s)

/-- An arc as constructed by `EllipseArc()`: start angle 20 and span 180. -/
def sampleArc : Painting :=
  ⟨.EllipseArc, (0, 0), ((0, 0), (0, 0)), 20, 180, [], false⟩

/-- A mouse press at a point. -/
def pressAt (p : Point) : DrawMouseEvent := ⟨.press, p, 0, false⟩

/-- The scene after `beginPaintingDraw` with the sample arc and two presses:
the click counter is 2 and the start angle of the arc is 0. -/
def arcAfterTwoPresses : GraphicsScene :=
  paintingDrawEvents (fun p => p) [pressAt (0, 0), pressAt (100, 0)]
    (beginPaintingDraw sampleArc newGraphicsScene)

/-! ### Special moves -/

/-- The values of `GraphicsItem::type()` that the handling of a move tests. -/
inductive ItemType where
  | ComponentType
  | WireType
  | PortSymbolType
  | PaintingType
  deriving DecidableEq, Repr

/-- Modelled from the spec: `DisconnectCmd(port, other)` is in undocommands.cpp,
which is not among the sources.  Pushed on the undo stack, the command removes
the connection of the two ports it names: each port leaves the connection list
of the other. -/
def disconnectPair (port other : Port) (m : Connections) : Connections := fun p =>
  if p = port then (m p).filter fun q => q ≠ other
  else if p = other then (m p).filter fun q => q ≠ port
  else m p

/-- The part of a scene that `processForSpecialMove` and
`disconnectDisconnectibles` read and write. -/
structure MoveScene where
  /-- The Caneda items among `selectedItems()`. -/
  selectedItems : List ItemPtr
  /-- The list `ports()` of an item. -/
  ports : ItemPtr → List Port
  /-- The item `parentItem()` of a port. -/
  parentItem : Port → ItemPtr
  /-- The value `type()` of an item. -/
  type : ItemPtr → ItemType
  /-- The lists `m_connections` of the ports. -/
  connections : Connections
  /-- The list `disconnectibles`. -/
  disconnectibles : List ItemPtr
  /-- The list `specialMoveItems`. -/
  specialMoveItems : List ItemPtr
  /-- The commands `DisconnectCmd(port, other)` pushed on `m_undoStack`. -/
  undoStack : List (Port × Port)

/-- The call `isSelected()` on an item. -/
def MoveScene.isSelected (s : MoveScene) (item : ItemPtr) : Bool :=
  decide (item ∈ s.selectedItems)

/-- The test of lines 1799-1800: the parent of the port is a component that is
not selected. -/
def MoveScene.ofUnselectedComponent (s : MoveScene) (other : Port) : Bool :=
  decide (s.type (s.parentItem other) = .ComponentType) && !s.isSelected (s.parentItem other)

/-- The tests of lines 1805-1814: the parent of the port is a wire or a port
symbol that is not selected. -/
def MoveScene.movesAlong (s : MoveScene) (other : Port) : List ItemPtr :=
  (if s.type (s.parentItem other) = .WireType ∧ !s.isSelected (s.parentItem other)
    then [s.parentItem other] else []) ++
  (if s.type (s.parentItem other) = .PortSymbolType ∧ !s.isSelected (s.parentItem other)
    then [s.parentItem other] else [])

/-- The method `GraphicsScene::processForSpecialMove` (lines 1781-1820): the
two lists are cleared and filled, item by item, port by port, connection by
connection. -/
def processForSpecialMove (s : MoveScene) : MoveScene :=
  { s with
    disconnectibles :=
      s.selectedItems.flatMap fun item =>
        (s.ports item).flatMap fun port =>
          (s.connections port).flatMap fun other =>
            if s.ofUnselectedComponent other then [item] else []
    specialMoveItems :=
      s.selectedItems.flatMap fun item =>
        (s.ports item).flatMap fun port =>
          (s.connections port).flatMap fun other => s.movesAlong other }

/-- The test of lines 1941-1943 on a peer `other` of a port of `item`. -/
def MoveScene.disconnectible (s : MoveScene) (item : ItemPtr) (other : Port) : Bool :=
  decide (s.type (s.parentItem other) = .ComponentType) &&
    decide (s.parentItem other ≠ item) && !s.isSelected (s.parentItem other)

/-- The body of the loop over the ports of `item` (lines 1938-1952): the first
peer that passes the test is disconnected by a pushed `DisconnectCmd`, and the
loop over the peers is left.  The state is the connection lists, the pushed
commands and the counter `disconnections`. -/
def disconnectPort (s : MoveScene) (item : ItemPtr)
    (acc : Connections × List (Port × Port) × Nat) (port : Port) :
    Connections × List (Port × Port) × Nat :=
  match (acc.1 port).find? (s.disconnectible item) with
  | some other => (disconnectPair port other acc.1, acc.2.1 ++ [(port, other)], acc.2.2 + 1)
  | none => acc

/-- The body of the loop over `disconnectibles` (lines 1935-1957); the third
component is the set `remove`. -/
def disconnectItem (s : MoveScene)
    (acc : Connections × List (Port × Port) × List ItemPtr) (item : ItemPtr) :
    Connections × List (Port × Port) × List ItemPtr :=
  let r := (s.ports item).foldl (disconnectPort s item) (acc.1, acc.2.1, 0)
  (r.1, r.2.1, if r.2.2 ≠ 0 ∧ item ∉ acc.2.2 then acc.2.2 ++ [item] else acc.2.2)

/-- The method `GraphicsScene::disconnectDisconnectibles` (lines 1931-1962). -/
def disconnectDisconnectibles (s : MoveScene) : MoveScene :=
  let r := s.disconnectibles.foldl (disconnectItem s) (s.connections, s.undoStack, [])
  { s with
    connections := r.1
    undoStack := r.2.1
    disconnectibles := s.disconnectibles.filter fun item => item ∉ r.2.2 }

/-- The number of peers of a port that belong to unselected components. -/
def looseEnds (s : MoveScene) (m : Connections) (port : Port) : Nat :=
  ((m port).filter s.ofUnselectedComponent).length

/-- A wire (item 1, ports 10 and 11, selected) whose port 10 is connected to the
ports 20 and 30 of the two unselected components 2 and 3, and whose port 11 is
connected to the port 40 of the unselected component 4. -/
def wireOnComponents : MoveScene where
  selectedItems := [1]
  ports := fun i =>
    if i = 1 then [10, 11] else if i = 2 then [20] else if i = 3 then [30]
    else if i = 4 then [40] else []
  parentItem := fun p => p / 10
  type := fun i => if i = 1 then .WireType else .ComponentType
  connections := fun p =>
    if p = 10 then [20, 30] else if p = 11 then [40] else if p = 20 then [10]
    else if p = 30 then [10] else if p = 40 then [11] else []
  disconnectibles := []
  specialMoveItems := []
  undoStack := []

/-! ### Moving items in mode Normal -/

/-- The method `GraphicsScene::normalEvent` (lines 1137-1201), as far as it
reads and writes `m_areItemsMoving`, the selection and the macros of the undo
stack.  The value `base event s` is the selection that the handler of the base
class `QGraphicsScene` leaves for the event.  The methods
`processForSpecialMove`, `disconnectDisconnectibles`, `specialMove` and
`endSpecialMove` neither begin nor end a macro.  A call of `endMacro` without
an open macro has no effect. -/
def normalEvent (base : MouseEvent → GraphicsScene → List ItemPtr) (event : MouseEvent)
    (s : GraphicsScene) : GraphicsScene :=
  match event.type with
  | .press => { s with selectedItems := base event s }
  | .move =>
    if !s.areItemsMoving then
      if event.buttons.left ∧ s.selectedItems ≠ [] then
        let s₁ := { s with areItemsMoving := true, openMacros := s.openMacros + 1 }
        { s₁ with selectedItems := base event s₁ }
      else { s with selectedItems := base event s }
    else { s with selectedItems := base event s }
  | .release =>
    if s.areItemsMoving then
      let s₁ := { s with areItemsMoving := false, openMacros := s.openMacros - 1 }
      { s₁ with selectedItems := base event s₁ }
    else { s with selectedItems := base event s }
  | .doubleClick => { s with selectedItems := base event s }

/-- A sequence of mouse events in mode Normal, from left to right. -/
def normalEvents (base : MouseEvent → GraphicsScene → List ItemPtr) :
    List MouseEvent → GraphicsScene → GraphicsScene
  | [], s => s
  | event :: events, s => normalEvents base events (normalEvent base event s)

/-- A base class handler for the examples: a press selects the item 7, the
other events keep the selection. -/
def selectOnPress (event : MouseEvent) (s : GraphicsScene) : List ItemPtr :=
  if event.type = .press then [7] else s.selectedItems

/-- The scene after a press on an item and a move with the left button held:
the item is being moved. -/
def dragStarted : GraphicsScene :=
  normalEvents selectOnPress
    [⟨.press, (0, 0), ⟨true, false⟩⟩, ⟨.move, (10, 0), ⟨true, false⟩⟩] newGraphicsScene

/-- The scene after a move was started, the mouse action was set to Wiring and
back to Normal, and the button was released. -/
def dragInterrupted : GraphicsScene :=
  normalEvent selectOnPress ⟨.release, (10, 0), ⟨false, false⟩⟩
    (setMouseAction .Normal (setMouseAction .Wiring dragStarted))

/-! ### Components: shared data, ports, saving and loading -/

/-- A `QTransform` without projection: the point (x, y) is mapped to
(m11 x + m21 y + dx, m12 x + m22 y + dy). -/
structure QTransform where
  m11 : Int
  m12 : Int
  m21 : Int
  m22 : Int
  dx : Int
  dy : Int
  deriving DecidableEq, Repr

/-- The identity transform, the value of `QTransform()`. -/
def QTransform.identity : QTransform := ⟨1, 0, 0, 1, 0, 0⟩

/-- The product `a * b` of Qt: first `a`, then `b`. -/
def QTransform.mul (a b : QTransform) : QTransform :=
  ⟨a.m11 * b.m11 + a.m12 * b.m21, a.m11 * b.m12 + a.m12 * b.m22,
    a.m21 * b.m11 + a.m22 * b.m21, a.m21 * b.m12 + a.m22 * b.m22,
    a.dx * b.m11 + a.dy * b.m21 + b.dx, a.dx * b.m12 + a.dy * b.m22 + b.dy⟩

/-- The transform `QTransform::fromTranslate(p.x(), p.y())`. -/
def QTransform.fromTranslate (p : Point) : QTransform := ⟨1, 0, 0, 1, p.1, p.2⟩

/-- The rotation by an angle in degrees that is a multiple of 90, the only
angles that `GraphicsItem::rotate` produces; Qt computes these exactly. -/
def QTransform.rotation (degrees : Int) : QTransform :=
  if (degrees / 90) % 4 = 1 then ⟨0, 1, -1, 0, 0, 0⟩
  else if (degrees / 90) % 4 = 2 then ⟨-1, 0, 0, -1, 0, 0⟩
  else if (degrees / 90) % 4 = 3 then ⟨0, -1, 1, 0, 0, 0⟩
  else QTransform.identity

/-- The map `QTransform::map` on a point. -/
def QTransform.map (t : QTransform) (p : Point) : Point :=
  (t.m11 * p.1 + t.m21 * p.2 + t.dx, t.m12 * p.1 + t.m22 * p.2 + t.dy)

/-- A `PortData` of a component declaration: name and position. -/
structure PortData where
  name : QString
  pos : Point
  deriving DecidableEq, Repr

/-- Modelled from the spec: the property map of a `PropertyGroup` (property.cpp
is not among the sources): the property names with their values. -/
abbrev PropertyMap := List (QString × QString)

/-- The value of a property, `none` when the map has no such property. -/
def propertyValue (name : QString) (m : PropertyMap) : Option QString :=
  (m.find? fun p => p.1 = name).map Prod.snd

/-- Modelled from the spec: `PropertyGroup::setPropertyValue` sets the value of
an existing property and leaves the map unchanged when the map has no property
of that name. -/
def setPropertyValue (name value : QString) (m : PropertyMap) : PropertyMap :=
  m.map fun p => if p.1 = name then (p.1, value) else p

/-- Modelled from the spec: `PropertyGroup::addProperty` inserts the property
into the map, replacing a property of the same name. -/
def addProperty (name value : QString) (m : PropertyMap) : PropertyMap :=
  if (propertyValue name m).isSome then setPropertyValue name value m else m ++ [(name, value)]

/-- The class `ComponentData` (component.cpp, lines 35-67). -/
structure ComponentData where
  name : QString
  filename : QString
  displayText : QString
  labelPrefix : QString
  description : QString
  library : QString
  ports : List PortData
  properties : PropertyMap
  models : List (QString × QString)
  deriving DecidableEq

/-- The constructor `ComponentData::ComponentData` (lines 35-39). -/
def ComponentData.empty : ComponentData := ⟨[], [], [], [], [], [], [], [], []⟩

/-- The method `ComponentData::setData` (lines 51-67): every member is copied;
of the properties the map is copied into the property group of this data. -/
def ComponentData.setData (_d other : ComponentData) : ComponentData :=
  { name := other.name
    filename := other.filename
    displayText := other.displayText
    labelPrefix := other.labelPrefix
    description := other.description
    library := other.library
    ports := other.ports
    properties := other.properties
    models := other.models }

/-- A `Component` item with the state that `QGraphicsItem` keeps for it:
position, base transform and rotation.  The name `Component` is taken by the
view of a component that the export reads. -/
structure ComponentItem where
  /-- The shared data `d`. -/
  d : ComponentData
  /-- The list `m_ports`: a name and a position for every port. -/
  m_ports : List PortData
  /-- The value of `pos()`. -/
  pos : Point
  /-- The value of `transform()`. -/
  transform : QTransform
  /-- The value of `rotation()`, in degrees. -/
  rotation : Int
  deriving DecidableEq

/-- The method `Component::updateSharedData` (lines 100-122): the label
property is added, and one new port per port declaration of the data is
appended to `m_ports`. -/
def updateSharedData (c : ComponentItem) : ComponentItem :=
  { c with
    d := { c.d with
      properties := addProperty "label".toList (c.d.labelPrefix ++ ['1']) c.d.properties }
    m_ports := c.m_ports ++ c.d.ports.map fun data => ⟨data.name, data.pos⟩ }

/-- The constructor `Component::Component` (lines 74-84), the item at the
origin without rotation. -/
def ComponentItem.new : ComponentItem :=
  updateSharedData ⟨ComponentData.empty, [], (0, 0), QTransform.identity, 0⟩

/-- The method `Component::setComponentData` (lines 159-163). -/
def setComponentData (other : ComponentData) (c : ComponentItem) : ComponentItem :=
  updateSharedData { c with d := c.d.setData other }

/-- The method `Component::label`: the value of the property "label". -/
def ComponentItem.label (c : ComponentItem) : Option QString :=
  propertyValue "label".toList c.d.properties

/-- The value of `sceneTransform()` of an item without parent (Qt): the base
transform, combined with the rotation about the origin of the item and with
the translation to its position. -/
def ComponentItem.sceneTransform (c : ComponentItem) : QTransform :=
  ((QTransform.rotation c.rotation).mul c.transform).mul (QTransform.fromTranslate c.pos)

/-- Modelled from the spec: the element "component" that the writer produces
and the reader consumes (xmlutilities.cpp is not among the sources): the values
that `saveData` hands to the writer for the attributes and for the properties
of the child element. -/
structure ComponentElement where
  name : QString
  library : QString
  pos : Point
  transform : QTransform
  properties : PropertyMap

/-- The method `Component::saveData` (lines 254-266). -/
def saveData (c : ComponentItem) : ComponentElement :=
  { name := c.d.name
    library := c.d.library
    pos := c.pos
    transform := c.sceneTransform
    properties := c.d.properties }

/-- Modelled from the spec: `PropertyGroup::readProperties` sets the value of
every property that the element lists. -/
def readProperties (written : PropertyMap) (m : PropertyMap) : PropertyMap :=
  written.foldl (fun m p => setPropertyValue p.1 p.2 m) m

/-- The method `Component::loadData` (lines 279-319); `componentData` is
`LibraryManager::componentData`, `none` for a null pointer.  The value
`readTransformAttribute t` is what `XmlReader::readTransformAttribute` returns
for the attribute that `XmlWriter::writeTransformAttribute` wrote from `t`;
nothing is assumed of it. -/
def loadData (componentData : QString → QString → Option ComponentData)
    (readTransformAttribute : QTransform → QTransform)
    (element : ComponentElement) (c : ComponentItem) : ComponentItem :=
  let c₁ :=
    { c with pos := element.pos, transform := readTransformAttribute element.transform }
  match componentData element.name element.library with
  | some data =>
    let c₂ := setComponentData data c₁
    { c₂ with d := { c₂.d with properties := readProperties element.properties c₂.d.properties } }
  | none => c₁

/-- A reader that returns the entries of the transform as they were written. -/
def readAsWritten (t : QTransform) : QTransform := t

/-- A reader that returns the entries of the transform without the
translation. -/
def readWithoutTranslation (t : QTransform) : QTransform := { t with dx := 0, dy := 0 }

/-- The method `GraphicsItem::rotate` (graphicsitem.cpp, lines 66-82); `snap`
is `smartNearingGridPoint`. -/
def ComponentItem.rotate (snap : Point → Point) (clockwise : Bool) (pivotPoint : Point)
    (c : ComponentItem) : ComponentItem :=
  let angle : Int := if clockwise then 90 else -90
  let newPos := (QTransform.rotation angle).map (c.pos.1 - pivotPoint.1, c.pos.2 - pivotPoint.2)
  { c with
    rotation := c.rotation + angle
    pos := snap (newPos.1 + pivotPoint.1, newPos.2 + pivotPoint.2) }

/-- The data of a resistor in the library "Passive": two ports, the label
prefix R and a property R. -/
def resistorData : ComponentData :=
  { name := "Resistor".toList
    filename := []
    displayText := "Resistor".toList
    labelPrefix := "R".toList
    description := []
    library := "Passive".toList
    ports := [⟨"A".toList, (-20, 0)⟩, ⟨"B".toList, (20, 0)⟩]
    properties := [("R".toList, "1k".toList)]
    models := [] }

/-- A library that knows the resistor only. -/
def sampleLibrary (name library : QString) : Option ComponentData :=
  if name = "Resistor".toList ∧ library = "Passive".toList then some resistorData else none

/-- A resistor R7 of 47k at (100, 40), turned clockwise once. -/
def rotatedResistor : ComponentItem :=
  let c := setComponentData resistorData ComponentItem.new
  let c₁ :=
    { c with
      d := { c.d with
        properties :=
          setPropertyValue "R".toList "47k".toList
            (setPropertyValue "label".toList "R7".toList c.d.properties) }
      pos := (100, 40) }
  c₁.rotate (fun p => p) true (100, 40)

/-! ### Labels of placed components -/

/-- An item of the selection as `distributeElements` reads it: its type and
its position.  The coordinates are `qreal` values; a finite one is a rational
number. -/
structure MovableItem where
  type : ItemType
  pos : ℚ × ℚ

/-- The loop of lines 305-317: every item that is not a wire is moved to the
running coordinate `x`, which then advances by `dx`; its y is kept.  `fl` is
the rounding of the `qreal` arithmetic: the sum `x += dx` is `fl` of the exact
sum. -/
def distributeLoopX (fl : ℚ → ℚ) (dx : ℚ) : ℚ → List MovableItem → List MovableItem
  | _, [] => []
  | x, item :: items =>
    if item.type = .WireType then item :: distributeLoopX fl dx x items
    else { item with pos := (x, item.pos.2) } :: distributeLoopX fl dx (fl (x + dx)) items

/-- The loop of lines 345-357, the vertical counterpart. -/
def distributeLoopY (fl : ℚ → ℚ) (dy : ℚ) : ℚ → List MovableItem → List MovableItem
  | _, [] => []
  | y, item :: items =>
    if item.type = .WireType then item :: distributeLoopY fl dy y items
    else { item with pos := (item.pos.1, y) } :: distributeLoopY fl dy (fl (y + dy)) items

/-- The method `GraphicsScene::distributeElementsHorizontally` (lines
279-323): the items in sorted order after the moves.  `sortX` is `std::sort`
with `pointCmpFunction_X`, and `fl` is the rounding of the `qreal` arithmetic:
the difference and the quotient of line 302 are `fl` of the exact results, the
number of items being converted without rounding.  The result is `none` when
`first()` is called on an empty list.  For a single item the code divides by
zero and the step is not a number; the position of the item is set before the
step is added, so that the step is not used, and it is 0 here. -/
def distributeElementsHorizontally (fl : ℚ → ℚ)
    (sortX : List MovableItem → List MovableItem)
    (items : List MovableItem) : Option (List MovableItem) :=
  let items := sortX items
  match items.head?, items.getLast? with
  | some first, some last =>
    some (distributeLoopX fl (fl (fl (last.pos.1 - first.pos.1) / ((items.length : ℚ) - 1)))
      first.pos.1 items)
  | _, _ => none

/-- The method `GraphicsScene::distributeElementsVertically` (lines 325-363). -/
def distributeElementsVertically (fl : ℚ → ℚ)
    (sortY : List MovableItem → List MovableItem)
    (items : List MovableItem) : Option (List MovableItem) :=
  let items := sortY items
  match items.head?, items.getLast? with
  | some first, some last =>
    some (distributeLoopY fl (fl (fl (last.pos.2 - first.pos.2) / ((items.length : ℚ) - 1)))
      first.pos.2 items)
  | _, _ => none

/-- The method `GraphicsScene::distributeElements` (lines 252-277) on the
Caneda items of the selection: the returned value and the items. -/
def distributeElements (fl : ℚ → ℚ) (sortX sortY : List MovableItem → List MovableItem)
    (horizontal : Bool) (items : List MovableItem) : Option (Bool × List MovableItem) :=
  if items.length < 2 then some (false, items)
  else if horizontal then
    (distributeElementsHorizontally fl sortX items).map fun r => (true, r)
  else (distributeElementsVertically fl sortY items).map fun r => (true, r)

/-- The items that are moved: those that are not wires. -/
def movedItems (items : List MovableItem) : List MovableItem :=
  items.filter fun item => item.type ≠ .WireType

/-- A selection, sorted by x: a component at (0, 0), a wire at (10, 5) and
components at (20, 7) and (30, 9). -/
def componentsAndWire : List MovableItem :=
  [⟨.ComponentType, (0, 0)⟩, ⟨.WireType, (10, 5)⟩, ⟨.ComponentType, (20, 7)⟩,
    ⟨.ComponentType, (30, 9)⟩]

/-- A selection, sorted by x: components at (0, 0), (5, 5) and (30, 9). -/
def threeComponents : List MovableItem :=
  [⟨.ComponentType, (0, 0)⟩, ⟨.ComponentType, (5, 5)⟩, ⟨.ComponentType, (30, 9)⟩]

/-! ### `Painting::fromName` -/

/-- The classes of the paintings that `Painting::fromName` constructs. -/
inductive PaintingClass where
  | GraphicLine
  | Arrow
  | Ellipse
  | Rectangle
  | EllipseArc
  | GraphicText
  deriving DecidableEq, Repr

/-- The method `Painting::fromName` (painting.cpp, lines 64-116); `tr` is
`QObject::tr`.  The outer `none` stands for the call `name.at(0)` on an empty
string, which reads out of range; `some none` is the null pointer. -/
def fromName (tr : QString → QString) (name : QString) : Option (Option PaintingClass) :=
  match name[0]? with
  | none => none
  | some first =>
    if first.isUpper then
      if name = tr "Line".toList then some (some .GraphicLine)
      else if name = tr "Arrow".toList then some (some .Arrow)
      else if name = tr "Ellipse".toList then some (some .Ellipse)
      else if name = tr "Rectangle".toList then some (some .Rectangle)
      else if name = tr "Elliptic Arc".toList then some (some .EllipseArc)
      else if name = tr "Text".toList then some (some .GraphicText)
      else some none
    else
      if name = "line".toList then some (some .GraphicLine)
      else if name = "arrow".toList then some (some .Arrow)
      else if name = "ellipse".toList then some (some .Ellipse)
      else if name = "rectangle".toList then some (some .Rectangle)
      else if name = "ellipseArc".toList then some (some .EllipseArc)
      else if name = "text".toList then some (some .GraphicText)
      else some none

/-! ### Consistency of the wiring state -/

/-- The wiring state is consistent: `m_currentlyWiring` is true exactly when
`m_currentWiringWire` refers to a wire that is in the scene. -/
def WiringConsistent (s : GraphicsScene) : Prop :=
  s.currentlyWiring = true ↔ (currentWire s).isSome = true

/-! ### Specification side of the search for the id of a port -/

/-- The id of the port in the table: the table holds the pair of the port and
the id, and no pair of the port after it.  When the table lists the port under
a single id, this is the id of every pair of the port. -/
def IsIdOfPort (netlist : Netlist) (port : Port) (id : Int) : Prop :=
  ∃ before after : Netlist, netlist = before ++ (port, id) :: after ∧
    ∀ e ∈ after, e.1 ≠ port
/-! ## Theorems -/

/-! ### The numbering loop -/

theorem ReturnsClasses.symm {equi : Port → List Port} (h : ReturnsClasses equi)
    {p q : Port} (hq : q ∈ equi p) : p ∈ equi q :=
  (h.2 p q hq p).2 (h.1 p)

theorem ReturnsClasses.trans {equi : Port → List Port} (h : ReturnsClasses equi)
    {p q r : Port} (hq : q ∈ equi p) (hr : r ∈ equi q) : r ∈ equi p :=
  (h.2 p q hq r).1 hr

theorem topologyLoop_eq (equi : Port → List Port) (h : ReturnsClasses equi) :
    ∀ (ports seen : List Port) (equiId : Int) (netlist : Netlist) (parsed : List Port),
      (∀ x, x ∈ parsed ↔ ∃ q ∈ seen, x ∈ equi q) →
      (topologyLoop equi ports equiId netlist parsed).1 =
        netlist ++ netBlocks equi equiId (firstPorts equi seen ports) := by
  intro ports
  induction ports with
  | nil => intro seen equiId netlist parsed _; simp [topologyLoop, firstPorts, netBlocks]
  | cons p ports ih =>
    intro seen equiId netlist parsed hinv
    by_cases hp : p ∈ parsed
    · have hseen : ∃ q ∈ seen, q ∈ equi p := by
        obtain ⟨q, hq, hpq⟩ := (hinv p).1 hp
        exact ⟨q, hq, h.symm hpq⟩
      have hany : (seen.any fun q => (equi p).contains q) = true := by
        simpa [List.any_eq_true] using hseen
      have hinv2 : ∀ x, x ∈ parsed ↔ ∃ q ∈ seen ++ [p], x ∈ equi q := by
        intro x
        constructor
        · intro hx
          obtain ⟨q, hq, hxq⟩ := (hinv x).1 hx
          exact ⟨q, List.mem_append_left _ hq, hxq⟩
        · rintro ⟨q, hq, hxq⟩
          rcases List.mem_append.1 hq with hq | hq
          · exact (hinv x).2 ⟨q, hq, hxq⟩
          · have hqp : q = p := by simpa using hq
            subst hqp
            obtain ⟨s, hs, hqs⟩ := (hinv q).1 hp
            exact (hinv x).2 ⟨s, hs, h.trans hqs hxq⟩
      have hc : parsed.contains p = true := by simpa using hp
      simp only [topologyLoop, firstPorts, hc, hany, if_true]
      exact ih _ _ _ _ hinv2
    · have hseen : ¬ ∃ q ∈ seen, q ∈ equi p := by
        rintro ⟨q, hq, hqp⟩
        exact hp ((hinv p).2 ⟨q, hq, h.symm hqp⟩)
      have hany : (seen.any fun q => (equi p).contains q) = false := by
        rw [Bool.eq_false_iff]
        intro hc
        apply hseen
        simpa [List.any_eq_true] using hc
      have hinv2 : ∀ x, x ∈ parsed ++ equi p ↔ ∃ q ∈ seen ++ [p], x ∈ equi q := by
        intro x
        constructor
        · intro hx
          rcases List.mem_append.1 hx with hx | hx
          · obtain ⟨q, hq, hxq⟩ := (hinv x).1 hx
            exact ⟨q, List.mem_append_left _ hq, hxq⟩
          · exact ⟨p, by simp, hx⟩
        · rintro ⟨q, hq, hxq⟩
          rcases List.mem_append.1 hq with hq | hq
          · exact List.mem_append_left _ ((hinv x).2 ⟨q, hq, hxq⟩)
          · have hqp : q = p := by simpa using hq
            subst hqp
            exact List.mem_append_right _ hxq
      have hc : parsed.contains p = false := by simpa using hp
      simp only [topologyLoop, firstPorts, hc, hany, if_false, Bool.false_eq_true]
      rw [ih _ _ _ _ hinv2]
      simp [netBlocks, List.append_assoc]

theorem assignNetIds_eq (equi : Port → List Port) (h : ReturnsClasses equi) (ports : List Port) :
    assignNetIds equi ports = netBlocks equi 1 (firstPorts equi [] ports) := by
  unfold assignNetIds
  rw [topologyLoop_eq equi h ports [] 1 [] [] (by simp)]
  simp


theorem mem_netBlocks (equi : Port → List Port) (q : Port) (n : Int) :
    ∀ (reps : List Port) (first : Int),
      (q, n) ∈ netBlocks equi first reps ↔
        ∃ (i : Nat) (r : Port), reps[i]? = some r ∧ q ∈ equi r ∧ n = first + i := by
  intro reps
  induction reps with
  | nil => intro first; simp [netBlocks]
  | cons r reps ih =>
    intro first
    simp only [netBlocks, List.mem_append, List.mem_map, Prod.mk.injEq, ih]
    constructor
    · rintro (⟨x, hx, rfl, rfl⟩ | ⟨i, s, hs, hq, rfl⟩)
      · exact ⟨0, r, by simp, hx, by simp⟩
      · exact ⟨i + 1, s, by simpa using hs, hq, by push_cast; ring⟩
    · rintro ⟨i, s, hs, hq, rfl⟩
      cases i with
      | zero =>
        left
        have : r = s := by simpa using hs
        subst this
        exact ⟨q, hq, rfl, by simp⟩
      | succ i =>
        right
        exact ⟨i, s, by simpa using hs, hq, by push_cast; ring⟩

theorem firstPorts_mem (equi : Port → List Port) :
    ∀ (ports seen : List Port) (r : Port), r ∈ firstPorts equi seen ports →
      r ∈ ports ∧ ∀ q ∈ seen, q ∉ equi r := by
  intro ports
  induction ports with
  | nil => intro seen r hr; simp [firstPorts] at hr
  | cons p ports ih =>
    intro seen r hr
    by_cases hany : (seen.any fun q => (equi p).contains q) = true
    · simp only [firstPorts, hany, if_true] at hr
      obtain ⟨h1, h2⟩ := ih _ _ hr
      exact ⟨List.mem_cons_of_mem _ h1, fun q hq => h2 q (List.mem_append_left _ hq)⟩
    · simp only [firstPorts, hany, if_false, Bool.false_eq_true, List.mem_cons] at hr
      rcases hr with rfl | hr
      · refine ⟨List.mem_cons_self _ _, ?_⟩
        intro q hq hqr
        apply hany
        simp only [List.any_eq_true]
        exact ⟨q, hq, by simpa using hqr⟩
      · obtain ⟨h1, h2⟩ := ih _ _ hr
        exact ⟨List.mem_cons_of_mem _ h1, fun q hq => h2 q (List.mem_append_left _ hq)⟩

theorem firstPorts_pairwise (equi : Port → List Port) :
    ∀ (ports seen : List Port),
      (firstPorts equi seen ports).Pairwise (fun r s => r ∉ equi s) := by
  intro ports
  induction ports with
  | nil => intro seen; simp [firstPorts]
  | cons p ports ih =>
    intro seen
    by_cases hany : (seen.any fun q => (equi p).contains q) = true
    · simp only [firstPorts, hany, if_true]
      exact ih _
    · simp only [firstPorts, hany, if_false, Bool.false_eq_true, List.pairwise_cons]
      refine ⟨?_, ih _⟩
      intro s hs
      exact (firstPorts_mem equi ports (seen ++ [p]) s hs).2 p (by simp)

theorem firstPorts_cover (equi : Port → List Port) (h : ReturnsClasses equi) :
    ∀ (ports seen : List Port) (p : Port), p ∈ ports →
      (∃ q ∈ seen, q ∈ equi p) ∨ ∃ r ∈ firstPorts equi seen ports, p ∈ equi r := by
  intro ports
  induction ports with
  | nil => intro seen p hp; simp at hp
  | cons a ports ih =>
    intro seen p hp
    by_cases hany : (seen.any fun q => (equi a).contains q) = true
    · have hseen : ∃ q ∈ seen, q ∈ equi a := by
        simpa [List.any_eq_true] using hany
      simp only [firstPorts, hany, if_true]
      rcases List.mem_cons.1 hp with rfl | hp
      · exact Or.inl hseen
      · rcases ih (seen ++ [a]) p hp with ⟨q, hq, hqp⟩ | hr
        · rcases List.mem_append.1 hq with hq | hq
          · exact Or.inl ⟨q, hq, hqp⟩
          · have hqa : q = a := by simpa using hq
            subst hqa
            obtain ⟨s, hs, hsq⟩ := hseen
            exact Or.inl ⟨s, hs, h.trans hqp hsq⟩
        · exact Or.inr hr
    · simp only [firstPorts, hany, if_false, Bool.false_eq_true]
      rcases List.mem_cons.1 hp with rfl | hp
      · exact Or.inr ⟨p, List.mem_cons_self _ _, h.1 p⟩
      · rcases ih (seen ++ [a]) p hp with ⟨q, hq, hqp⟩ | ⟨r, hr, hpr⟩
        · rcases List.mem_append.1 hq with hq | hq
          · exact Or.inl ⟨q, hq, hqp⟩
          · have hqa : q = a := by simpa using hq
            subst hqa
            exact Or.inr ⟨q, List.mem_cons_self _ _, h.symm hqp⟩
        · exact Or.inr ⟨r, List.mem_cons_of_mem _ hr, hpr⟩

/-- Two representatives whose classes share a port are at the same index. -/
theorem firstPorts_index_unique (equi : Port → List Port) (h : ReturnsClasses equi)
    (ports : List Port) (i j : Nat) (r s q : Port)
    (hi : (firstPorts equi [] ports)[i]? = some r) (hj : (firstPorts equi [] ports)[j]? = some s)
    (hqr : q ∈ equi r) (hqs : q ∈ equi s) : i = j := by
  have hpw := firstPorts_pairwise equi ports []
  have hrs : r ∈ equi s := h.trans hqs (h.symm hqr)
  have hsr : s ∈ equi r := h.symm hrs
  rcases Nat.lt_trichotomy i j with hlt | heq | hgt
  · exfalso
    have hi2 := List.getElem?_eq_some.1 hi
    have hj2 := List.getElem?_eq_some.1 hj
    obtain ⟨hil, hie⟩ := hi2
    obtain ⟨hjl, hje⟩ := hj2
    have := List.pairwise_iff_getElem.1 hpw i j hil hjl hlt
    rw [hie, hje] at this
    exact this hrs
  · exact heq
  · exfalso
    have hi2 := List.getElem?_eq_some.1 hi
    have hj2 := List.getElem?_eq_some.1 hj
    obtain ⟨hil, hie⟩ := hi2
    obtain ⟨hjl, hje⟩ := hj2
    have := List.pairwise_iff_getElem.1 hpw j i hjl hil hgt
    rw [hie, hje] at this
    exact this hsr

theorem pairClasses_returnsClasses : ReturnsClasses pairClasses := by
  constructor
  · intro p
    unfold pairClasses
    split_ifs with hp
    · rcases hp with rfl | rfl <;> simp
    · simp
  · intro p q hq r
    unfold pairClasses at hq ⊢
    by_cases hp : p = 1 ∨ p = 2
    · have hq2 : q = 1 ∨ q = 2 := by simpa [hp] using hq
      simp [hp, hq2]
    · have hq2 : q = p := by simpa [hp] using hq
      subst hq2
      simp [hp]

/-- C1: in `FormatSpice::generateNetlistTopology`, before `replacePortNames`
runs, the net ids come from a counter that starts at 1.  When
`getEquipotentialPorts` returns connectivity classes, then for every port list:
every port lies in the class of one of the first ports `reps`; these first
ports lie in pairwise different classes; the class of the `i`-th first port
(counting from 0) gets the id `i + 1` and no other id; every pair of the table
arises this way, so the ids that occur are exactly `1, ..., k`; two pairs have
the same id exactly when their ports are in one class; and no id is 0. -/
theorem C1_net_ids_sequential (equi : Port → List Port) (ports : List Port)
    (h : ReturnsClasses equi) :
    (∀ p ∈ ports, ∃ r ∈ firstPorts equi [] ports, p ∈ equi r) ∧
    (firstPorts equi [] ports).Pairwise (fun r s => r ∉ equi s ∧ s ∉ equi r) ∧
    (∀ (i : Nat) (r : Port), (firstPorts equi [] ports)[i]? = some r → ∀ q ∈ equi r,
      (q, (i : Int) + 1) ∈ assignNetIds equi ports ∧
      ∀ n, (q, n) ∈ assignNetIds equi ports → n = (i : Int) + 1) ∧
    (∀ e ∈ assignNetIds equi ports, ∃ (i : Nat) (r : Port),
      (firstPorts equi [] ports)[i]? = some r ∧ e.1 ∈ equi r ∧ e.2 = (i : Int) + 1) ∧
    (∀ n : Int, (∃ e ∈ assignNetIds equi ports, e.2 = n) ↔
      1 ≤ n ∧ n ≤ (firstPorts equi [] ports).length) ∧
    (∀ e₁ ∈ assignNetIds equi ports, ∀ e₂ ∈ assignNetIds equi ports,
      (e₁.2 = e₂.2 ↔ e₂.1 ∈ equi e₁.1)) ∧
    (∀ e ∈ assignNetIds equi ports, e.2 ≠ 0) := by
  have htab := assignNetIds_eq equi h ports
  have hmem : ∀ (q : Port) (n : Int), (q, n) ∈ assignNetIds equi ports ↔
      ∃ (i : Nat) (r : Port), (firstPorts equi [] ports)[i]? = some r ∧ q ∈ equi r ∧
        n = (i : Int) + 1 := by
    intro q n
    rw [htab, mem_netBlocks]
    constructor
    · rintro ⟨i, r, hr, hq, hn⟩
      exact ⟨i, r, hr, hq, by rw [hn]; ring⟩
    · rintro ⟨i, r, hr, hq, hn⟩
      exact ⟨i, r, hr, hq, by rw [hn]; ring⟩
  refine ⟨?_, ?_, ?_, ?_, ?_, ?_, ?_⟩
  · intro p hp
    rcases firstPorts_cover equi h ports [] p hp with ⟨q, hq, _⟩ | hr
    · simp at hq
    · exact hr
  · refine (firstPorts_pairwise equi ports []).imp_of_mem ?_
    intro r s _ _ hrs
    exact ⟨hrs, fun hsr => hrs (h.symm hsr)⟩
  · intro i r hr q hq
    refine ⟨(hmem q _).2 ⟨i, r, hr, hq, rfl⟩, ?_⟩
    intro n hn
    obtain ⟨j, s, hs, hqs, rfl⟩ := (hmem q n).1 hn
    have := firstPorts_index_unique equi h ports i j r s q hr hs hq hqs
    rw [this]
  · rintro ⟨q, n⟩ he
    exact (hmem q n).1 he
  · intro n
    constructor
    · rintro ⟨⟨q, m⟩, he, rfl⟩
      obtain ⟨i, r, hr, _, hm⟩ := (hmem q m).1 he
      have hil := (List.getElem?_eq_some.1 hr).1
      simp only [hm]
      constructor
      · omega
      · omega
    · rintro ⟨h1, h2⟩
      have hlt : (n - 1).toNat < (firstPorts equi [] ports).length := by omega
      refine ⟨((firstPorts equi [] ports)[(n - 1).toNat], n), ?_, rfl⟩
      refine (hmem _ n).2 ⟨(n - 1).toNat, _, List.getElem?_eq_getElem hlt, h.1 _, ?_⟩
      omega
  · rintro ⟨p, n⟩ h₁ ⟨q, m⟩ h₂
    obtain ⟨i, r, hr, hpr, rfl⟩ := (hmem p n).1 h₁
    obtain ⟨j, s, hs, hqs, rfl⟩ := (hmem q m).1 h₂
    simp only
    constructor
    · intro hij
      have hij2 : i = j := by omega
      subst hij2
      have hrs : r = s := by rw [hr] at hs; simpa using hs
      subst hrs
      exact h.trans (h.symm hpr) hqs
    · intro hqp
      have hqr : q ∈ equi r := h.trans hpr hqp
      have := firstPorts_index_unique equi h ports i j r s q hr hs hqr hqs
      rw [this]
  · rintro ⟨q, n⟩ he
    obtain ⟨i, r, _, _, rfl⟩ := (hmem q n).1 he
    simp only
    omega

/-- Witness for C1: ports 1 and 2 joined, port 3 alone, enumerated as
3, 1, 2: the hypothesis holds and no id of the table is 0. -/
theorem C1_net_ids_sequential_witness :
    ReturnsClasses pairClasses ∧ ∀ e ∈ assignNetIds pairClasses [3, 1, 2], e.2 ≠ 0 :=
  ⟨pairClasses_returnsClasses,
    (C1_net_ids_sequential pairClasses [3, 1, 2] pairClasses_returnsClasses).2.2.2.2.2.2⟩

theorem assignNetIds_pairClasses :
    assignNetIds pairClasses [3, 1, 2] = [(3, 1), (1, 2), (2, 2)] := by decide

/-! ### The ground renaming -/

theorem findNetName_foldGround (port : Port) (ids : List Int) :
    ∀ (netlist : Netlist) (netName : Option Int),
      findNetName port (foldGround ids netlist) (netName.map fun n => if n ∈ ids then 0 else n) =
        (findNetName port netlist netName).map fun n => if n ∈ ids then 0 else n := by
  intro netlist
  induction netlist with
  | nil => intro netName; simp [foldGround, findNetName]
  | cons e netlist ih =>
    intro netName
    have ih2 := ih (if e.1 = port then some e.2 else netName)
    unfold foldGround at ih2 ⊢
    simp only [List.map_cons, findNetName]
    rw [← ih2]
    congr 1
    by_cases hp : e.1 = port <;> by_cases he : e.2 ∈ ids <;> simp [hp, he]

theorem findNetName_found (port : Port) :
    ∀ (netlist : Netlist) (netName : Option Int),
      ((∃ e ∈ netlist, e.1 = port) ∨ netName.isSome) →
      ∃ n, findNetName port netlist netName = some n ∧
        ((port, n) ∈ netlist ∨ netName = some n) := by
  intro netlist
  induction netlist with
  | nil =>
    intro netName h
    rcases h with ⟨e, he, _⟩ | h
    · simp at he
    · obtain ⟨n, rfl⟩ := Option.isSome_iff_exists.1 h
      exact ⟨n, rfl, Or.inr rfl⟩
  | cons e netlist ih =>
    intro netName h
    simp only [findNetName]
    by_cases hp : e.1 = port
    · simp only [hp, if_true]
      obtain ⟨n, hn, hmem⟩ := ih (some e.2) (Or.inr rfl)
      refine ⟨n, hn, Or.inl ?_⟩
      rcases hmem with hmem | hmem
      · exact List.mem_cons_of_mem _ hmem
      · have : e.2 = n := by simpa using hmem
        rw [← this, ← hp]
        exact List.mem_cons_self _ _
    · simp only [hp, if_false]
      have h2 : (∃ e ∈ netlist, e.1 = port) ∨ netName.isSome := by
        rcases h with ⟨x, hx, hxp⟩ | h
        · rcases List.mem_cons.1 hx with rfl | hx
          · exact absurd hxp hp
          · exact Or.inl ⟨x, hx, hxp⟩
        · exact Or.inr h
      obtain ⟨n, hn, hmem⟩ := ih netName h2
      refine ⟨n, hn, ?_⟩
      rcases hmem with hmem | hmem
      · exact Or.inl (List.mem_cons_of_mem _ hmem)
      · exact Or.inr hmem

theorem renameNet_foldGround (label : QString) (ids : List Int) (n : Int) (netlist : Netlist)
    (hnz : ∀ e ∈ netlist, e.2 ≠ 0) (hg : isGroundLabel label = true) :
    renameNet label (some (if n ∈ ids then 0 else n)) (foldGround ids netlist) =
      foldGround (ids ++ [n]) netlist := by
  unfold renameNet foldGround
  rw [List.map_map]
  apply List.map_congr_left
  intro e he
  have hz := hnz e he
  obtain ⟨p, id⟩ := e
  simp only at hz
  by_cases h1 : id ∈ ids <;> by_cases h2 : n ∈ ids <;> by_cases h3 : id = n <;>
    simp_all [Function.comp]

theorem renameNet_not_ground (label : QString) (netName : Option Int) (netlist : Netlist)
    (hg : isGroundLabel label = false) : renameNet label netName netlist = netlist := by
  unfold renameNet
  simp [hg]

theorem replacePortNames_foldGround :
    ∀ (portSymbols : List PortSymbol) (ids : List Int) (netlist : Netlist),
      (∀ e ∈ netlist, e.2 ≠ 0) →
      (∀ s ∈ portSymbols, ∃ e ∈ netlist, e.1 = s.port) →
      replacePortNames portSymbols (foldGround ids netlist) =
        foldGround (ids ++ groundIds portSymbols netlist) netlist := by
  intro portSymbols
  induction portSymbols with
  | nil => intro ids netlist _ _; simp [replacePortNames, groundIds]
  | cons s portSymbols ih =>
    intro ids netlist hnz hports
    obtain ⟨n, hn, _⟩ := findNetName_found s.port netlist none
      (Or.inl (hports s (List.mem_cons_self _ _)))
    have hfold := findNetName_foldGround s.port ids netlist none
    simp only [Option.map_none', hn, Option.map_some'] at hfold
    have hrest : ∀ t ∈ portSymbols, ∃ e ∈ netlist, e.1 = t.port :=
      fun t ht => hports t (List.mem_cons_of_mem _ ht)
    simp only [replacePortNames, hfold]
    by_cases hg : isGroundLabel s.label = true
    · rw [renameNet_foldGround s.label ids n netlist hnz hg, ih _ _ hnz hrest]
      simp [groundIds, hg, hn]
    · have hg2 : isGroundLabel s.label = false := by simpa using hg
      rw [renameNet_not_ground _ _ _ hg2, ih _ _ hnz hrest]
      simp [groundIds, hg2]

theorem foldGround_nil (netlist : Netlist) : foldGround [] netlist = netlist := by
  simp [foldGround]

theorem replacePortNames_eq (portSymbols : List PortSymbol) (netlist : Netlist)
    (hnz : ∀ e ∈ netlist, e.2 ≠ 0)
    (hports : ∀ s ∈ portSymbols, ∃ e ∈ netlist, e.1 = s.port) :
    replacePortNames portSymbols netlist =
      foldGround (groundIds portSymbols netlist) netlist := by
  have := replacePortNames_foldGround portSymbols [] netlist hnz hports
  simpa [foldGround_nil] using this

theorem mem_groundIds (portSymbols : List PortSymbol) (netlist : Netlist) (n : Int) :
    n ∈ groundIds portSymbols netlist ↔
      ∃ s ∈ portSymbols, isGroundLabel s.label = true ∧
        findNetName s.port netlist none = some n := by
  unfold groundIds
  simp only [List.mem_filterMap]
  constructor
  · rintro ⟨s, hs, h⟩
    by_cases hg : isGroundLabel s.label = true
    · exact ⟨s, hs, hg, by simpa [hg] using h⟩
    · simp [hg] at h
  · rintro ⟨s, hs, hg, h⟩
    exact ⟨s, hs, by simpa [hg] using h⟩

theorem renameNet_map_fst (label : QString) (netName : Option Int) (netlist : Netlist) :
    (renameNet label netName netlist).map Prod.fst = netlist.map Prod.fst := by
  unfold renameNet
  rw [List.map_map]
  apply List.map_congr_left
  intro e _
  simp only [Function.comp]
  split_ifs <;> rfl

theorem replacePortNames_map_fst :
    ∀ (portSymbols : List PortSymbol) (netlist : Netlist),
      (replacePortNames portSymbols netlist).map Prod.fst = netlist.map Prod.fst := by
  intro portSymbols
  induction portSymbols with
  | nil => intro netlist; rfl
  | cons s portSymbols ih =>
    intro netlist
    simp only [replacePortNames]
    rw [ih, renameNet_map_fst]

theorem foldGround_getElem? (ids : List Int) (netlist : Netlist) (i : Nat) (e : Port × Int)
    (he : netlist[i]? = some e) :
    (foldGround ids netlist)[i]? = some (e.1, if e.2 ∈ ids then 0 else e.2) := by
  unfold foldGround
  rw [List.getElem?_map, he]
  by_cases h : e.2 ∈ ids <;> simp [h]

theorem replacePortNames_sample : replacePortNames sampleSymbols sampleTable =
    [(10, 0), (20, 0), (11, 2), (22, 2), (21, 0), (12, 4)] := by decide

/-! ### The table of `generateNetlistTopology` -/

theorem mem_assignNetIds (equi : Port → List Port) (h : ReturnsClasses equi)
    (ports : List Port) (q : Port) (n : Int) :
    (q, n) ∈ assignNetIds equi ports ↔
      ∃ (i : Nat) (r : Port), (firstPorts equi [] ports)[i]? = some r ∧ q ∈ equi r ∧
        n = (i : Int) + 1 := by
  rw [assignNetIds_eq equi h ports, mem_netBlocks]
  constructor
  · rintro ⟨i, r, hr, hq, hn⟩
    exact ⟨i, r, hr, hq, by rw [hn]; ring⟩
  · rintro ⟨i, r, hr, hq, hn⟩
    exact ⟨i, r, hr, hq, by rw [hn]; ring⟩

theorem assignNetIds_same_id_iff (equi : Port → List Port) (h : ReturnsClasses equi)
    (ports : List Port) {p q : Port} {n m : Int}
    (h₁ : (p, n) ∈ assignNetIds equi ports) (h₂ : (q, m) ∈ assignNetIds equi ports) :
    n = m ↔ q ∈ equi p := by
  obtain ⟨i, r, hr, hpr, rfl⟩ := (mem_assignNetIds equi h ports p n).1 h₁
  obtain ⟨j, s, hs, hqs, rfl⟩ := (mem_assignNetIds equi h ports q m).1 h₂
  constructor
  · intro hij
    have hij2 : i = j := by omega
    subst hij2
    have hrs : r = s := by rw [hr] at hs; simpa using hs
    subst hrs
    exact h.trans (h.symm hpr) hqs
  · intro hqp
    have hqr : q ∈ equi r := h.trans hpr hqp
    have := firstPorts_index_unique equi h ports i j r s q hr hs hqr hqs
    rw [this]

theorem assignNetIds_functional (equi : Port → List Port) (h : ReturnsClasses equi)
    (ports : List Port) {q : Port} {n m : Int}
    (h₁ : (q, n) ∈ assignNetIds equi ports) (h₂ : (q, m) ∈ assignNetIds equi ports) :
    n = m :=
  (assignNetIds_same_id_iff equi h ports h₁ h₂).2 (h.1 q)

theorem assignNetIds_pos (equi : Port → List Port) (h : ReturnsClasses equi)
    (ports : List Port) {q : Port} {n : Int} (hq : (q, n) ∈ assignNetIds equi ports) :
    1 ≤ n := by
  obtain ⟨i, r, _, _, rfl⟩ := (mem_assignNetIds equi h ports q n).1 hq
  omega

theorem assignNetIds_mem_of_port (equi : Port → List Port) (h : ReturnsClasses equi)
    (ports : List Port) {p : Port} (hp : p ∈ ports) :
    ∃ n, (p, n) ∈ assignNetIds equi ports := by
  rcases firstPorts_cover equi h ports [] p hp with ⟨q, hq, _⟩ | ⟨r, hr, hpr⟩
  · simp at hq
  · obtain ⟨i, hi⟩ := List.mem_iff_getElem?.1 hr
    exact ⟨(i : Int) + 1, (mem_assignNetIds equi h ports p _).2 ⟨i, r, hi, hpr, rfl⟩⟩

theorem assignNetIds_mem_class (equi : Port → List Port) (h : ReturnsClasses equi)
    (ports : List Port) {p q : Port} {n : Int} (hp : (p, n) ∈ assignNetIds equi ports)
    (hq : q ∈ equi p) : (q, n) ∈ assignNetIds equi ports := by
  obtain ⟨i, r, hr, hpr, hn⟩ := (mem_assignNetIds equi h ports p n).1 hp
  exact (mem_assignNetIds equi h ports q n).2 ⟨i, r, hr, h.trans hpr hq, hn⟩

/-- When the table lists the port under a single id, the search of
`replacePortNames` finds the id `m` exactly when the pair of the port with
`m` is in the table. -/
theorem findNetName_eq_some_iff_mem (p : Port) (netlist : Netlist)
    (hfun : ∀ n m, (p, n) ∈ netlist → (p, m) ∈ netlist → n = m) (m : Int) :
    findNetName p netlist none = some m ↔ (p, m) ∈ netlist := by
  constructor
  · intro hf
    have hex : ∃ e ∈ netlist, e.1 = p := by
      by_contra hno
      have hnone : ∀ (l : Netlist), (¬ ∃ e ∈ l, e.1 = p) → findNetName p l none = none := by
        intro l
        induction l with
        | nil => intro _; rfl
        | cons e l ih =>
          intro hl
          have he : e.1 ≠ p := fun he => hl ⟨e, List.mem_cons_self _ _, he⟩
          simp only [findNetName, he, if_false]
          exact ih fun ⟨x, hx, hxp⟩ => hl ⟨x, List.mem_cons_of_mem _ hx, hxp⟩
      rw [hnone _ hno] at hf
      exact absurd hf (by simp)
    obtain ⟨n, hn, hmem⟩ := findNetName_found p _ none (Or.inl hex)
    rw [hn] at hf
    have hnm : n = m := by simpa using hf
    subst hnm
    rcases hmem with hmem | hmem
    · exact hmem
    · exact absurd hmem (by simp)
  · intro hm
    obtain ⟨n, hn, hmem⟩ := findNetName_found p _ none (Or.inl ⟨(p, m), hm, rfl⟩)
    rcases hmem with hmem | hmem
    · rw [hn, hfun n m hmem hm]
    · exact absurd hmem (by simp)

theorem findNetName_eq_some_iff (equi : Port → List Port) (h : ReturnsClasses equi)
    (ports : List Port) (p : Port) (m : Int) :
    findNetName p (assignNetIds equi ports) none = some m ↔
      (p, m) ∈ assignNetIds equi ports :=
  findNetName_eq_some_iff_mem p _
    (fun _ _ hn hm => assignNetIds_functional equi h ports hn hm) m

theorem portSymbol_port_mem (items : List GraphicsItem) (s : PortSymbol)
    (hs : s ∈ filterPortSymbols items) : s.port ∈ scenePorts items := by
  unfold filterPortSymbols at hs
  obtain ⟨item, hitem, hsome⟩ := List.mem_filterMap.1 hs
  unfold scenePorts
  refine List.mem_flatMap.2 ⟨item, hitem, ?_⟩
  cases item with
  | portSymbol t =>
    have : t = s := by simpa using hsome
    subst this
    simp [GraphicsItem.ports]
  | component c => simp at hsome
  | wire w => simp at hsome
  | painting => simp at hsome

theorem generateNetlistTopology_eq (equi : Port → List Port) (h : ReturnsClasses equi)
    (items : List GraphicsItem) :
    generateNetlistTopology equi items =
      foldGround (groundIds (filterPortSymbols items) (assignNetIds equi (scenePorts items)))
        (assignNetIds equi (scenePorts items)) := by
  unfold generateNetlistTopology
  apply replacePortNames_eq
  · intro e he
    have := assignNetIds_pos equi h (scenePorts items) (q := e.1) (n := e.2) he
    omega
  · intro s hs
    obtain ⟨n, hn⟩ := assignNetIds_mem_of_port equi h (scenePorts items)
      (portSymbol_port_mem items s hs)
    exact ⟨(s.port, n), hn, rfl⟩

/-- A net is a ground net when the port of a port symbol with a ground label
lies in it. -/
theorem mem_groundIds_assignNetIds (equi : Port → List Port) (h : ReturnsClasses equi)
    (items : List GraphicsItem) {q : Port} {m : Int}
    (hq : (q, m) ∈ assignNetIds equi (scenePorts items)) :
    m ∈ groundIds (filterPortSymbols items) (assignNetIds equi (scenePorts items)) ↔
      ∃ s ∈ filterPortSymbols items, isGroundLabel s.label = true ∧ s.port ∈ equi q := by
  rw [mem_groundIds]
  constructor
  · rintro ⟨s, hs, hg, hf⟩
    have hsm := (findNetName_eq_some_iff equi h _ s.port m).1 hf
    exact ⟨s, hs, hg, (assignNetIds_same_id_iff equi h _ hq hsm).1 rfl⟩
  · rintro ⟨s, hs, hg, hsq⟩
    exact ⟨s, hs, hg, (findNetName_eq_some_iff equi h _ s.port m).2
      (assignNetIds_mem_class equi h _ hq hsq)⟩

theorem mem_generateNetlistTopology (equi : Port → List Port) (h : ReturnsClasses equi)
    (items : List GraphicsItem) (q : Port) (n : Int) :
    (q, n) ∈ generateNetlistTopology equi items ↔
      ∃ m, (q, m) ∈ assignNetIds equi (scenePorts items) ∧
        n = if (∃ s ∈ filterPortSymbols items, isGroundLabel s.label = true ∧ s.port ∈ equi q)
          then 0 else m := by
  rw [generateNetlistTopology_eq equi h items]
  unfold foldGround
  simp only [List.mem_map]
  constructor
  · rintro ⟨⟨p, m⟩, he, heq⟩
    have hiff := mem_groundIds_assignNetIds equi h items he
    by_cases hg : m ∈ groundIds (filterPortSymbols items) (assignNetIds equi (scenePorts items))
    · simp only [hg, if_true, Prod.mk.injEq] at heq
      obtain ⟨rfl, rfl⟩ := heq
      exact ⟨m, he, by rw [if_pos (hiff.1 hg)]⟩
    · simp only [hg, if_false, Prod.mk.injEq] at heq
      obtain ⟨rfl, rfl⟩ := heq
      exact ⟨m, he, by rw [if_neg (fun hc => hg (hiff.2 hc))]⟩
  · rintro ⟨m, he, hn⟩
    have hiff := mem_groundIds_assignNetIds equi h items he
    refine ⟨(q, m), he, ?_⟩
    by_cases hg : m ∈ groundIds (filterPortSymbols items) (assignNetIds equi (scenePorts items))
    · rw [if_pos (hiff.1 hg)] at hn
      simp [hg, hn]
    · rw [if_neg (fun hc => hg (hiff.2 hc))] at hn
      simp [hg, hn]

theorem twoResistorsClasses_returnsClasses : ReturnsClasses twoResistorsClasses := by
  constructor
  · intro p
    unfold twoResistorsClasses
    split_ifs with h1 h2
    · rcases h1 with rfl | rfl <;> simp
    · rcases h2 with rfl | rfl | rfl | rfl <;> simp
    · simp
  · intro p q hq r
    unfold twoResistorsClasses at hq ⊢
    by_cases h1 : p = 10 ∨ p = 16
    · have hq2 : q = 10 ∨ q = 16 := by simpa [h1] using hq
      simp [h1, hq2]
    · by_cases h2 : p = 11 ∨ p = 12 ∨ p = 14 ∨ p = 15
      · have hq2 : q = 11 ∨ q = 14 ∨ q = 15 ∨ q = 12 := by simpa [h1, h2] using hq
        have hq3 : ¬ (q = 10 ∨ q = 16) := by
          rcases hq2 with rfl | rfl | rfl | rfl <;> decide
        have hq4 : q = 11 ∨ q = 12 ∨ q = 14 ∨ q = 15 := by
          rcases hq2 with rfl | rfl | rfl | rfl <;> decide
        simp [h1, h2, hq3, hq4]
      · have hq2 : q = p := by simpa [h1, h2] using hq
        subst hq2
        simp [h1, h2]

/-- C2, counterexample: in the example scene enumerated as R1, R2, wire, ground
symbol, the net of R1.A gets 0, the net of R1.B and R2.A gets 2 and the net of
R2.B gets 3, so the non-zero ids are not 1, ..., m for any m. -/
theorem C2_counterexample :
    ReturnsClasses twoResistorsClasses ∧
    generateNetlistTopology twoResistorsClasses twoResistors =
      [(10, 0), (16, 0), (11, 2), (14, 2), (15, 2), (12, 2), (13, 3)] ∧
    ¬ ∃ m : Int, ∀ n : Int, n ≠ 0 →
      ((∃ e ∈ generateNetlistTopology twoResistorsClasses twoResistors, e.2 = n) ↔
        1 ≤ n ∧ n ≤ m) := by
  have htab : generateNetlistTopology twoResistorsClasses twoResistors =
      [(10, 0), (16, 0), (11, 2), (14, 2), (15, 2), (12, 2), (13, 3)] := by decide
  refine ⟨twoResistorsClasses_returnsClasses, htab, ?_⟩
  rintro ⟨m, hm⟩
  rw [htab] at hm
  have h2 := (hm 2 (by decide)).1 ⟨(11, 2), by decide, rfl⟩
  obtain ⟨e, he, he1⟩ := (hm 1 (by decide)).2 ⟨le_refl 1, by omega⟩
  revert he1
  revert e
  decide

/-- C2, amended: in the table returned by `generateNetlistTopology` the id of
a pair is 0 exactly when its net contains the port of a ground symbol; a net
without a ground symbol keeps the number `i + 1` that the counter gave it, so
the non-zero ids are the numbers of `1, ..., k` that were given to nets without
a ground symbol (the numbers of the ground nets are missing) and two pairs with
the same non-zero id are in one net.  In the example scene the nets get 0, 2
and 3 when the scene enumerates R1, R2, wire, ground symbol, and 0, 1 and 2
when it enumerates wire, R2, R1, ground symbol. -/
theorem C2_nonzero_ids_skip_ground (equi : Port → List Port) (items : List GraphicsItem)
    (h : ReturnsClasses equi) :
    (∀ e ∈ generateNetlistTopology equi items,
      (e.2 = 0 ↔ ∃ s ∈ filterPortSymbols items, isGroundLabel s.label = true ∧
        s.port ∈ equi e.1)) ∧
    (∀ (i : Nat) (r : Port), (firstPorts equi [] (scenePorts items))[i]? = some r →
      (¬ ∃ s ∈ filterPortSymbols items, isGroundLabel s.label = true ∧ s.port ∈ equi r) →
      ∀ q ∈ equi r, (q, (i : Int) + 1) ∈ generateNetlistTopology equi items ∧
        ∀ n, (q, n) ∈ generateNetlistTopology equi items → n = (i : Int) + 1) ∧
    (∀ n : Int, n ≠ 0 → ((∃ e ∈ generateNetlistTopology equi items, e.2 = n) ↔
      ∃ (i : Nat) (r : Port), (firstPorts equi [] (scenePorts items))[i]? = some r ∧
        n = (i : Int) + 1 ∧
        ¬ ∃ s ∈ filterPortSymbols items, isGroundLabel s.label = true ∧ s.port ∈ equi r)) ∧
    (∀ e₁ ∈ generateNetlistTopology equi items, ∀ e₂ ∈ generateNetlistTopology equi items,
      e₁.2 ≠ 0 → (e₁.2 = e₂.2 ↔ e₂.1 ∈ equi e₁.1)) ∧
    generateNetlistTopology twoResistorsClasses twoResistors =
      [(10, 0), (16, 0), (11, 2), (14, 2), (15, 2), (12, 2), (13, 3)] ∧
    generateNetlistTopology twoResistorsClasses twoResistorsGroundLast =
      [(11, 1), (14, 1), (15, 1), (12, 1), (13, 2), (10, 0), (16, 0)] := by
  have hground : ∀ {p q : Port}, q ∈ equi p →
      ((∃ s ∈ filterPortSymbols items, isGroundLabel s.label = true ∧ s.port ∈ equi q) ↔
        ∃ s ∈ filterPortSymbols items, isGroundLabel s.label = true ∧ s.port ∈ equi p) := by
    intro p q hq
    constructor
    · rintro ⟨s, hs, hg, hsq⟩
      exact ⟨s, hs, hg, h.trans hq hsq⟩
    · rintro ⟨s, hs, hg, hsp⟩
      exact ⟨s, hs, hg, h.trans (h.symm hq) hsp⟩
  refine ⟨?_, ?_, ?_, ?_, by decide, by decide⟩
  · rintro ⟨q, n⟩ he
    obtain ⟨m, hm, hn⟩ := (mem_generateNetlistTopology equi h items q n).1 he
    have hpos := assignNetIds_pos equi h _ hm
    simp only
    by_cases hg : ∃ s ∈ filterPortSymbols items, isGroundLabel s.label = true ∧ s.port ∈ equi q
    · rw [if_pos hg] at hn
      simp [hn, hg]
    · rw [if_neg hg] at hn
      constructor
      · intro h0; omega
      · intro hc; exact absurd hc hg
  · intro i r hr hng q hq
    have hngq : ¬ ∃ s ∈ filterPortSymbols items, isGroundLabel s.label = true ∧
        s.port ∈ equi q := fun hc => hng ((hground hq).1 hc)
    have hraw : (q, (i : Int) + 1) ∈ assignNetIds equi (scenePorts items) :=
      (mem_assignNetIds equi h _ q _).2 ⟨i, r, hr, hq, rfl⟩
    constructor
    · exact (mem_generateNetlistTopology equi h items q _).2 ⟨_, hraw, by rw [if_neg hngq]⟩
    · intro n hn
      obtain ⟨m, hm, hnm⟩ := (mem_generateNetlistTopology equi h items q n).1 hn
      rw [if_neg hngq] at hnm
      rw [hnm]
      exact assignNetIds_functional equi h _ hm hraw
  · intro n hn0
    constructor
    · rintro ⟨⟨q, n'⟩, he, rfl⟩
      obtain ⟨m, hm, hnm⟩ := (mem_generateNetlistTopology equi h items q n').1 he
      simp only at hn0
      by_cases hg : ∃ s ∈ filterPortSymbols items, isGroundLabel s.label = true ∧
          s.port ∈ equi q
      · rw [if_pos hg] at hnm
        exact absurd hnm hn0
      · rw [if_neg hg] at hnm
        obtain ⟨i, r, hr, hqr, hmi⟩ := (mem_assignNetIds equi h _ q m).1 hm
        refine ⟨i, r, hr, by simp only [hnm, hmi], ?_⟩
        intro hc
        exact hg ((hground hqr).2 hc)
    · rintro ⟨i, r, hr, rfl, hng⟩
      have hraw : (r, (i : Int) + 1) ∈ assignNetIds equi (scenePorts items) :=
        (mem_assignNetIds equi h _ r _).2 ⟨i, r, hr, h.1 r, rfl⟩
      exact ⟨(r, (i : Int) + 1),
        (mem_generateNetlistTopology equi h items r _).2 ⟨_, hraw, by rw [if_neg hng]⟩, rfl⟩
  · rintro ⟨p, n⟩ h₁ ⟨q, m⟩ h₂ hn0
    obtain ⟨n', hn', hnn⟩ := (mem_generateNetlistTopology equi h items p n).1 h₁
    obtain ⟨m', hm', hmm⟩ := (mem_generateNetlistTopology equi h items q m).1 h₂
    simp only at hn0 ⊢
    have hpos := assignNetIds_pos equi h _ hm'
    by_cases hgp : ∃ s ∈ filterPortSymbols items, isGroundLabel s.label = true ∧
        s.port ∈ equi p
    · rw [if_pos hgp] at hnn
      exact absurd hnn hn0
    · rw [if_neg hgp] at hnn
      constructor
      · intro hnm
        by_cases hgq : ∃ s ∈ filterPortSymbols items, isGroundLabel s.label = true ∧
            s.port ∈ equi q
        · rw [if_pos hgq] at hmm
          omega
        · rw [if_neg hgq] at hmm
          exact (assignNetIds_same_id_iff equi h _ hn' hm').1 (by omega)
      · intro hqp
        have hgq : ¬ ∃ s ∈ filterPortSymbols items, isGroundLabel s.label = true ∧
            s.port ∈ equi q := fun hc => hgp ((hground hqp).1 hc)
        rw [if_neg hgq] at hmm
        have := (assignNetIds_same_id_iff equi h _ hn' hm').2 hqp
        omega

/-- Witness for C2 (amended): the example scene. -/
theorem C2_nonzero_ids_skip_ground_witness :
    ReturnsClasses twoResistorsClasses ∧
    ∀ e ∈ generateNetlistTopology twoResistorsClasses twoResistors,
      (e.2 = 0 ↔ ∃ s ∈ filterPortSymbols twoResistors, isGroundLabel s.label = true ∧
        s.port ∈ twoResistorsClasses e.1) :=
  ⟨twoResistorsClasses_returnsClasses,
    (C2_nonzero_ids_skip_ground twoResistorsClasses twoResistors
      twoResistorsClasses_returnsClasses).1⟩

/-! ### The text of `generateNetlist` -/

theorem splitKeepEmpty_ne_nil (sep : Char) :
    ∀ s : QString, splitKeepEmpty sep s ≠ [] := by
  intro s
  induction s with
  | nil => simp [splitKeepEmpty]
  | cons c cs ih =>
    unfold splitKeepEmpty
    split_ifs
    · simp
    · cases hsp : splitKeepEmpty sep cs with
      | nil => exact absurd hsp ih
      | cons part parts => simp

theorem splitKeepEmpty_word (sep : Char) :
    ∀ w : QString, sep ∉ w → splitKeepEmpty sep w = [w] := by
  intro w
  induction w with
  | nil => intro _; rfl
  | cons c cs ih =>
    intro hw
    have hc : c ≠ sep := fun hc => hw (by simp [hc])
    have hcs : sep ∉ cs := fun h => hw (List.mem_cons_of_mem _ h)
    simp [splitKeepEmpty, hc, ih hcs]

theorem splitKeepEmpty_word_sep (sep : Char) (rest : QString) :
    ∀ w : QString, sep ∉ w →
      splitKeepEmpty sep (w ++ sep :: rest) = w :: splitKeepEmpty sep rest := by
  intro w
  induction w with
  | nil => intro _; simp [splitKeepEmpty]
  | cons c cs ih =>
    intro hw
    have hc : c ≠ sep := fun hc => hw (by simp [hc])
    have hcs : sep ∉ cs := fun h => hw (List.mem_cons_of_mem _ h)
    simp [splitKeepEmpty, hc, ih hcs]

theorem split_word (sep : Char) (w : QString) (hne : w ≠ []) (hw : sep ∉ w) :
    split sep w = [w] := by
  unfold split
  rw [splitKeepEmpty_word sep w hw]
  cases w with
  | nil => exact absurd rfl hne
  | cons c cs => simp

theorem split_word_sep (sep : Char) (w rest : QString) (hne : w ≠ []) (hw : sep ∉ w) :
    split sep (w ++ sep :: rest) = w :: split sep rest := by
  unfold split
  rw [splitKeepEmpty_word_sep sep rest w hw]
  cases w with
  | nil => exact absurd rfl hne
  | cons c cs => simp

theorem split_sep (sep : Char) (rest : QString) :
    split sep (sep :: rest) = split sep rest := by
  simp [split, splitKeepEmpty]

theorem splitKeepEmpty_parts (sep : Char) :
    ∀ s : QString, ∀ part ∈ splitKeepEmpty sep s, sep ∉ part := by
  intro s
  induction s with
  | nil => intro part hp; simp [splitKeepEmpty] at hp; simp [hp]
  | cons c cs ih =>
    intro part hp
    unfold splitKeepEmpty at hp
    split_ifs at hp with hc
    · rcases List.mem_cons.1 hp with rfl | hp
      · simp
      · exact ih part hp
    · cases hsp : splitKeepEmpty sep cs with
      | nil => exact absurd hsp (splitKeepEmpty_ne_nil sep cs)
      | cons first parts =>
        rw [hsp] at hp ih
        simp only [List.mem_cons] at hp
        rcases hp with rfl | hp
        · intro hmem
          rcases List.mem_cons.1 hmem with h | h
          · exact hc h.symm
          · exact ih first (List.mem_cons_self _ _) h
        · exact ih part (List.mem_cons_of_mem _ hp)

theorem split_parts (sep : Char) (s : QString) :
    ∀ part ∈ split sep s, part ≠ [] ∧ sep ∉ part := by
  intro part hp
  unfold split at hp
  obtain ⟨h1, h2⟩ := List.mem_filter.1 hp
  refine ⟨?_, splitKeepEmpty_parts sep s part h1⟩
  intro hnil
  simp [hnil] at h2

theorem splitKeepEmpty_join (sep : Char) :
    ∀ s : QString, (splitKeepEmpty sep s).flatten = s.filter (fun c => c ≠ sep) := by
  intro s
  induction s with
  | nil => simp [splitKeepEmpty]
  | cons c cs ih =>
    unfold splitKeepEmpty
    split_ifs with hc
    · simp [hc, ih]
    · cases hsp : splitKeepEmpty sep cs with
      | nil => exact absurd hsp (splitKeepEmpty_ne_nil sep cs)
      | cons first parts =>
        rw [hsp] at ih
        simp only [List.flatten_cons] at ih
        have ih2 : first ++ parts.flatten = List.filter (fun c => !decide (c = sep)) cs := by
          simpa using ih
        simp [hc, ih2]

theorem flatten_filter_nonempty :
    ∀ parts : List QString, (parts.filter fun part => !part.isEmpty).flatten = parts.flatten := by
  intro parts
  induction parts with
  | nil => rfl
  | cons part parts ih =>
    cases part with
    | nil => simp [ih]
    | cons c cs => simp [ih]

theorem split_join (sep : Char) (s : QString) :
    (split sep s).flatten = s.filter (fun c => c ≠ sep) := by
  unfold split
  rw [flatten_filter_nonempty, splitKeepEmpty_join]

theorem expandBlocks_eq (c : Component) (netlist : Netlist) (text : QString → QString) :
    ∀ blocks : List QString,
      (∀ block ∈ blocks, expandSubBlocks c netlist (split '%' block) = some (text block)) →
      expandBlocks c netlist blocks = some (blocks.flatMap fun block => text block ++ [' ']) := by
  intro blocks
  induction blocks with
  | nil => intro _; rfl
  | cons block blocks ih =>
    intro h
    have h1 := h block (List.mem_cons_self _ _)
    have h2 := ih fun b hb => h b (List.mem_cons_of_mem _ hb)
    simp [expandBlocks, expandBlock, h1, h2]

theorem componentLines_eq (netlist : Netlist) (text : Component → QString → QString) :
    ∀ components : List Component,
      (∀ c ∈ components, ∀ block ∈ modelBlocks c,
        expandSubBlocks c netlist (split '%' block) = some (text c block)) →
      componentLines netlist components =
        some (components.flatMap fun c =>
          (modelBlocks c).flatMap (fun block => text c block ++ [' ']) ++ ['\n']) := by
  intro components
  induction components with
  | nil => intro _; rfl
  | cons c components ih =>
    intro h
    have h1 := expandBlocks_eq c netlist (text c) (modelBlocks c)
      (h c (List.mem_cons_self _ _))
    have h2 := ih fun d hd => h d (List.mem_cons_of_mem _ hd)
    simp [componentLines, componentLine, h1, h2]

/-- C4, counterexample: for the resistor R1 with port A on net 0 and port B on
net 1 the line is "R1 0 1 R=1k " with a space before the newline, and for
the example scene the text is the header and two such lines. -/
theorem C4_counterexample :
    componentLine (resistor "R1".toList 10 11) [(10, 0), (11, 1)] =
      some "R1 0 1 R=1k \n".toList ∧
    componentLine (resistor "R1".toList 10 11) [(10, 0), (11, 1)] ≠
      some "R1 0 1 R=1k\n".toList ∧
    generateNetlist twoResistorsClasses twoResistorsGroundLast =
      some ("* Spice automatic export. Generated by Caneda.\n".toList ++
        "R2 1 2 R=1k \n".toList ++ "R1 0 1 R=1k \n".toList) := by
  refine ⟨by decide, by decide, by decide⟩

/-- C4, amended: `FormatSpice::generateNetlist` returns the fixed header line
followed by one line per component, in scene order, where the line of a
component is the expansion of each block of its template followed by exactly
one space, the last block too, and then the newline.  Here `text c block` is
the expansion of the sub-blocks of `block`.  For the resistor template with
label R1, port A on net 0, port B on net 1 and R = 1k the line is
"R1 0 1 R=1k " and the newline. -/
theorem C4_line_layout (equi : Port → List Port) (items : List GraphicsItem)
    (text : Component → QString → QString)
    (htext : ∀ c ∈ filterComponents items, ∀ block ∈ modelBlocks c,
      expandSubBlocks c (generateNetlistTopology equi items) (split '%' block) =
        some (text c block)) :
    generateNetlist equi items =
      some ("* Spice automatic export. Generated by Caneda.\n".toList ++
        (filterComponents items).flatMap fun c =>
          (modelBlocks c).flatMap (fun block => text c block ++ [' ']) ++ ['\n']) ∧
    componentLine (resistor "R1".toList 10 11) [(10, 0), (11, 1)] =
      some "R1 0 1 R=1k \n".toList := by
  refine ⟨?_, by decide⟩
  unfold generateNetlist
  rw [componentLines_eq _ text _ htext]
  rfl

/-- Witness for C4 (amended): the example scene, with the expansion of a block
read off the code. -/
theorem C4_line_layout_witness :
    (∀ c ∈ filterComponents twoResistors, ∀ block ∈ modelBlocks c,
      expandSubBlocks c (generateNetlistTopology twoResistorsClasses twoResistors)
          (split '%' block) =
        some ((expandSubBlocks c (generateNetlistTopology twoResistorsClasses twoResistors)
          (split '%' block)).getD [])) ∧
    generateNetlist twoResistorsClasses twoResistors =
      some ("* Spice automatic export. Generated by Caneda.\n".toList ++
        (filterComponents twoResistors).flatMap fun c =>
          (modelBlocks c).flatMap (fun block =>
            (expandSubBlocks c (generateNetlistTopology twoResistorsClasses twoResistors)
              (split '%' block)).getD [] ++ [' ']) ++ ['\n']) :=
  ⟨by decide,
    (C4_line_layout twoResistorsClasses twoResistors
      (fun c block =>
        (expandSubBlocks c (generateNetlistTopology twoResistorsClasses twoResistors)
          (split '%' block)).getD [])
      (by decide)).1⟩

theorem expandPort_eq (netlist : Netlist) (modelCommands : List QString) (name : QString)
    (hname : modelCommands[1]? = some name) :
    ∀ ports : List (Port × QString),
      expandPort netlist modelCommands ports =
        some (ports.flatMap fun port =>
          if port.2 = name then netNumbers port.1 netlist else []) := by
  intro ports
  induction ports with
  | nil => rfl
  | cons port ports ih => simp [expandPort, hname, ih]

theorem netNumbers_eq (port : Port) :
    ∀ netlist : Netlist,
      netNumbers port netlist =
        (netlist.filter fun e => e.1 = port).flatMap fun e => number e.2 := by
  intro netlist
  induction netlist with
  | nil => rfl
  | cons e netlist ih =>
    by_cases h : e.1 = port <;> simp [netNumbers, h, ih]

theorem flatMap_if_eq_filter (name : QString) (f : Port × QString → QString) :
    ∀ ports : List (Port × QString),
      (ports.flatMap fun port => if port.2 = name then f port else []) =
        (ports.filter fun port => port.2 = name).flatMap f := by
  intro ports
  induction ports with
  | nil => rfl
  | cons port ports ih =>
    by_cases h : port.2 = name <;> simp [h, ih]

theorem split_command_argument (command name : QString) (hc : command ≠ [])
    (hcs : '=' ∉ command) (hname : name ≠ []) (hsep : '=' ∉ name) :
    split '=' (command ++ '=' :: name) = [command, name] := by
  rw [split_word_sep '=' command name hc hcs, split_word '=' name hname hsep]

/-- C5: the expansion of one sub-block by `generateNetlist`, for every
component, every table and every name (a non-empty text without `=`).  The
command `label` emits the label of the component.  `port=<name>` emits, for
the ports of the component called `name`, the decimal ids of their pairs in
the table: the decimal id of the pair when there is one such port with one
pair, and nothing when the component has no port of that name.
`property=<name>` emits the value of the property.  A sub-block whose command
is none of the three is emitted unchanged, and the sub-blocks `R=` and
`property=R` together give `R=` followed by the value of R. -/
theorem C5_sub_block_expansion (c : Component) (netlist : Netlist) (name : QString)
    (hname : name ≠ []) (hsep : '=' ∉ name) :
    expandSubBlock c netlist "label".toList = some c.label ∧
    expandSubBlock c netlist ("port=".toList ++ name) =
      some (c.ports.flatMap fun port =>
        if port.2 = name then netNumbers port.1 netlist else []) ∧
    (∀ (p : Port) (n : Int), (c.ports.filter fun port => port.2 = name) = [(p, name)] →
      (netlist.filter fun e => e.1 = p) = [(p, n)] →
      expandSubBlock c netlist ("port=".toList ++ name) = some (number n)) ∧
    ((∀ port ∈ c.ports, port.2 ≠ name) →
      expandSubBlock c netlist ("port=".toList ++ name) = some []) ∧
    expandSubBlock c netlist ("property=".toList ++ name) = some (c.propertyValue name) ∧
    (∀ (subBlock command : QString), (split '=' subBlock)[0]? = some command →
      command ≠ "label".toList → command ≠ "port".toList → command ≠ "property".toList →
      expandSubBlock c netlist subBlock = some subBlock) ∧
    expandSubBlocks c netlist (split '%' "R=%property=R".toList) =
      some ("R=".toList ++ c.propertyValue "R".toList) := by
  have hport : split '=' ("port=".toList ++ name) = ["port".toList, name] :=
    split_command_argument "port".toList name (by decide) (by decide) hname hsep
  have hprop : split '=' ("property=".toList ++ name) = ["property".toList, name] :=
    split_command_argument "property".toList name (by decide) (by decide) hname hsep
  have hexp : expandSubBlock c netlist ("port=".toList ++ name) =
      some (c.ports.flatMap fun port =>
        if port.2 = name then netNumbers port.1 netlist else []) := by
    unfold expandSubBlock
    simp only [hport]
    have h1 : (["port".toList, name] : List QString)[0]? = some "port".toList := rfl
    have hne : ("port".toList = "label".toList) = False := by decide
    simp only [h1, hne, if_false, if_true]
    exact expandPort_eq netlist _ name rfl c.ports
  refine ⟨?_, hexp, ?_, ?_, ?_, ?_, ?_⟩
  · unfold expandSubBlock
    have hsp : split '=' "label".toList = ["label".toList] := by decide
    have h0 : (["label".toList] : List QString)[0]? = some "label".toList := rfl
    simp only [hsp, h0, if_true]
  · intro p n hp hn
    rw [hexp, flatMap_if_eq_filter name (fun port => netNumbers port.1 netlist), hp]
    simp [netNumbers_eq, hn]
  · intro hno
    rw [hexp]
    congr 1
    rw [List.flatMap_eq_nil_iff]
    intro port hp
    simp [hno port hp]
  · unfold expandSubBlock
    simp only [hprop]
    have h1 : (["property".toList, name] : List QString)[0]? = some "property".toList := rfl
    have h2 : (["property".toList, name] : List QString)[1]? = some name := rfl
    have hne1 : ("property".toList = "label".toList) = False := by decide
    have hne2 : ("property".toList = "port".toList) = False := by decide
    simp only [h1, h2, hne1, hne2, if_false, if_true]
  · intro subBlock command hcmd h1 h2 h3
    unfold expandSubBlock
    simp only [hcmd, h1, h2, h3, if_false]
  · have hs : split '%' "R=%property=R".toList = ["R=".toList, "property=R".toList] := by
      decide
    have h1 : expandSubBlock c netlist "R=".toList = some "R=".toList := by
      unfold expandSubBlock
      have hsp : split '=' "R=".toList = ["R".toList] := by decide
      have hne1 : ("R".toList = "label".toList) = False := by decide
      have hne2 : ("R".toList = "port".toList) = False := by decide
      have hne3 : ("R".toList = "property".toList) = False := by decide
      have h0 : (["R".toList] : List QString)[0]? = some "R".toList := rfl
      simp only [hsp, h0, hne1, hne2, hne3, if_false]
    have h2 : expandSubBlock c netlist "property=R".toList =
        some (c.propertyValue "R".toList) := by
      unfold expandSubBlock
      have hsp : split '=' "property=R".toList = ["property".toList, "R".toList] := by decide
      have h0 : (["property".toList, "R".toList] : List QString)[0]? =
          some "property".toList := rfl
      have h1 : (["property".toList, "R".toList] : List QString)[1]? = some "R".toList := rfl
      have hne1 : ("property".toList = "label".toList) = False := by decide
      have hne2 : ("property".toList = "port".toList) = False := by decide
      simp only [hsp, h0, h1, hne1, hne2, if_false, if_true]
    rw [hs]
    simp only [expandSubBlocks, h1, h2, List.append_nil]

/-- Witness for C5: the port name "A". -/
theorem C5_sub_block_expansion_witness :
    "A".toList ≠ [] ∧ '=' ∉ "A".toList ∧
    expandSubBlock (resistor "R1".toList 10 11) [(10, 0), (11, 1)] ("port=".toList ++ "A".toList) =
      some ((resistor "R1".toList 10 11).ports.flatMap fun port =>
        if port.2 = "A".toList then netNumbers port.1 [(10, 0), (11, 1)] else []) :=
  ⟨by decide, by decide,
    (C5_sub_block_expansion (resistor "R1".toList 10 11) [(10, 0), (11, 1)] "A".toList
      (by decide) (by decide)).2.1⟩

/-- C6: lists are read out of range by `generateNetlist`.  For the sub-block
`=` the list `modelCommands` is empty and `modelCommands.at(0)` is out of
range; for the sub-blocks `property` and `port` (of a component with a port)
the list has one element and `modelCommands.at(1)` is out of range; so the
export of a scene with a component whose model is `=`, `%property` or `%port`
does not complete. -/
theorem C6_list_read_out_of_range :
    split '=' "=".toList = [] ∧
    expandSubBlock (modelComponent "=".toList) [(10, 1)] "=".toList = none ∧
    split '=' "property".toList = ["property".toList] ∧
    expandSubBlock (modelComponent "%property".toList) [(10, 1)] "property".toList = none ∧
    expandSubBlock (modelComponent "%port".toList) [(10, 1)] "port".toList = none ∧
    generateNetlist pairClasses [.component (modelComponent "=".toList)] = none ∧
    generateNetlist pairClasses [.component (modelComponent "%property".toList)] = none ∧
    generateNetlist pairClasses [.component (modelComponent "%port".toList)] = none := by
  refine ⟨by decide, by decide, by decide, by decide, by decide, by decide, by decide,
    by decide⟩

theorem runsFrom_eq (sep : Char) :
    ∀ (s current first : QString) (parts : List QString),
      splitKeepEmpty sep s = first :: parts →
      runsFrom (fun c => c = sep) current s =
        ((current ++ first) :: parts).filter fun part => !part.isEmpty := by
  intro s
  induction s with
  | nil =>
    intro current first parts h
    simp only [splitKeepEmpty, List.cons.injEq] at h
    obtain ⟨rfl, rfl⟩ := h
    cases current <;> simp [runsFrom]
  | cons c cs ih =>
    intro current first parts h
    obtain ⟨first2, parts2, h2⟩ : ∃ f p, splitKeepEmpty sep cs = f :: p := by
      cases hsp : splitKeepEmpty sep cs with
      | nil => exact absurd hsp (splitKeepEmpty_ne_nil sep cs)
      | cons f p => exact ⟨f, p, rfl⟩
    by_cases hc : c = sep
    · simp only [splitKeepEmpty, hc, if_true, List.cons.injEq] at h
      obtain ⟨rfl, rfl⟩ := h
      have hrec := ih [] first2 parts2 h2
      simp only [List.nil_append] at hrec
      cases current with
      | nil => simp [runsFrom, hc, hrec, h2]
      | cons d ds => simp [runsFrom, hc, hrec, h2]
    · simp only [splitKeepEmpty, hc, if_false, h2, List.cons.injEq] at h
      obtain ⟨rfl, rfl⟩ := h
      have hrec := ih (current ++ [c]) first2 parts2 h2
      simp [runsFrom, hc, hrec]

theorem split_eq_maximalRuns (sep : Char) (s : QString) :
    split sep s = maximalRuns (fun c => c = sep) s := by
  obtain ⟨first, parts, h⟩ : ∃ f p, splitKeepEmpty sep s = f :: p := by
    cases hsp : splitKeepEmpty sep s with
    | nil => exact absurd hsp (splitKeepEmpty_ne_nil sep s)
    | cons f p => exact ⟨f, p, rfl⟩
  unfold maximalRuns split
  rw [runsFrom_eq sep s [] first parts h, h]
  simp

/-- C7, counterexample: the model "%label<TAB>%port=A" is one block, not the
two blocks "%label" and "%port=A" (its maximal runs of non-whitespace
characters), and the line written for it is "label<TAB>0 ". -/
theorem C7_counterexample :
    modelBlocks tabComponent = ["%label\t%port=A".toList] ∧
    maximalRuns Char.isWhitespace (tabComponent.model "spice".toList) =
      ["%label".toList, "%port=A".toList] ∧
    modelBlocks tabComponent ≠
      maximalRuns Char.isWhitespace (tabComponent.model "spice".toList) ∧
    componentLine tabComponent [(10, 0)] = some "label\t0 \n".toList := by
  refine ⟨by decide, by decide, by decide, by decide⟩

/-- C7, amended: `generateNetlist` splits the template of a component into
blocks at the space character only.  For every component the blocks are the
maximal runs of characters other than the space, every block is non-empty and
without a space, and a tab or newline stays inside its block: the template
"%label<TAB>%port=A" is the single block "%label<TAB>%port=A". -/
theorem C7_blocks_split_at_spaces (c : Component) :
    modelBlocks c = maximalRuns (fun ch => ch = ' ') (c.model "spice".toList) ∧
    (∀ block ∈ modelBlocks c, block ≠ [] ∧ ' ' ∉ block) ∧
    (modelBlocks c).flatten = (c.model "spice".toList).filter (fun ch => ch ≠ ' ') ∧
    modelBlocks tabComponent = ["%label\t%port=A".toList] := by
  refine ⟨split_eq_maximalRuns ' ' _, split_parts ' ' _, split_join ' ' _, by decide⟩

/-! ### Every port in the table -/

theorem netBlocks_map_fst (equi : Port → List Port) :
    ∀ (reps : List Port) (first : Int),
      (netBlocks equi first reps).map Prod.fst = reps.flatMap equi := by
  intro reps
  induction reps with
  | nil => intro first; rfl
  | cons r reps ih =>
    intro first
    simp [netBlocks, ih, Function.comp_def]

theorem generateNetlistTopology_map_fst (equi : Port → List Port) (h : ReturnsClasses equi)
    (items : List GraphicsItem) :
    (generateNetlistTopology equi items).map Prod.fst =
      (firstPorts equi [] (scenePorts items)).flatMap equi := by
  unfold generateNetlistTopology
  rw [replacePortNames_map_fst, assignNetIds_eq equi h, netBlocks_map_fst]

theorem item_port_mem (items : List GraphicsItem) (item : GraphicsItem) (hitem : item ∈ items)
    (p : Port) (hp : p ∈ item.ports) : p ∈ scenePorts items :=
  List.mem_flatMap.2 ⟨item, hitem, hp⟩

/-- C8: every port of every scene item occurs in exactly one pair of the table
returned by `generateNetlistTopology`, when `getEquipotentialPorts` returns
duplicate-free connectivity classes. -/
theorem C8_every_port_in_one_pair (equi : Port → List Port) (items : List GraphicsItem)
    (h : ReturnsClasses equi) (hnodup : ∀ p, (equi p).Nodup) :
    ∀ item ∈ items, ∀ p ∈ item.ports,
      ((generateNetlistTopology equi items).filter fun e => e.1 = p).length = 1 := by
  intro item hitem p hp
  have hmem : p ∈ scenePorts items := item_port_mem items item hitem p hp
  have hnd : ((firstPorts equi [] (scenePorts items)).flatMap equi).Nodup := by
    rw [List.nodup_flatMap]
    refine ⟨fun x _ => hnodup x, ?_⟩
    refine (firstPorts_pairwise equi (scenePorts items) []).imp ?_
    intro r s hrs
    show List.Disjoint (equi r) (equi s)
    intro x hxr hxs
    exact hrs (h.trans hxs (h.symm hxr))
  have hin : p ∈ (firstPorts equi [] (scenePorts items)).flatMap equi := by
    rcases firstPorts_cover equi h (scenePorts items) [] p hmem with ⟨q, hq, _⟩ | ⟨r, hr, hpr⟩
    · simp at hq
    · exact List.mem_flatMap.2 ⟨r, hr, hpr⟩
  have hcount := List.count_eq_one_of_mem hnd hin
  rw [← generateNetlistTopology_map_fst equi h items, List.count_eq_countP,
    List.countP_map, List.countP_eq_length_filter] at hcount
  rw [← hcount]
  congr 1

theorem pairClasses_nodup : ∀ p, (pairClasses p).Nodup := by
  intro p
  unfold pairClasses
  split_ifs <;> simp

/-- Witness for C8: the scene with a wire (ports 1 and 2, one class) and a
resistor (ports 3 and 4). -/
theorem C8_every_port_in_one_pair_witness :
    ReturnsClasses pairClasses ∧ (∀ p, (pairClasses p).Nodup) ∧
    ∀ item ∈ nullWireScene, ∀ p ∈ item.ports,
      ((generateNetlistTopology pairClasses nullWireScene).filter fun e => e.1 = p).length = 1 :=
  ⟨pairClasses_returnsClasses, pairClasses_nodup,
    C8_every_port_in_one_pair pairClasses nullWireScene pairClasses_returnsClasses
      pairClasses_nodup⟩

/-! ### Null wires -/

/-- C9, counterexample: a scene with a null wire (ports 1 and 2, both ends at
the origin) and a resistor (ports 3 and 4).  Both ports of the null wire are
in the table and their net takes the id 1, so that the nets of the resistor
get 2 and 3; without the wire they get 1 and 2. -/
theorem C9_counterexample :
    Wire.isNull ⟨1, 2, (0, 0), (0, 0)⟩ = true ∧
    ReturnsClasses pairClasses ∧
    generateNetlistTopology pairClasses nullWireScene = [(1, 1), (2, 1), (3, 2), (4, 3)] ∧
    generateNetlistTopology pairClasses [.component (resistor "R1".toList 3 4)] =
      [(3, 1), (4, 2)] := by
  refine ⟨by decide, pairClasses_returnsClasses, by decide, by decide⟩

/-- C9, amended: `generateNetlistTopology` does not test `Wire::isNull`.  The
ports of a null wire that is in the scene are numbered like the ports of any
other item: both occur in the returned table, and before the ground renaming
each of them has an id between 1 and the number of nets, an id that no port
of another net has. -/
theorem C9_null_wire_ports_are_numbered (equi : Port → List Port)
    (items : List GraphicsItem) (w : Wire) (h : ReturnsClasses equi)
    (hw : GraphicsItem.wire w ∈ items) (_hnull : w.isNull = true) :
    (∃ n, (w.port1, n) ∈ generateNetlistTopology equi items) ∧
    (∃ n, (w.port2, n) ∈ generateNetlistTopology equi items) ∧
    (∃ n, (w.port1, n) ∈ assignNetIds equi (scenePorts items) ∧ 1 ≤ n ∧
      n ≤ (firstPorts equi [] (scenePorts items)).length ∧
      ∀ q, (q, n) ∈ assignNetIds equi (scenePorts items) → q ∈ equi w.port1) ∧
    (∃ n, (w.port2, n) ∈ assignNetIds equi (scenePorts items) ∧ 1 ≤ n ∧
      n ≤ (firstPorts equi [] (scenePorts items)).length ∧
      ∀ q, (q, n) ∈ assignNetIds equi (scenePorts items) → q ∈ equi w.port2) := by
  have hp : ∀ p ∈ (GraphicsItem.wire w).ports,
      (∃ n, (p, n) ∈ generateNetlistTopology equi items) ∧
      (∃ n, (p, n) ∈ assignNetIds equi (scenePorts items) ∧ 1 ≤ n ∧
        n ≤ (firstPorts equi [] (scenePorts items)).length ∧
        ∀ q, (q, n) ∈ assignNetIds equi (scenePorts items) → q ∈ equi p) := by
    intro p hp
    have hmem := item_port_mem items _ hw p hp
    obtain ⟨n, hn⟩ := assignNetIds_mem_of_port equi h (scenePorts items) hmem
    constructor
    · exact ⟨_, (mem_generateNetlistTopology equi h items p _).2 ⟨n, hn, rfl⟩⟩
    · refine ⟨n, hn, assignNetIds_pos equi h _ hn, ?_, ?_⟩
      · obtain ⟨i, r, hr, _, hi⟩ := (mem_assignNetIds equi h _ p n).1 hn
        have := (List.getElem?_eq_some.1 hr).1
        omega
      · intro q hq
        exact (assignNetIds_same_id_iff equi h _ hn hq).1 rfl
  have h1 := hp w.port1 (by simp [GraphicsItem.ports])
  have h2 := hp w.port2 (by simp [GraphicsItem.ports])
  exact ⟨h1.1, h2.1, h1.2, h2.2⟩

/-- Witness for C9 (amended): the null wire of the example scene. -/
theorem C9_null_wire_ports_are_numbered_witness :
    ReturnsClasses pairClasses ∧
    GraphicsItem.wire ⟨1, 2, (0, 0), (0, 0)⟩ ∈ nullWireScene ∧
    Wire.isNull ⟨1, 2, (0, 0), (0, 0)⟩ = true ∧
    (∃ n, ((1 : Port), n) ∈ generateNetlistTopology pairClasses nullWireScene) ∧
    (∃ n, ((2 : Port), n) ∈ generateNetlistTopology pairClasses nullWireScene) :=
  ⟨pairClasses_returnsClasses, List.mem_cons_self _ _, by decide,
    (C9_null_wire_ports_are_numbered pairClasses nullWireScene ⟨1, 2, (0, 0), (0, 0)⟩
      pairClasses_returnsClasses (List.mem_cons_self _ _) (by decide)).1,
    (C9_null_wire_ports_are_numbered pairClasses nullWireScene ⟨1, 2, (0, 0), (0, 0)⟩
      pairClasses_returnsClasses (List.mem_cons_self _ _) (by decide)).2.1⟩

/-! ### Symmetry of the connection lists -/

theorem mem_connectTo (a other : Port) (m : Connections) (x y : Port) :
    y ∈ connectTo a other m x ↔
      y ∈ m x ∨ (x = a ∧ y = other) ∨ (x = other ∧ y = a) := by
  unfold connectTo
  by_cases hxo : x = other <;> by_cases hxa : x = a
  · subst hxo
    subst hxa
    by_cases hm : x ∈ m x
    · simp only [hm, if_true]
      constructor
      · intro hy; exact Or.inl hy
      · rintro (hy | ⟨_, hy⟩ | ⟨_, hy⟩)
        · exact hy
        · rw [hy]; exact hm
        · rw [hy]; exact hm
    · simp [hm]
  · subst hxo
    have hax : ¬ a = x := fun h => hxa h.symm
    by_cases hm : a ∈ m x
    · simp only [hxa, if_true, if_false, hm]
      constructor
      · intro hy; exact Or.inl hy
      · rintro (hy | ⟨hx, _⟩ | ⟨_, hy⟩)
        · exact hy
        · exact absurd hx (by simp)
        · rw [hy]; exact hm
    · simp only [hxa, if_true, if_false, hm, List.mem_append, List.mem_singleton]
      tauto
  · subst hxa
    by_cases hm : other ∈ m x
    · simp only [hxo, if_true, if_false, hm]
      constructor
      · intro hy; exact Or.inl hy
      · rintro (hy | ⟨_, hy⟩ | ⟨hx, _⟩)
        · exact hy
        · rw [hy]; exact hm
        · exact absurd hx (by simp)
    · simp only [hxo, if_true, if_false, hm, List.mem_append, List.mem_singleton]
      tauto
  · simp only [hxo, hxa, if_false]
    tauto

theorem mem_disconnect (a : Port) (m : Connections) (hsym : Symmetric m) (x y : Port) :
    y ∈ disconnect a m x ↔ y ∈ m x ∧ x ≠ a ∧ y ≠ a := by
  unfold disconnect
  by_cases hxa : x = a
  · simp [hxa]
  · by_cases hx : x ∈ m a
    · simp only [hxa, hx, if_true, if_false, List.mem_filter, decide_eq_true_eq]
      tauto
    · simp only [hxa, hx, if_false]
      constructor
      · intro hy
        refine ⟨hy, hxa, ?_⟩
        intro hya
        subst hya
        exact hx ((hsym x y).1 hy)
      · intro hy; exact hy.1

theorem connectTo_symmetric (a other : Port) (m : Connections) (hsym : Symmetric m) :
    Symmetric (connectTo a other m) := by
  intro x y
  rw [mem_connectTo, mem_connectTo, hsym x y]
  tauto

theorem disconnect_symmetric (a : Port) (m : Connections) (hsym : Symmetric m) :
    Symmetric (disconnect a m) := by
  intro x y
  rw [mem_disconnect a m hsym, mem_disconnect a m hsym, hsym x y]
  tauto

theorem runPortOps_symmetric :
    ∀ (ops : List PortOp) (m : Connections), Symmetric m → Symmetric (runPortOps ops m) := by
  intro ops
  induction ops with
  | nil => intro m hm; exact hm
  | cons op ops ih =>
    intro m hm
    apply ih
    cases op with
    | connectTo a other => exact connectTo_symmetric a other m hm
    | disconnect a => exact disconnect_symmetric a m hm

/-- C10: symmetry of the connection lists is an invariant of `Port::connectTo`
and `Port::disconnect`.  In every state `m` reached from ports without
connections by a sequence of these operations, B is in the list of A if and
only if A is in the list of B; after `A.connectTo(B)` each lists the other; and
after `A.disconnect()` the list of A is empty and no port lists A. -/
theorem C10_connection_lists_symmetric (ops : List PortOp) (a b : Port) :
    (∀ x y, y ∈ runPortOps ops noConnections x ↔ x ∈ runPortOps ops noConnections y) ∧
    (b ∈ connectTo a b (runPortOps ops noConnections) a ∧
      a ∈ connectTo a b (runPortOps ops noConnections) b) ∧
    (disconnect a (runPortOps ops noConnections) a = [] ∧
      ∀ p, a ∉ disconnect a (runPortOps ops noConnections) p) := by
  have hsym : Symmetric (runPortOps ops noConnections) :=
    runPortOps_symmetric ops noConnections (fun x y => by simp [noConnections])
  refine ⟨hsym, ⟨?_, ?_⟩, ?_, ?_⟩
  · rw [mem_connectTo]; exact Or.inr (Or.inl ⟨rfl, rfl⟩)
  · rw [mem_connectTo]; exact Or.inr (Or.inr ⟨rfl, rfl⟩)
  · simp [disconnect]
  · intro p hp
    exact ((mem_disconnect a _ hsym p a).1 hp).2.2 rfl

theorem connectTo_twice : connectTo 1 2 (connectTo 1 2 noConnections) 1 = [2] := by decide
theorem disconnect_after_connect :
    disconnect 1 (connectTo 1 3 (connectTo 1 2 noConnections)) 2 = [] := by decide

/-! ### The traversal of `getEquipotentialPorts` -/

theorem pendingPeers_cons (m : Connections) (q : Port) (l visited : List Port) :
    pendingPeers m (q :: l) visited =
      (if q ∈ visited then 0 else (m q).length) + pendingPeers m l visited := by
  unfold pendingPeers
  by_cases hq : q ∈ visited
  · have hc : visited.contains q = true := by simpa using hq
    simp only [List.filter_cons, hc, hq, if_true, Bool.not_true, Bool.false_eq_true, if_false,
      Nat.zero_add]
  · have hc : visited.contains q = false := by simpa using hq
    simp only [List.filter_cons, hc, hq, if_false, Bool.not_false, if_true, List.map_cons,
      List.sum_cons]

theorem pendingPeers_append_mono (m : Connections) (visited : List Port) (p : Port) :
    ∀ l : List Port, pendingPeers m l (visited ++ [p]) ≤ pendingPeers m l visited := by
  intro l
  induction l with
  | nil => simp [pendingPeers]
  | cons q l ih =>
    rw [pendingPeers_cons, pendingPeers_cons]
    by_cases hq : q ∈ visited
    · have hq2 : q ∈ visited ++ [p] := List.mem_append_left _ hq
      simp only [hq, hq2, if_true]
      omega
    · by_cases hq2 : q ∈ visited ++ [p]
      · simp only [hq, hq2, if_true, if_false]
        omega
      · simp only [hq, hq2, if_false]
        omega

theorem pendingPeers_append_le (m : Connections) (visited : List Port) (p : Port)
    (hp : p ∉ visited) :
    ∀ scenePorts : List Port, p ∈ scenePorts →
      pendingPeers m scenePorts (visited ++ [p]) + (m p).length ≤
        pendingPeers m scenePorts visited := by
  intro scenePorts
  induction scenePorts with
  | nil => intro h; simp at h
  | cons q l ih =>
    intro hmem
    rw [pendingPeers_cons, pendingPeers_cons]
    by_cases hqp : q = p
    · subst hqp
      have hq2 : q ∈ visited ++ [q] := by simp
      have := pendingPeers_append_mono m visited q l
      simp only [hp, hq2, if_true, if_false]
      omega
    · have hpl : p ∈ l := by
        rcases List.mem_cons.1 hmem with h | h
        · exact absurd h.symm hqp
        · exact h
      have := ih hpl
      by_cases hq : q ∈ visited
      · have hq2 : q ∈ visited ++ [p] := List.mem_append_left _ hq
        simp only [hq, hq2, if_true]
        omega
      · have hq2 : q ∉ visited ++ [p] := by
          intro h
          rcases List.mem_append.1 h with h | h
          · exact hq h
          · exact hqp (by simpa using h)
        simp only [hq, hq2, if_false]
        omega

theorem equipotentialLoop_terminates (m : Connections) (scenePorts : List Port)
    (hclosed : ∀ p ∈ scenePorts, ∀ q ∈ m p, q ∈ scenePorts) :
    ∀ (fuel : Nat) (pending visited : List Port),
      (∀ p ∈ pending, p ∈ scenePorts) →
      pending.length + pendingPeers m scenePorts visited ≤ fuel →
      ∃ result, equipotentialLoop m fuel pending visited = some result := by
  intro fuel
  induction fuel with
  | zero =>
    intro pending visited _ hfuel
    cases pending with
    | nil => exact ⟨visited, by simp [equipotentialLoop]⟩
    | cons p pending => simp at hfuel
  | succ fuel ih =>
    intro pending visited hmem hfuel
    cases pending with
    | nil => exact ⟨visited, by simp [equipotentialLoop]⟩
    | cons p pending =>
      have hp := hmem p (List.mem_cons_self _ _)
      have hrest : ∀ q ∈ pending, q ∈ scenePorts :=
        fun q hq => hmem q (List.mem_cons_of_mem _ hq)
      simp only [List.length_cons] at hfuel
      by_cases hv : p ∈ visited
      · have hc : visited.contains p = true := by simpa using hv
        simp only [equipotentialLoop, hc, if_true]
        exact ih pending visited hrest (by omega)
      · have hc : visited.contains p = false := by simpa using hv
        simp only [equipotentialLoop, hc, if_false, Bool.false_eq_true]
        apply ih
        · intro q hq
          rcases List.mem_append.1 hq with hq | hq
          · exact hclosed p hp q hq
          · exact hrest q hq
        · have := pendingPeers_append_le m visited p hv scenePorts hp
          simp only [List.length_append]
          omega

theorem equipotentialLoop_spec (m : Connections) :
    ∀ (fuel : Nat) (pending visited result : List Port),
      equipotentialLoop m fuel pending visited = some result →
      (∀ q ∈ visited, q ∈ result) ∧
      (∀ p ∈ pending, p ∈ result) ∧
      (∀ q ∈ result, q ∈ visited ∨ ∃ s ∈ pending, Reachable m s q) ∧
      (visited.Nodup → result.Nodup) ∧
      (∀ q ∈ result, q ∉ visited → ∀ r ∈ m q, r ∈ result) := by
  intro fuel
  induction fuel with
  | zero =>
    intro pending visited result h
    cases pending with
    | nil =>
      simp only [equipotentialLoop, Option.some.injEq] at h
      subst h
      refine ⟨fun q hq => hq, ?_, fun q hq => Or.inl hq, fun hn => hn, ?_⟩
      · intro p hp; simp at hp
      · intro q hq hnq; exact absurd hq hnq
    | cons p pending => simp [equipotentialLoop] at h
  | succ fuel ih =>
    intro pending visited result h
    cases pending with
    | nil =>
      simp only [equipotentialLoop, Option.some.injEq] at h
      subst h
      refine ⟨fun q hq => hq, ?_, fun q hq => Or.inl hq, fun hn => hn, ?_⟩
      · intro p hp; simp at hp
      · intro q hq hnq; exact absurd hq hnq
    | cons p pending =>
      by_cases hv : p ∈ visited
      · have hc : visited.contains p = true := by simpa using hv
        simp only [equipotentialLoop, hc, if_true] at h
        obtain ⟨h1, h2, h3, h4, h5⟩ := ih pending visited result h
        refine ⟨h1, ?_, ?_, h4, h5⟩
        · intro q hq
          rcases List.mem_cons.1 hq with rfl | hq
          · exact h1 q hv
          · exact h2 q hq
        · intro q hq
          rcases h3 q hq with hq | ⟨s, hs, hsq⟩
          · exact Or.inl hq
          · exact Or.inr ⟨s, List.mem_cons_of_mem _ hs, hsq⟩
      · have hc : visited.contains p = false := by simpa using hv
        simp only [equipotentialLoop, hc, if_false, Bool.false_eq_true] at h
        obtain ⟨h1, h2, h3, h4, h5⟩ := ih (m p ++ pending) (visited ++ [p]) result h
        have hpr : p ∈ result := h1 p (by simp)
        refine ⟨?_, ?_, ?_, ?_, ?_⟩
        · intro q hq
          exact h1 q (List.mem_append_left _ hq)
        · intro q hq
          rcases List.mem_cons.1 hq with rfl | hq
          · exact hpr
          · exact h2 q (List.mem_append_right _ hq)
        · intro q hq
          rcases h3 q hq with hq | ⟨s, hs, hsq⟩
          · rcases List.mem_append.1 hq with hq | hq
            · exact Or.inl hq
            · have hqp : q = p := by simpa using hq
              subst hqp
              exact Or.inr ⟨q, List.mem_cons_self _ _, Relation.ReflTransGen.refl⟩
          · rcases List.mem_append.1 hs with hs | hs
            · exact Or.inr ⟨p, List.mem_cons_self _ _,
                Relation.ReflTransGen.head hs hsq⟩
            · exact Or.inr ⟨s, List.mem_cons_of_mem _ hs, hsq⟩
        · intro hn
          apply h4
          rw [List.nodup_append]
          refine ⟨hn, by simp, ?_⟩
          intro a ha hb
          have : a = p := by simpa using hb
          subst this
          exact hv ha
        · intro q hq hnq r hr
          by_cases hqp : q = p
          · subst hqp
            exact h2 r (List.mem_append_left _ hr)
          · apply h5 q hq _ r hr
            intro hmem
            rcases List.mem_append.1 hmem with hmem | hmem
            · exact hnq hmem
            · exact hqp (by simpa using hmem)

theorem pendingPeers_nil (m : Connections) (scenePorts : List Port) :
    pendingPeers m scenePorts [] = (scenePorts.map fun p => (m p).length).sum := by
  induction scenePorts with
  | nil => rfl
  | cons q l ih =>
    rw [pendingPeers_cons, ih]
    simp

/-- C11: for every port P of every finite connection graph, cycles included
(the ports are those of `scenePorts`, and every peer of one of them is one of
them), `Port::getEquipotentialPorts` called on P with an empty list terminates
(a number of calls that is at least `callBound` suffices) and fills the list
with P and the ports reachable from P, each exactly once; the list is closed
under connection: no port of the list has a peer outside the list. -/
theorem C11_equipotential_ports_closed (m : Connections) (scenePorts : List Port)
    (p : Port) (fuel : Nat) (hp : p ∈ scenePorts)
    (hgraph : ∀ a ∈ scenePorts, ∀ b ∈ m a, b ∈ scenePorts)
    (hfuel : callBound m scenePorts ≤ fuel) :
    ∃ list, getEquipotentialPorts m fuel p [] = some list ∧
      p ∈ list ∧ list.Nodup ∧ (∀ q, q ∈ list ↔ Reachable m p q) ∧
      (∀ q ∈ list, ∀ r ∈ m q, r ∈ list) := by
  have hterm := equipotentialLoop_terminates m scenePorts hgraph fuel [p] []
    (by intro q hq; have : q = p := by simpa using hq
        rw [this]; exact hp)
    (by rw [pendingPeers_nil]; unfold callBound at hfuel; simp only [List.length_singleton]; omega)
  obtain ⟨list, hlist⟩ := hterm
  obtain ⟨_, h2, h3, h4, h5⟩ := equipotentialLoop_spec m fuel [p] [] list hlist
  have hclosed : ∀ q ∈ list, ∀ r ∈ m q, r ∈ list :=
    fun q hq r hr => h5 q hq (by simp) r hr
  have hpl : p ∈ list := h2 p (by simp)
  refine ⟨list, hlist, hpl, h4 List.nodup_nil, ?_, hclosed⟩
  intro q
  constructor
  · intro hq
    rcases h3 q hq with hq | ⟨s, hs, hsq⟩
    · simp at hq
    · have : s = p := by simpa using hs
      rw [← this]; exact hsq
  · intro hreach
    induction hreach with
    | refl => exact hpl
    | tail _ hbc ih => exact hclosed _ ih _ hbc

/-- Witness for C11: the triangle of the ports 1, 2 and 3, a graph with a
cycle, with 8 calls. -/
theorem C11_equipotential_ports_closed_witness :
    (1 : Port) ∈ [1, 2, 3, 4] ∧
    (∀ a ∈ [1, 2, 3, 4], ∀ b ∈ triangle a, b ∈ [1, 2, 3, 4]) ∧
    callBound triangle [1, 2, 3, 4] ≤ 8 ∧
    ∃ list, getEquipotentialPorts triangle 8 1 [] = some list ∧
      1 ∈ list ∧ list.Nodup ∧ (∀ q, q ∈ list ↔ Reachable triangle 1 q) ∧
      (∀ q ∈ list, ∀ r ∈ triangle q, r ∈ list) :=
  ⟨by decide, by decide, by decide,
    C11_equipotential_ports_closed triangle [1, 2, 3, 4] 1 8 (by decide) (by decide)
      (by decide)⟩

theorem getEquipotentialPorts_triangle :
    getEquipotentialPorts triangle 8 1 [] = some [1, 2, 3] := by decide

/-! ### Mouse actions -/

@[simp] theorem deleteWire_mouseAction (ptr : ItemPtr) (s : GraphicsScene) :
    (deleteWire ptr s).mouseAction = s.mouseAction := by
  unfold deleteWire; cases wireAt s ptr <;> rfl

@[simp] theorem deleteWire_shortcutsBlocked (ptr : ItemPtr) (s : GraphicsScene) :
    (deleteWire ptr s).shortcutsBlocked = s.shortcutsBlocked := by
  unfold deleteWire; cases wireAt s ptr <;> rfl

@[simp] theorem deleteWire_eventFilterInstalled (ptr : ItemPtr) (s : GraphicsScene) :
    (deleteWire ptr s).eventFilterInstalled = s.eventFilterInstalled := by
  unfold deleteWire; cases wireAt s ptr <;> rfl

@[simp] theorem deleteWire_areItemsMoving (ptr : ItemPtr) (s : GraphicsScene) :
    (deleteWire ptr s).areItemsMoving = s.areItemsMoving := by
  unfold deleteWire; cases wireAt s ptr <;> rfl

@[simp] theorem deleteWire_openMacros (ptr : ItemPtr) (s : GraphicsScene) :
    (deleteWire ptr s).openMacros = s.openMacros := by
  unfold deleteWire; cases wireAt s ptr <;> rfl

@[simp] theorem deleteWire_insertibles (ptr : ItemPtr) (s : GraphicsScene) :
    (deleteWire ptr s).insertibles = s.insertibles := by
  unfold deleteWire; cases wireAt s ptr <;> rfl

@[simp] theorem deleteWire_currentlyWiring (ptr : ItemPtr) (s : GraphicsScene) :
    (deleteWire ptr s).currentlyWiring = s.currentlyWiring := by
  unfold deleteWire; cases wireAt s ptr <;> rfl

@[simp] theorem deleteWire_currentWiringWire (ptr : ItemPtr) (s : GraphicsScene) :
    (deleteWire ptr s).currentWiringWire = s.currentWiringWire := by
  unfold deleteWire; cases wireAt s ptr <;> rfl

theorem deleteWire_selectedItems_nil (ptr : ItemPtr) (s : GraphicsScene)
    (h : s.selectedItems = []) : (deleteWire ptr s).selectedItems = [] := by
  unfold deleteWire
  cases wireAt s ptr with
  | none => exact h
  | some w => simp [h]

theorem resetState_fields (s : GraphicsScene) :
    (resetState s).mouseAction = s.mouseAction ∧
    (resetState s).shortcutsBlocked = s.shortcutsBlocked ∧
    (resetState s).eventFilterInstalled = s.eventFilterInstalled ∧
    (resetState s).areItemsMoving = s.areItemsMoving ∧
    (resetState s).openMacros = s.openMacros ∧
    (resetState s).currentlyWiring = false ∧
    (resetState s).paintingDrawItem = none ∧
    (resetState s).paintingDrawClicks = 0 ∧
    (resetState s).zoomBandVisible = false ∧
    (resetState s).zoomBandClicks = 0 ∧
    (resetState s).insertibles = [] ∧
    (resetState s).selectedItems = [] := by
  unfold resetState
  cases hw : s.currentlyWiring with
  | false => simp [hw]
  | true =>
    cases hp : s.currentWiringWire with
    | none => simp [hw, hp]
    | some ptr =>
      simp only [hw, hp, if_true]
      refine ⟨by simp, by simp, by simp, by simp, by simp, by simp, by simp, by simp, by simp,
        by simp, by simp, ?_⟩
      exact deleteWire_selectedItems_nil _ _ rfl

theorem blockShortcuts_fields (block : Bool) (s : GraphicsScene) :
    (blockShortcuts block s).mouseAction = s.mouseAction ∧
    ((blockShortcuts block s).shortcutsBlocked = block) ∧
    (s.eventFilterInstalled = s.shortcutsBlocked →
      (blockShortcuts block s).eventFilterInstalled = block) := by
  unfold blockShortcuts
  cases block <;> cases hb : s.shortcutsBlocked <;> simp [hb]

theorem updateShortcutBlocking_fields (action : MouseAction) (s : GraphicsScene)
    (hne : s.mouseAction ≠ action)
    (hinv : (s.shortcutsBlocked = true ↔ s.mouseAction = .InsertingItems) ∧
      s.eventFilterInstalled = s.shortcutsBlocked) :
    ((updateShortcutBlocking action s).shortcutsBlocked = true ↔ action = .InsertingItems) ∧
    (updateShortcutBlocking action s).eventFilterInstalled =
      (updateShortcutBlocking action s).shortcutsBlocked := by
  unfold updateShortcutBlocking
  by_cases hold : s.mouseAction = .InsertingItems
  · have hnew : action ≠ .InsertingItems := fun h => hne (by rw [hold, h])
    obtain ⟨_, hb2, hb3⟩ := blockShortcuts_fields false s
    simp only [hold, hnew, if_true, if_false]
    rw [hb2, hb3 hinv.2]
    simp [hnew]
  · by_cases hnew : action = .InsertingItems
    · obtain ⟨_, hb2, hb3⟩ := blockShortcuts_fields true s
      simp only [hold, hnew, if_true, if_false]
      rw [hb2, hb3 hinv.2]
      simp
    · simp only [hold, hnew, if_false]
      refine ⟨?_, hinv.2⟩
      constructor
      · intro hb; exact absurd (hinv.1.1 hb) hold
      · intro h; exact absurd h (by simp)

theorem setMouseAction_of_ne (action : MouseAction) (s : GraphicsScene)
    (hne : s.mouseAction ≠ action) :
    setMouseAction action s =
      resetState
        { updateShortcutBlocking action s with areItemsMoving := false, mouseAction := action } := by
  unfold setMouseAction
  rw [if_neg hne]

theorem setMouseAction_invariant (action : MouseAction) (s : GraphicsScene)
    (hinv : (s.shortcutsBlocked = true ↔ s.mouseAction = .InsertingItems) ∧
      s.eventFilterInstalled = s.shortcutsBlocked) :
    ((setMouseAction action s).shortcutsBlocked = true ↔
      (setMouseAction action s).mouseAction = .InsertingItems) ∧
    (setMouseAction action s).eventFilterInstalled =
      (setMouseAction action s).shortcutsBlocked := by
  by_cases hsame : s.mouseAction = action
  · have : setMouseAction action s = s := by simp [setMouseAction, hsame]
    rw [this]
    exact hinv
  · rw [setMouseAction_of_ne action s hsame]
    obtain ⟨hr1, hr2, hr3, -⟩ := resetState_fields
      { updateShortcutBlocking action s with areItemsMoving := false, mouseAction := action }
    rw [hr1, hr2, hr3]
    exact updateShortcutBlocking_fields action s hsame hinv

/-- C14: starting from a newly constructed `GraphicsScene` (mode Normal,
shortcuts not blocked), after any sequence of `setMouseAction` calls the flag
`m_shortcutsBlocked` is true if and only if the current mouse action is
`InsertingItems`, and the event filter is installed exactly when the flag is
true. -/
theorem C14_shortcuts_blocked_iff_inserting (actions : List MouseAction) :
    ((setMouseActions actions newGraphicsScene).shortcutsBlocked = true ↔
      (setMouseActions actions newGraphicsScene).mouseAction = .InsertingItems) ∧
    (setMouseActions actions newGraphicsScene).eventFilterInstalled =
      (setMouseActions actions newGraphicsScene).shortcutsBlocked := by
  have hgen : ∀ (l : List MouseAction) (s : GraphicsScene),
      ((s.shortcutsBlocked = true ↔ s.mouseAction = .InsertingItems) ∧
        s.eventFilterInstalled = s.shortcutsBlocked) →
      (((setMouseActions l s).shortcutsBlocked = true ↔
        (setMouseActions l s).mouseAction = .InsertingItems) ∧
      (setMouseActions l s).eventFilterInstalled = (setMouseActions l s).shortcutsBlocked) := by
    intro l
    induction l with
    | nil => intro s hs; exact hs
    | cons a l ih =>
      intro s hs
      exact ih _ (setMouseAction_invariant a s hs)
  apply hgen
  simp [newGraphicsScene]

/-- C15, counterexample: in mode Normal with the item 7 selected,
`setMouseAction(Normal)` returns at once and the selection is not cleared. -/
theorem C15_counterexample :
    selectedScene.mouseAction = .Normal ∧
    (setMouseAction .Normal selectedScene).selectedItems = [7] := by
  refine ⟨rfl, by decide⟩

/-- C15, amended: after `setMouseAction(a)` returns, for every mode `a` other
than the current mode and every prior scene state, the transient interaction
state is reset: the mode is `a`, no move is in progress, no wire is pending,
there is no pending painting-draw item and its click count is 0, the zoom band
is hidden with click count 0, the ghost list is empty and the selection is
cleared.  When `a` is the current mode the call changes nothing. -/
theorem C15_mode_change_resets_state (a : MouseAction) (s : GraphicsScene)
    (hmode : s.mouseAction ≠ a) :
    (setMouseAction a s).mouseAction = a ∧
    (setMouseAction a s).areItemsMoving = false ∧
    (setMouseAction a s).currentlyWiring = false ∧
    (setMouseAction a s).paintingDrawItem = none ∧
    (setMouseAction a s).paintingDrawClicks = 0 ∧
    (setMouseAction a s).zoomBandVisible = false ∧
    (setMouseAction a s).zoomBandClicks = 0 ∧
    (setMouseAction a s).insertibles = [] ∧
    (setMouseAction a s).selectedItems = [] ∧
    (∀ t : GraphicsScene, setMouseAction t.mouseAction t = t) := by
  have hlast : ∀ t : GraphicsScene, setMouseAction t.mouseAction t = t := by
    intro t; simp [setMouseAction]
  rw [setMouseAction_of_ne a s hmode]
  obtain ⟨h1, _, _, h4, _, h6, h7, h8, h9, h10, h11, h12⟩ := resetState_fields
    { updateShortcutBlocking a s with areItemsMoving := false, mouseAction := a }
  exact ⟨h1, h4, h6, h7, h8, h9, h10, h11, h12, hlast⟩

/-- Witness for C15 (amended): from mode Normal with a selection to mode
Wiring. -/
theorem C15_mode_change_resets_state_witness :
    selectedScene.mouseAction ≠ .Wiring ∧
    (setMouseAction .Wiring selectedScene).mouseAction = .Wiring ∧
    (setMouseAction .Wiring selectedScene).selectedItems = [] :=
  ⟨by decide, (C15_mode_change_resets_state .Wiring selectedScene (by decide)).1,
    (C15_mode_change_resets_state .Wiring selectedScene (by decide)).2.2.2.2.2.2.2.2.1⟩

/-! ### Connecting and splitting keep the wiring fields -/

theorem keeps_refl (s : GraphicsScene) : Keeps s s :=
  ⟨rfl, rfl, le_refl _, fun h => h⟩

theorem keeps_trans {s t u : GraphicsScene} (h₁ : Keeps s t) (h₂ : Keeps t u) : Keeps s u :=
  ⟨h₂.1.trans h₁.1, h₂.2.1.trans h₁.2.1, le_trans h₁.2.2.1 h₂.2.2.1,
    fun h => h₂.2.2.2 (h₁.2.2.2 h)⟩

theorem connectPorts_fields (q : SceneQueries) :
    ∀ (ports : List Port) (s : GraphicsScene),
      (connectPorts q ports s).wires = s.wires ∧
      (connectPorts q ports s).nextId = s.nextId ∧
      (connectPorts q ports s).currentlyWiring = s.currentlyWiring ∧
      (connectPorts q ports s).currentWiringWire = s.currentWiringWire ∧
      (connectPorts q ports s).otherPorts = s.otherPorts ∧
      (connectPorts q ports s).calls = s.calls := by
  intro ports
  induction ports with
  | nil => intro s; simp [connectPorts]
  | cons port ports ih =>
    intro s
    unfold connectPorts
    cases q.findCoincidingPort s port with
    | none => exact ih s
    | some other => exact ih _

theorem connectItems_fields (q : SceneQueries) (ports : List Port) (s : GraphicsScene) :
    (connectItems q ports s).wires = s.wires ∧
    (connectItems q ports s).nextId = s.nextId ∧
    (connectItems q ports s).currentlyWiring = s.currentlyWiring ∧
    (connectItems q ports s).currentWiringWire = s.currentWiringWire ∧
    (connectItems q ports s).otherPorts = s.otherPorts ∧
    (connectItems q ports s).calls = s.calls ++ [.connectItems ports] := by
  unfold connectItems
  exact connectPorts_fields q ports _

theorem connectItems_keeps (q : SceneQueries) (ports : List Port) (s : GraphicsScene) :
    Keeps s (connectItems q ports s) := by
  obtain ⟨h1, h2, h3, h4, _, _⟩ := connectItems_fields q ports s
  refine ⟨h3, h4, by rw [h2], ?_⟩
  intro hf x hx
  rw [h1] at hx
  rw [h2]
  exact hf x hx

theorem addNewWire_keeps (a b : Point) (s : GraphicsScene) :
    Keeps s (addNewWire a b s).2.2 := by
  refine ⟨rfl, rfl, by simp [addNewWire], ?_⟩
  intro hf x hx
  simp only [addNewWire, List.mem_append, List.mem_singleton] at hx ⊢
  rcases hx with hx | hx
  · exact Nat.lt_add_right 2 (hf x hx)
  · rw [hx]
    simp

theorem deleteWire_keeps (ptr : ItemPtr) (s : GraphicsScene) : Keeps s (deleteWire ptr s) := by
  unfold deleteWire
  cases wireAt s ptr with
  | none => exact keeps_refl s
  | some w =>
    refine ⟨rfl, rfl, le_refl _, ?_⟩
    intro hf x hx
    exact hf x (List.mem_filter.1 hx).1

theorem splitCollidingWire_keeps (q : SceneQueries) (itemPorts : List Port) (port : Port)
    (acc : GraphicsScene × List ItemPtr) (collidingWire : ItemPtr) :
    Keeps acc.1 (splitCollidingWire q itemPorts port acc collidingWire).1 := by
  unfold splitCollidingWire
  cases wireAt acc.1 collidingWire with
  | none => exact keeps_refl _
  | some w =>
    by_cases hc : alreadyConnected acc.1.connections itemPorts w = true
    · simp only [hc, if_true]
      exact keeps_refl _
    · simp only [hc, if_false, Bool.false_eq_true]
      refine keeps_trans ?_ (connectItems_keeps q _ _)
      refine keeps_trans ?_ (connectItems_keeps q _ _)
      have h₁ := addNewWire_keeps w.scenePos1 (scenePos acc.1 port) acc.1
      have h₂ := addNewWire_keeps (scenePos acc.1 port) w.scenePos2
        (addNewWire w.scenePos1 (scenePos acc.1 port) acc.1).2.2
      have h₃ := keeps_trans h₁ h₂
      exact ⟨h₃.1, h₃.2.1, h₃.2.2.1, h₃.2.2.2⟩

theorem foldl_splitCollidingWire_keeps (q : SceneQueries) (itemPorts : List Port) (port : Port) :
    ∀ (wires : List ItemPtr) (acc : GraphicsScene × List ItemPtr),
      Keeps acc.1 (wires.foldl (splitCollidingWire q itemPorts port) acc).1 := by
  intro wires
  induction wires with
  | nil => intro acc; exact keeps_refl _
  | cons w wires ih =>
    intro acc
    simp only [List.foldl_cons]
    exact keeps_trans (splitCollidingWire_keeps q itemPorts port acc w) (ih _)

theorem foldl_deleteWire_keeps :
    ∀ (wires : List ItemPtr) (s : GraphicsScene),
      Keeps s (wires.foldl (fun t w => deleteWire w t) s) := by
  intro wires
  induction wires with
  | nil => intro s; exact keeps_refl _
  | cons w wires ih =>
    intro s
    simp only [List.foldl_cons]
    exact keeps_trans (deleteWire_keeps w s) (ih _)

theorem splitAtPort_keeps (q : SceneQueries) (itemPorts : List Port) (s : GraphicsScene)
    (port : Port) : Keeps s (splitAtPort q itemPorts s port) := by
  unfold splitAtPort
  exact keeps_trans (foldl_splitCollidingWire_keeps q itemPorts port _ (s, []))
    (foldl_deleteWire_keeps _ _)

theorem foldl_splitAtPort_keeps (q : SceneQueries) (itemPorts : List Port) :
    ∀ (ports : List Port) (s : GraphicsScene),
      Keeps s (ports.foldl (splitAtPort q itemPorts) s) := by
  intro ports
  induction ports with
  | nil => intro s; exact keeps_refl _
  | cons p ports ih =>
    intro s
    simp only [List.foldl_cons]
    exact keeps_trans (splitAtPort_keeps q itemPorts s p) (ih _)

theorem splitAndCreateNodes_keeps (q : SceneQueries) (itemPorts : List Port)
    (s : GraphicsScene) : Keeps s (splitAndCreateNodes q itemPorts s) := by
  unfold splitAndCreateNodes
  refine keeps_trans ?_ (foldl_splitAtPort_keeps q itemPorts itemPorts _)
  exact ⟨rfl, rfl, le_refl _, fun h => h⟩

theorem wireAt_addNewWire (a b : Point) (s : GraphicsScene) (hf : FreshPointers s) :
    wireAt (addNewWire a b s).2.2 (addNewWire a b s).1 =
      some ⟨s.nextId, s.nextId + 1, a, b⟩ := by
  unfold wireAt addNewWire
  simp only
  rw [List.find?_append]
  have hnone : List.find? (fun w => decide (w.1 = s.nextId)) s.wires = none := by
    rw [List.find?_eq_none]
    intro x hx
    simp only [decide_eq_true_eq]
    exact Nat.ne_of_lt (hf x hx)
  rw [hnone]
  simp

/-! ### Wiring -/

theorem wireAt_movePort2 (ptr : ItemPtr) (target : Point) (s : GraphicsScene) (w : Wire)
    (hw : wireAt s ptr = some w) :
    wireAt (movePort2 ptr target s) ptr = some { w with scenePos2 := target } := by
  unfold wireAt movePort2 at *
  simp only
  revert hw
  generalize s.wires = l
  induction l with
  | nil => intro hw; simp at hw
  | cons x l ih =>
    intro hw
    by_cases hx : x.1 = ptr
    · simp only [List.find?_cons, hx, decide_True, Option.map_some', Option.some.injEq] at hw
      simp [List.find?_cons, hx, hw]
    · simp only [List.find?_cons, hx, decide_False] at hw
      simp only [List.map_cons, hx, if_false, List.find?_cons, decide_False]
      exact ih hw

/-- C18: `wiringEventMouseMove` keeps the pending wire axis-aligned.  For
every anchor (the scene position of port 1) and every cursor point, port 2 is
moved to (cursor.x, anchor.y) when |cursor.x - anchor.x| > |cursor.y - anchor.y|
and to (anchor.x, cursor.y) otherwise, so the free end shares its x or its y
coordinate with the anchor; nothing is moved when no wire is pending. -/
theorem C18_pending_wire_axis_aligned (newPos : Point) (s : GraphicsScene) (ptr : ItemPtr)
    (w : Wire) (hwiring : s.currentlyWiring = true) (hptr : s.currentWiringWire = some ptr)
    (hw : wireAt s ptr = some w) :
    ∃ target : Point,
      wiringEventMouseMove newPos s = some (movePort2 ptr target s) ∧
      target =
        (if (newPos.1 - w.scenePos1.1).natAbs > (newPos.2 - w.scenePos1.2).natAbs
          then (newPos.1, w.scenePos1.2) else (w.scenePos1.1, newPos.2)) ∧
      wireAt (movePort2 ptr target s) ptr = some { w with scenePos2 := target } ∧
      (target.1 = w.scenePos1.1 ∨ target.2 = w.scenePos1.2) ∧
      (∀ t : GraphicsScene, t.currentlyWiring = false →
        wiringEventMouseMove newPos t = some t) := by
  have hcur : currentWire s = some w := by simp [currentWire, hptr, hw]
  have hx : (w.scenePos1.1 - newPos.1).natAbs = (newPos.1 - w.scenePos1.1).natAbs := by omega
  have hy : (w.scenePos1.2 - newPos.2).natAbs = (newPos.2 - w.scenePos1.2).natAbs := by omega
  refine ⟨_, ?_, rfl, wireAt_movePort2 ptr _ s w hw, ?_, ?_⟩
  · unfold wiringEventMouseMove
    simp only [hwiring, hptr, hcur, if_true, hx, hy]
    split_ifs <;> rfl
  · split_ifs
    · right; rfl
    · left; rfl
  · intro t ht
    simp [wiringEventMouseMove, ht]

/-- Witness for C18: the pending wire from (0,0), the cursor at (100,30). -/
theorem C18_pending_wire_axis_aligned_witness :
    pendingWireScene.currentlyWiring = true ∧
    pendingWireScene.currentWiringWire = some 0 ∧
    wireAt pendingWireScene 0 = some ⟨0, 1, (0, 0), (100, 0)⟩ ∧
    ∃ target : Point,
      wiringEventMouseMove (100, 30) pendingWireScene =
        some (movePort2 0 target pendingWireScene) ∧
      target =
        (if ((100 : Int) - (0 : Int)).natAbs > ((30 : Int) - (0 : Int)).natAbs
          then ((100 : Int), (0 : Int)) else ((0 : Int), (30 : Int))) :=
  ⟨by decide, by decide, by decide,
    (C18_pending_wire_axis_aligned (100, 30) pendingWireScene 0 ⟨0, 1, (0, 0), (100, 0)⟩
      (by decide) (by decide) (by decide)).imp fun _ h => ⟨h.1, h.2.1⟩⟩

/-- C19: a mouse press in Wiring mode while the pending wire is null is
ignored.  Whatever the buttons, the event returns the state it was given:
neither `connectItems` nor `splitAndCreateNodes` is called, no wire is created
or removed, and `m_currentlyWiring` and `m_currentWiringWire` are unchanged. -/
theorem C19_press_on_null_wire_ignored (q : SceneQueries) (snap : Point → Point)
    (event : MouseEvent) (s : GraphicsScene) (w : Wire)
    (hpress : event.type = .press) (hwiring : s.currentlyWiring = true)
    (hcur : currentWire s = some w) (hnull : w.isNull = true) :
    wiringEvent q snap event s = some s ∧
    wiringEventLeftMouseClick q (snap event.scenePos) s = some s ∧
    wiringEventRightMouseClick q s = some s := by
  have hl : wiringEventLeftMouseClick q (snap event.scenePos) s = some s := by
    simp [wiringEventLeftMouseClick, hwiring, hcur, hnull]
  have hr : wiringEventRightMouseClick q s = some s := by
    simp [wiringEventRightMouseClick, hwiring, hcur, hnull]
  refine ⟨?_, hl, hr⟩
  unfold wiringEvent wiringEventMouseClick
  simp only [hpress, if_true]
  split_ifs
  · exact hl
  · exact hr
  · rfl

/-- Witness for C19: a left press at (0,0) on the pending null wire. -/
theorem C19_press_on_null_wire_ignored_witness :
    (MouseEvent.mk .press (0, 0) ⟨true, false⟩).type = .press ∧
    pendingNullWireScene.currentlyWiring = true ∧
    currentWire pendingNullWireScene = some ⟨0, 1, (100, 50), (100, 50)⟩ ∧
    Wire.isNull ⟨0, 1, (100, 50), (100, 50)⟩ = true ∧
    wiringEventRightMouseClick exampleQueries pendingNullWireScene =
      some pendingNullWireScene :=
  ⟨rfl, by decide, by decide, by decide,
    (C19_press_on_null_wire_ignored exampleQueries (fun p => p)
      (MouseEvent.mk .press (0, 0) ⟨true, false⟩) pendingNullWireScene
      ⟨0, 1, (100, 50), (100, 50)⟩ rfl (by decide) (by decide) (by decide)).2.2⟩

/-- C17: on a left-button press in Wiring mode with a non-null pending wire,
after `connectItems` and `splitAndCreateNodes` have run (the state `s₂`, in
which the pending wire is `w₂`): if port 2 of the wire has any connection,
wiring ends (no pending wire, `m_currentlyWiring` false); otherwise wiring
continues with a new pending wire of length zero whose two ends are both at
the scene position of port 2 of the previous wire. -/
theorem C17_left_click_ends_or_continues (q : SceneQueries) (pos : Point)
    (s : GraphicsScene) (w w₂ : Wire)
    (hwiring : s.currentlyWiring = true) (hcur : currentWire s = some w)
    (hnull : w.isNull = false) (hfresh : FreshPointers s)
    (hstill : currentWire (splitAndCreateNodes q [w.port1, w.port2]
      (connectItems q [w.port1, w.port2] s)) = some w₂) :
    (hasAnyConnection (splitAndCreateNodes q [w.port1, w.port2]
        (connectItems q [w.port1, w.port2] s)).connections w₂.port2 = true →
      ∃ t, wiringEventLeftMouseClick q pos s = some t ∧
        t.currentlyWiring = false ∧ t.currentWiringWire = none ∧ currentWire t = none ∧
        t.wires = (splitAndCreateNodes q [w.port1, w.port2]
          (connectItems q [w.port1, w.port2] s)).wires) ∧
    (hasAnyConnection (splitAndCreateNodes q [w.port1, w.port2]
        (connectItems q [w.port1, w.port2] s)).connections w₂.port2 = false →
      ∃ (t : GraphicsScene) (ptr : ItemPtr) (new : Wire),
        wiringEventLeftMouseClick q pos s = some t ∧
        t.currentlyWiring = true ∧ t.currentWiringWire = some ptr ∧
        currentWire t = some new ∧
        new.scenePos1 = w₂.scenePos2 ∧ new.scenePos2 = w₂.scenePos2 ∧ new.isNull = true ∧
        t.wires = (splitAndCreateNodes q [w.port1, w.port2]
          (connectItems q [w.port1, w.port2] s)).wires ++ [(ptr, new)]) := by
  have hk : Keeps s (splitAndCreateNodes q [w.port1, w.port2]
      (connectItems q [w.port1, w.port2] s)) :=
    keeps_trans (connectItems_keeps q _ s) (splitAndCreateNodes_keeps q _ _)
  have hunfold : wiringEventLeftMouseClick q pos s =
      (if hasAnyConnection (splitAndCreateNodes q [w.port1, w.port2]
          (connectItems q [w.port1, w.port2] s)).connections w₂.port2 then
        some { splitAndCreateNodes q [w.port1, w.port2]
          (connectItems q [w.port1, w.port2] s) with
          currentWiringWire := none, currentlyWiring := false }
      else
        some { (addNewWire w₂.scenePos2 w₂.scenePos2 (splitAndCreateNodes q [w.port1, w.port2]
          (connectItems q [w.port1, w.port2] s))).2.2 with
          currentWiringWire := some (addNewWire w₂.scenePos2 w₂.scenePos2
            (splitAndCreateNodes q [w.port1, w.port2]
              (connectItems q [w.port1, w.port2] s))).1 }) := by
    unfold wiringEventLeftMouseClick
    simp only [hwiring, hcur, hnull, hstill, if_false, Bool.not_true, Bool.false_eq_true]
  rw [hunfold]
  generalize splitAndCreateNodes q [w.port1, w.port2]
    (connectItems q [w.port1, w.port2] s) = s₂ at hk hstill ⊢
  have hw2 : s₂.currentlyWiring = true := by rw [hk.1, hwiring]
  have hf2 := hk.2.2.2 hfresh
  constructor
  · intro hany
    refine ⟨{ s₂ with currentWiringWire := none, currentlyWiring := false }, ?_, rfl, rfl, ?_,
      rfl⟩
    · simp only [hany, if_true]
    · simp [currentWire]
  · intro hany
    have hat := wireAt_addNewWire w₂.scenePos2 w₂.scenePos2 s₂ hf2
    refine ⟨{ (addNewWire w₂.scenePos2 w₂.scenePos2 s₂).2.2 with
        currentWiringWire := some (addNewWire w₂.scenePos2 w₂.scenePos2 s₂).1 },
      s₂.nextId, ⟨s₂.nextId, s₂.nextId + 1, w₂.scenePos2, w₂.scenePos2⟩,
      ?_, ?_, rfl, ?_, rfl, rfl, ?_, ?_⟩
    · simp only [hany, if_false, Bool.false_eq_true]
    · exact (addNewWire_keeps w₂.scenePos2 w₂.scenePos2 s₂).1.trans hw2
    · simp only [currentWire]
      exact hat
    · simp [Wire.isNull]
    · simp [addNewWire]

/-- Witness for C17: the pending wire from (0,0) to (100,0) in an otherwise
empty scene; port 2 gets no connection and the wiring continues at (100,0). -/
theorem C17_left_click_ends_or_continues_witness :
    pendingWireScene.currentlyWiring = true ∧
    currentWire pendingWireScene = some ⟨0, 1, (0, 0), (100, 0)⟩ ∧
    Wire.isNull ⟨0, 1, (0, 0), (100, 0)⟩ = false ∧
    FreshPointers pendingWireScene ∧
    currentWire (splitAndCreateNodes exampleQueries [0, 1]
      (connectItems exampleQueries [0, 1] pendingWireScene)) =
        some ⟨0, 1, (0, 0), (100, 0)⟩ ∧
    (hasAnyConnection (splitAndCreateNodes exampleQueries [0, 1]
        (connectItems exampleQueries [0, 1] pendingWireScene)).connections 1 = false →
      ∃ (t : GraphicsScene) (ptr : ItemPtr) (new : Wire),
        wiringEventLeftMouseClick exampleQueries (100, 0) pendingWireScene = some t ∧
        t.currentlyWiring = true ∧ t.currentWiringWire = some ptr ∧
        currentWire t = some new ∧
        new.scenePos1 = (100, 0) ∧ new.scenePos2 = (100, 0) ∧ new.isNull = true ∧
        t.wires = (splitAndCreateNodes exampleQueries [0, 1]
          (connectItems exampleQueries [0, 1] pendingWireScene)).wires ++ [(ptr, new)]) :=
  ⟨by decide, by decide, by decide, by intro x hx; revert x; decide, by decide,
    (C17_left_click_ends_or_continues exampleQueries (100, 0) pendingWireScene
      ⟨0, 1, (0, 0), (100, 0)⟩ ⟨0, 1, (0, 0), (100, 0)⟩ (by decide) (by decide) (by decide)
      (by intro x hx; revert x; decide) (by decide)).2⟩

theorem wiringEventLeftMouseClick_continues :
    wiresOf (wiringEventLeftMouseClick exampleQueries (100, 0) pendingWireScene) =
      [(0, ⟨0, 1, (0, 0), (100, 0)⟩), (2, ⟨2, 3, (100, 0), (100, 0)⟩)] := by decide

/-- C16, counterexample: after click (0,0), move and click (100,0), move and
click (100,50) and a right click the scene holds three wires, the third a null
wire at (100,50), and that wire is still pending; a right click on a pending
null wire leaves the wire pending. -/
theorem C16_counterexample :
    wiresOf wiringExample =
      [(0, ⟨0, 1, (0, 0), (100, 0)⟩), (2, ⟨2, 3, (100, 0), (100, 50)⟩),
        (4, ⟨4, 5, (100, 50), (100, 50)⟩)] ∧
    (wiringExample.map fun s => (s.currentlyWiring, s.currentWiringWire)) =
      some (true, some 4) ∧
    pendingNullWireScene.currentlyWiring = true ∧
    ((wiringEventRightMouseClick exampleQueries pendingNullWireScene).map fun s =>
      (s.currentlyWiring, s.currentWiringWire, s.wires)) =
      some (true, some 0, [(0, ⟨0, 1, (100, 50), (100, 50)⟩)]) := by
  refine ⟨by decide, by decide, by decide, by decide⟩

/-- C16, amended: in Wiring mode a right-button press ends the current chain
when the pending wire is not null: `connectItems` and `splitAndCreateNodes` run
on the wire and afterwards no wire is pending.  When the pending wire is null
the press changes nothing, and the null wire stays pending in the scene.  For
the sequence click (0,0), move and click (100,0), move and click (100,50),
right click, the scene holds the segments (0,0)-(100,0) and (100,0)-(100,50),
connected to each other at (100,0), and a third wire, null and still pending,
at (100,50). -/
theorem C16_right_click_ends_non_null_wire (q : SceneQueries) (s : GraphicsScene) (w : Wire)
    (hwiring : s.currentlyWiring = true) (hcur : currentWire s = some w) :
    (w.isNull = false →
      ∃ t, wiringEventRightMouseClick q s = some t ∧
        t.currentlyWiring = false ∧ t.currentWiringWire = none ∧
        t.wires = (splitAndCreateNodes q [w.port1, w.port2]
          (connectItems q [w.port1, w.port2] s)).wires ∧
        t.connections = (splitAndCreateNodes q [w.port1, w.port2]
          (connectItems q [w.port1, w.port2] s)).connections) ∧
    (w.isNull = true → wiringEventRightMouseClick q s = some s) ∧
    wiresOf wiringExample =
      [(0, ⟨0, 1, (0, 0), (100, 0)⟩), (2, ⟨2, 3, (100, 0), (100, 50)⟩),
        (4, ⟨4, 5, (100, 50), (100, 50)⟩)] ∧
    (wiringExample.map fun t =>
      (t.currentlyWiring, t.currentWiringWire, t.connections 1, t.connections 2)) =
      some (true, some 4, [2], [1]) := by
  refine ⟨?_, ?_, by decide, by decide⟩
  · intro hnull
    refine ⟨{ splitAndCreateNodes q [w.port1, w.port2]
        (connectItems q [w.port1, w.port2] s) with
        currentWiringWire := none, currentlyWiring := false }, ?_, rfl, rfl, rfl, rfl⟩
    unfold wiringEventRightMouseClick
    simp only [hwiring, hcur, hnull, if_true, if_false, Bool.false_eq_true]
  · intro hnull
    simp [wiringEventRightMouseClick, hwiring, hcur, hnull]

/-- Witness for C16 (amended): a right click on the pending wire from (0,0) to
(100,0) ends the wiring. -/
theorem C16_right_click_ends_non_null_wire_witness :
    pendingWireScene.currentlyWiring = true ∧
    currentWire pendingWireScene = some ⟨0, 1, (0, 0), (100, 0)⟩ ∧
    (Wire.isNull ⟨0, 1, (0, 0), (100, 0)⟩ = false →
      ∃ t, wiringEventRightMouseClick exampleQueries pendingWireScene = some t ∧
        t.currentlyWiring = false ∧ t.currentWiringWire = none ∧
        t.wires = (splitAndCreateNodes exampleQueries [0, 1]
          (connectItems exampleQueries [0, 1] pendingWireScene)).wires ∧
        t.connections = (splitAndCreateNodes exampleQueries [0, 1]
          (connectItems exampleQueries [0, 1] pendingWireScene)).connections) :=
  ⟨by decide, by decide,
    (C16_right_click_ends_non_null_wire exampleQueries pendingWireScene
      ⟨0, 1, (0, 0), (100, 0)⟩ (by decide) (by decide)).1⟩

/-! ### Splitting wires -/

theorem mem_connectPorts (q : SceneQueries) :
    ∀ (ports : List Port) (s : GraphicsScene) (x y : Port),
      y ∈ (connectPorts q ports s).connections x →
      y ∈ s.connections x ∨ y ∈ ports ∨ x ∈ ports := by
  intro ports
  induction ports with
  | nil => intro s x y h; exact Or.inl h
  | cons p ports ih =>
    intro s x y h
    unfold connectPorts at h
    cases hf : q.findCoincidingPort s p with
    | none =>
      rw [hf] at h
      rcases ih s x y h with h | h | h
      · exact Or.inl h
      · exact Or.inr (Or.inl (List.mem_cons_of_mem _ h))
      · exact Or.inr (Or.inr (List.mem_cons_of_mem _ h))
    | some other =>
      rw [hf] at h
      rcases ih _ x y h with h | h | h
      · simp only at h
        rcases (mem_connectTo p other s.connections x y).1 h with h | ⟨hx, _⟩ | ⟨_, hy⟩
        · exact Or.inl h
        · exact Or.inr (Or.inr (by rw [hx]; exact List.mem_cons_self _ _))
        · exact Or.inr (Or.inl (by rw [hy]; exact List.mem_cons_self _ _))
      · exact Or.inr (Or.inl (List.mem_cons_of_mem _ h))
      · exact Or.inr (Or.inr (List.mem_cons_of_mem _ h))

theorem connectPorts_mono (q : SceneQueries) :
    ∀ (ports : List Port) (s : GraphicsScene) (x y : Port),
      y ∈ s.connections x → y ∈ (connectPorts q ports s).connections x := by
  intro ports
  induction ports with
  | nil => intro s x y h; exact h
  | cons p ports ih =>
    intro s x y h
    unfold connectPorts
    cases hf : q.findCoincidingPort s p with
    | none => exact ih s x y h
    | some other =>
      apply ih
      exact (mem_connectTo p other s.connections x y).2 (Or.inl h)

/-- The first port of a wire gets at most one peer other than the second port
from `connectItems`: the port that `findCoincidingPort` returns for it. -/
theorem mem_connectPorts_first (q : SceneQueries) (a b : Port) (hab : a ≠ b)
    (s : GraphicsScene) (y : Port)
    (h : y ∈ (connectPorts q [a, b] s).connections a) :
    y ∈ s.connections a ∨ q.findCoincidingPort s a = some y ∨ y = b := by
  unfold connectPorts at h
  cases hf : q.findCoincidingPort s a with
  | none =>
    rw [hf] at h
    rcases mem_connectPorts q [b] s a y h with h | h | h
    · exact Or.inl h
    · exact Or.inr (Or.inr (by simpa using h))
    · exact absurd (by simpa using h) hab
  | some other =>
    rw [hf] at h
    rcases mem_connectPorts q [b] _ a y h with h | h | h
    · simp only at h
      rcases (mem_connectTo a other s.connections a y).1 h with h | ⟨_, hy⟩ | ⟨hx, hy⟩
      · exact Or.inl h
      · exact Or.inr (Or.inl (by rw [hy]))
      · exact Or.inr (Or.inl (by rw [hy, hx]))
    · exact Or.inr (Or.inr (by simpa using h))
    · exact absurd (by simpa using h) hab

theorem disconnect_subset (a : Port) (m : Connections) (x y : Port)
    (h : y ∈ disconnect a m x) : y ∈ m x := by
  unfold disconnect at h
  split_ifs at h
  · simp at h
  · exact (List.mem_filter.1 h).1
  · exact h

theorem disconnect_keeps (a : Port) (m : Connections) (x y : Port)
    (h : y ∈ m x) (hx : x ≠ a) (hy : y ≠ a) : y ∈ disconnect a m x := by
  unfold disconnect
  rw [if_neg hx]
  split_ifs
  · exact List.mem_filter.2 ⟨h, by simpa using hy⟩
  · exact h

theorem deleteWire_subset (ptr : ItemPtr) (s : GraphicsScene) (x y : Port)
    (h : y ∈ (deleteWire ptr s).connections x) : y ∈ s.connections x := by
  unfold deleteWire at h
  cases hw : wireAt s ptr with
  | none => rw [hw] at h; exact h
  | some w =>
    rw [hw] at h
    exact disconnect_subset _ _ _ _ (disconnect_subset _ _ _ _ h)

theorem splitCollidingWire_eq (q : SceneQueries) (itemPorts : List Port) (port : Port)
    (acc : GraphicsScene × List ItemPtr) (collidingWire : ItemPtr) (w : Wire)
    (hw : wireAt acc.1 collidingWire = some w)
    (hnc : alreadyConnected acc.1.connections itemPorts w = false) :
    splitCollidingWire q itemPorts port acc collidingWire =
      (connectItems q [acc.1.nextId + 2, acc.1.nextId + 3]
        (connectItems q [acc.1.nextId, acc.1.nextId + 1] (createNode port w acc.1)),
        acc.2 ++ [collidingWire]) := by
  unfold splitCollidingWire
  simp only [hw, hnc, if_false, Bool.false_eq_true]
  rfl

theorem createNode_fields (port : Port) (w : Wire) (s : GraphicsScene) :
    (createNode port w s).wires =
      s.wires ++ [(s.nextId, ⟨s.nextId, s.nextId + 1, w.scenePos1, scenePos s port⟩),
        (s.nextId + 2, ⟨s.nextId + 2, s.nextId + 3, scenePos s port, w.scenePos2⟩)] ∧
    (createNode port w s).nextId = s.nextId + 4 ∧
    (s.nextId + 1 ∈ (createNode port w s).connections port) ∧
    (s.nextId + 2 ∈ (createNode port w s).connections port) ∧
    (port < s.nextId → (createNode port w s).connections s.nextId = []) := by
  refine ⟨?_, ?_, ?_, ?_, ?_⟩
  · simp [createNode, addNewWire]
  · simp [createNode, addNewWire]
  · simp only [createNode, addNewWire]
    rw [mem_connectTo, mem_connectTo]
    exact Or.inl (Or.inr (Or.inl ⟨rfl, rfl⟩))
  · simp only [createNode, addNewWire]
    rw [mem_connectTo]
    exact Or.inr (Or.inl ⟨rfl, rfl⟩)
  · intro hport
    apply List.eq_nil_iff_forall_not_mem.2
    intro y hy
    simp only [createNode, addNewWire] at hy
    rw [mem_connectTo, mem_connectTo] at hy
    have hne : s.nextId ≠ port := Nat.ne_of_gt hport
    rcases hy with (hy | ⟨h, _⟩ | ⟨h, _⟩) | ⟨h, _⟩ | ⟨h, _⟩
    · simp at hy
    · exact hne h
    · exact absurd h (by simp)
    · exact hne h
    · exact absurd h (by simp)

/-- After a wire is split at a port, the free end of the first new wire (its
port 1, the new port `s.nextId`) has at most one peer besides the other new
ports: the port returned by the one call of `findCoincidingPort` for it. -/
theorem splitCollidingWire_connections (q : SceneQueries) (itemPorts : List Port)
    (port : Port) (s : GraphicsScene) (marked : List ItemPtr) (collidingWire : ItemPtr)
    (w : Wire) (hw : wireAt s collidingWire = some w)
    (hnc : alreadyConnected s.connections itemPorts w = false) (hport : port < s.nextId) :
    (s.nextId + 1 ∈
      (splitCollidingWire q itemPorts port (s, marked) collidingWire).1.connections port) ∧
    (s.nextId + 2 ∈
      (splitCollidingWire q itemPorts port (s, marked) collidingWire).1.connections port) ∧
    ∃ r : Option Port,
      ∀ y ∈ (splitCollidingWire q itemPorts port (s, marked) collidingWire).1.connections
          s.nextId,
        y = s.nextId + 1 ∨ y = s.nextId + 2 ∨ y = s.nextId + 3 ∨ r = some y := by
  rw [splitCollidingWire_eq q itemPorts port (s, marked) collidingWire w hw hnc]
  obtain ⟨_, _, h3, h4, h5⟩ := createNode_fields port w s
  simp only
  refine ⟨?_, ?_, ?_⟩
  · unfold connectItems
    apply connectPorts_mono
    simp only
    apply connectPorts_mono
    exact h3
  · unfold connectItems
    apply connectPorts_mono
    simp only
    apply connectPorts_mono
    exact h4
  · refine ⟨q.findCoincidingPort
      { createNode port w s with
        calls := (createNode port w s).calls ++ [.connectItems [s.nextId, s.nextId + 1]] }
      s.nextId, ?_⟩
    intro y hy
    unfold connectItems at hy
    rcases mem_connectPorts q _ _ _ _ hy with hy | hy | hy
    · simp only at hy
      rcases mem_connectPorts_first q s.nextId (s.nextId + 1)
          (Nat.ne_of_lt (Nat.lt_succ_self _)) _ y hy with hy | hy | hy
      · simp only at hy
        rw [h5 hport] at hy
        simp at hy
      · exact Or.inr (Or.inr (Or.inr hy))
      · exact Or.inl hy
    · simp only [List.mem_cons, List.mem_singleton, List.not_mem_nil, or_false] at hy
      rcases hy with hy | hy
      · exact Or.inr (Or.inl hy)
      · exact Or.inr (Or.inr (Or.inl hy))
    · simp at hy

theorem splitCollidingWire_wires (q : SceneQueries) (itemPorts : List Port)
    (port : Port) (acc : GraphicsScene × List ItemPtr) (collidingWire : ItemPtr)
    (w : Wire) (hw : wireAt acc.1 collidingWire = some w)
    (hnc : alreadyConnected acc.1.connections itemPorts w = false) :
    (splitCollidingWire q itemPorts port acc collidingWire).1.wires =
      acc.1.wires ++
        [(acc.1.nextId, ⟨acc.1.nextId, acc.1.nextId + 1, w.scenePos1, scenePos acc.1 port⟩),
          (acc.1.nextId + 2,
            ⟨acc.1.nextId + 2, acc.1.nextId + 3, scenePos acc.1 port, w.scenePos2⟩)] ∧
    (splitCollidingWire q itemPorts port acc collidingWire).2 = acc.2 ++ [collidingWire] := by
  rw [splitCollidingWire_eq q itemPorts port acc collidingWire w hw hnc]
  refine ⟨?_, rfl⟩
  simp only
  rw [(connectItems_fields q _ _).1, (connectItems_fields q _ _).1]
  exact (createNode_fields port w acc.1).1

theorem deleteWire_wires (ptr : ItemPtr) (s : GraphicsScene) :
    (deleteWire ptr s).wires = s.wires.filter fun x => x.1 ≠ ptr := by
  unfold deleteWire
  cases hw : wireAt s ptr with
  | some w => rfl
  | none =>
    simp only
    symm
    apply List.filter_eq_self.2
    intro x hx
    unfold wireAt at hw
    simp only [Option.map_eq_none', List.find?_eq_none] at hw
    have := hw x hx
    simpa using this

theorem deleteWire_keeps_connection (ptr : ItemPtr) (s : GraphicsScene) (w : Wire) (x y : Port)
    (hw : wireAt s ptr = some w) (h : y ∈ s.connections x)
    (hx : x ≠ w.port1 ∧ x ≠ w.port2) (hy : y ≠ w.port1 ∧ y ≠ w.port2) :
    y ∈ (deleteWire ptr s).connections x := by
  unfold deleteWire
  rw [hw]
  simp only
  exact disconnect_keeps _ _ _ _ (disconnect_keeps _ _ _ _ h hx.1 hy.1) hx.2 hy.2

/-- C13, counterexample: a port at the start point (0,0) of a wire to (100,0)
that is not connected to the wire splits it into the null wire (0,0)-(0,0) and
the wire (0,0)-(100,0); and a port on a null wire at (50,0) splits that null
wire into two null wires. -/
theorem C13_counterexample :
    (splitAndCreateNodes exampleQueries [10] portOnWireEndScene).wires =
      [(20, ⟨20, 21, (0, 0), (0, 0)⟩), (22, ⟨22, 23, (0, 0), (100, 0)⟩)] ∧
    Wire.isNull ⟨20, 21, (0, 0), (0, 0)⟩ = true ∧
    wireAt portOnNullWireScene 0 = some ⟨0, 1, (50, 0), (50, 0)⟩ ∧
    Wire.isNull ⟨0, 1, (50, 0), (50, 0)⟩ = true ∧
    (splitAndCreateNodes exampleQueries [10] portOnNullWireScene).wires =
      [(20, ⟨20, 21, (50, 0), (50, 0)⟩), (22, ⟨22, 23, (50, 0), (50, 0)⟩)] := by
  refine ⟨by decide, by decide, by decide, by decide, by decide⟩

/-- C13, amended: `splitAndCreateNodes` makes no test for null wires.  Every
colliding wire that is in the scene and not already connected to the item is
split, whether its endpoints coincide or not: it is marked for deletion and
the wires Wire(start, middle) and Wire(middle, end) are added to the scene.
The first has distinct endpoints exactly when the position of the port differs
from the start of the colliding wire, the second exactly when it differs from
its end. -/
theorem C13_sub_wires_null_iff_port_on_end (q : SceneQueries) (itemPorts : List Port)
    (port : Port) (acc : GraphicsScene × List ItemPtr) (collidingWire : ItemPtr) (w : Wire)
    (hw : wireAt acc.1 collidingWire = some w)
    (hnc : alreadyConnected acc.1.connections itemPorts w = false) :
    (splitCollidingWire q itemPorts port acc collidingWire).1.wires =
      acc.1.wires ++
        [(acc.1.nextId, ⟨acc.1.nextId, acc.1.nextId + 1, w.scenePos1, scenePos acc.1 port⟩),
          (acc.1.nextId + 2,
            ⟨acc.1.nextId + 2, acc.1.nextId + 3, scenePos acc.1 port, w.scenePos2⟩)] ∧
    (splitCollidingWire q itemPorts port acc collidingWire).2 = acc.2 ++ [collidingWire] ∧
    (Wire.isNull ⟨acc.1.nextId, acc.1.nextId + 1, w.scenePos1, scenePos acc.1 port⟩ = false ↔
      scenePos acc.1 port ≠ w.scenePos1) ∧
    (Wire.isNull ⟨acc.1.nextId + 2, acc.1.nextId + 3, scenePos acc.1 port, w.scenePos2⟩ =
        false ↔ scenePos acc.1 port ≠ w.scenePos2) := by
  obtain ⟨h1, h2⟩ := splitCollidingWire_wires q itemPorts port acc collidingWire w hw hnc
  refine ⟨h1, h2, ?_, ?_⟩
  · simp only [Wire.isNull, beq_eq_false_iff_ne, ne_eq]
    exact ⟨fun h h' => h h'.symm, fun h h' => h h'.symm⟩
  · simp only [Wire.isNull, beq_eq_false_iff_ne, ne_eq]

/-- Witness for C13 (amended): the port 10 at the start point of the wire. -/
theorem C13_sub_wires_null_iff_port_on_end_witness :
    wireAt portOnWireEndScene 0 = some ⟨0, 1, (0, 0), (100, 0)⟩ ∧
    alreadyConnected portOnWireEndScene.connections [10] ⟨0, 1, (0, 0), (100, 0)⟩ = false ∧
    (Wire.isNull ⟨20, 21, (0, 0), scenePos portOnWireEndScene 10⟩ = false ↔
      scenePos portOnWireEndScene 10 ≠ (0, 0)) :=
  ⟨by decide, by decide,
    (C13_sub_wires_null_iff_port_on_end exampleQueries [10] 10 (portOnWireEndScene, []) 0
      ⟨0, 1, (0, 0), (100, 0)⟩ (by decide) (by decide)).2.2.1⟩

theorem splitAndCreateNodes_junction (find : GraphicsScene → Port → Option Port) :
    splitAndCreateNodes ⟨find, wiresThrough⟩ [12] junctionScene =
      deleteWire 0
        (splitCollidingWire ⟨find, wiresThrough⟩ [12] 12
          ({ junctionScene with calls := [.splitAndCreateNodes [12]] }, []) 0).1 := by
  have hcol : wiresThrough { junctionScene with calls := [.splitAndCreateNodes [12]] } 12 =
      [0] := by decide
  have hw : wireAt { junctionScene with calls := [.splitAndCreateNodes [12]] } 0 =
      some ⟨0, 1, (0, 0), (100, 0)⟩ := by decide
  have hnc : alreadyConnected junctionScene.connections [12] ⟨0, 1, (0, 0), (100, 0)⟩ =
      false := by decide
  have hmark := (splitCollidingWire_wires ⟨find, wiresThrough⟩ [12] 12
    ({ junctionScene with calls := [.splitAndCreateNodes [12]] }, []) 0 _ hw hnc).2
  show splitAtPort ⟨find, wiresThrough⟩ [12]
    { junctionScene with calls := [.splitAndCreateNodes [12]] } 12 = _
  unfold splitAtPort
  simp only [hcol, List.foldl_cons, List.foldl_nil]
  rw [hmark]
  rfl

/-- C12: the connections of a split wire are not all restored.  In the scene
`junctionScene` port 1 of the wire W from (0,0) to (100,0) is connected to the
two ports 10 and 11 of other items, and the port 12 at (50,0) splits W.
Whatever port `findCoincidingPort` returns: the new wires are (0,0)-(50,0)
and (50,0)-(100,0) and the port 12 is connected to port 2 of the first (21)
and to port 1 of the second (22), but the free end 20 of the first wire is not
connected to both 10 and 11.  With the first coinciding port taken, 20 is
connected to 10 and port 11 is left without connection; with the last one
taken, 20, 10 and 11 are all left without connection. -/
theorem C12_split_loses_connections (find : GraphicsScene → Port → Option Port) :
    junctionScene.connections 0 = [10, 11] ∧
    (splitAndCreateNodes ⟨find, wiresThrough⟩ [12] junctionScene).wires =
      [(20, ⟨20, 21, (0, 0), (50, 0)⟩), (22, ⟨22, 23, (50, 0), (100, 0)⟩)] ∧
    21 ∈ (splitAndCreateNodes ⟨find, wiresThrough⟩ [12] junctionScene).connections 12 ∧
    22 ∈ (splitAndCreateNodes ⟨find, wiresThrough⟩ [12] junctionScene).connections 12 ∧
    ¬ (10 ∈ (splitAndCreateNodes ⟨find, wiresThrough⟩ [12] junctionScene).connections 20 ∧
      11 ∈ (splitAndCreateNodes ⟨find, wiresThrough⟩ [12] junctionScene).connections 20) ∧
    ((splitAndCreateNodes exampleQueries [12] junctionScene).connections 20 = [10] ∧
      (splitAndCreateNodes exampleQueries [12] junctionScene).connections 11 = []) ∧
    ((splitAndCreateNodes exampleQueriesLast [12] junctionScene).connections 20 = [] ∧
      (splitAndCreateNodes exampleQueriesLast [12] junctionScene).connections 10 = [] ∧
      (splitAndCreateNodes exampleQueriesLast [12] junctionScene).connections 11 = []) := by
  have hw : wireAt { junctionScene with calls := [.splitAndCreateNodes [12]] } 0 =
      some ⟨0, 1, (0, 0), (100, 0)⟩ := by decide
  have hnc : alreadyConnected
      ({ junctionScene with calls := [.splitAndCreateNodes [12]] } : GraphicsScene).connections
      [12] ⟨0, 1, (0, 0), (100, 0)⟩ = false := by decide
  have hwires := (splitCollidingWire_wires ⟨find, wiresThrough⟩ [12] 12
    ({ junctionScene with calls := [.splitAndCreateNodes [12]] }, []) 0 _ hw hnc).1
  obtain ⟨h21, h22, r, hr⟩ := splitCollidingWire_connections ⟨find, wiresThrough⟩ [12] 12
    { junctionScene with calls := [.splitAndCreateNodes [12]] } [] 0 _ hw hnc (by decide)
  have hw3 : wireAt (splitCollidingWire ⟨find, wiresThrough⟩ [12] 12
      ({ junctionScene with calls := [.splitAndCreateNodes [12]] }, []) 0).1 0 =
      some ⟨0, 1, (0, 0), (100, 0)⟩ := by
    unfold wireAt
    rw [hwires]
    decide
  refine ⟨by decide, ?_, ?_, ?_, ?_, by decide, by decide⟩
  · rw [splitAndCreateNodes_junction, deleteWire_wires, hwires]
    decide
  · rw [splitAndCreateNodes_junction]
    exact deleteWire_keeps_connection 0 _ _ 12 21 hw3 h21 (by decide) (by decide)
  · rw [splitAndCreateNodes_junction]
    exact deleteWire_keeps_connection 0 _ _ 12 22 hw3 h22 (by decide) (by decide)
  · rw [splitAndCreateNodes_junction]
    rintro ⟨h10, h11⟩
    have h10' := hr 10 (deleteWire_subset _ _ _ _ h10)
    have h11' := hr 11 (deleteWire_subset _ _ _ _ h11)
    have e10 : r = some 10 := by
      rcases h10' with h | h | h | h
      · exact absurd h (by decide)
      · exact absurd h (by decide)
      · exact absurd h (by decide)
      · exact h
    have e11 : r = some 11 := by
      rcases h11' with h | h | h | h
      · exact absurd h (by decide)
      · exact absurd h (by decide)
      · exact absurd h (by decide)
      · exact h
    rw [e10] at e11
    exact absurd e11 (by decide)

/-! ### Drawing an arc -/

theorem paintingDrawEvent_move_arc (snap : Point → Point) (event : DrawMouseEvent)
    (s : GraphicsScene) (item : Painting) (hmove : event.type = .move)
    (hitem : s.paintingDrawItem = some item) (harc : item.type = .EllipseArc) :
    (∃ item', (paintingDrawEvent snap event s).paintingDrawItem = some item' ∧
      item'.type = .EllipseArc) ∧
    (paintingDrawEvent snap event s).paintingDrawClicks = s.paintingDrawClicks ∧
    (paintingDrawEvent snap event s).placedItems = s.placedItems := by
  unfold paintingDrawEvent
  simp only [hitem, hmove]
  have hne : (MouseEventType.move = MouseEventType.press) = False := by decide
  simp only [hne, if_false, if_true]
  unfold paintingDrawMove
  split_ifs
  · exact ⟨⟨_, rfl, harc⟩, rfl, rfl⟩
  · exact ⟨⟨_, rfl, harc⟩, rfl, rfl⟩
  · exact ⟨⟨_, hitem, harc⟩, rfl, rfl⟩
  · exact ⟨⟨_, rfl, harc⟩, rfl, rfl⟩
  · exact ⟨⟨_, hitem, harc⟩, rfl, rfl⟩

theorem paintingDrawEvents_moves_arc (snap : Point → Point) :
    ∀ (moves : List DrawMouseEvent) (s : GraphicsScene) (item : Painting),
      (∀ e ∈ moves, e.type = .move) →
      s.paintingDrawItem = some item → item.type = .EllipseArc →
      (∃ item', (paintingDrawEvents snap moves s).paintingDrawItem = some item' ∧
        item'.type = .EllipseArc) ∧
      (paintingDrawEvents snap moves s).paintingDrawClicks = s.paintingDrawClicks ∧
      (paintingDrawEvents snap moves s).placedItems = s.placedItems := by
  intro moves
  induction moves with
  | nil => intro s item _ hitem harc; exact ⟨⟨item, hitem, harc⟩, rfl, rfl⟩
  | cons e moves ih =>
    intro s item hmoves hitem harc
    obtain ⟨⟨item', h1, h1'⟩, h2, h3⟩ := paintingDrawEvent_move_arc snap e s item
      (hmoves e (List.mem_cons_self _ _)) hitem harc
    obtain ⟨h4, h5, h6⟩ := ih (paintingDrawEvent snap e s) item'
      (fun x hx => hmoves x (List.mem_cons_of_mem _ hx)) h1 h1'
    exact ⟨h4, h5.trans h2, h6.trans h3⟩

theorem paintingDrawEvent_press_arc (snap : Point → Point) (event : DrawMouseEvent)
    (s : GraphicsScene) (item : Painting) (hpress : event.type = .press)
    (hitem : s.paintingDrawItem = some item) (harc : item.type = .EllipseArc) :
    (s.paintingDrawClicks + 1 < 4 →
      (∃ item', (paintingDrawEvent snap event s).paintingDrawItem = some item' ∧
        item'.type = .EllipseArc) ∧
      (paintingDrawEvent snap event s).paintingDrawClicks = s.paintingDrawClicks + 1 ∧
      (paintingDrawEvent snap event s).placedItems = s.placedItems) ∧
    (¬ s.paintingDrawClicks + 1 < 4 → s.paintingDrawClicks + 1 ≠ 1 →
      (paintingDrawEvent snap event s).paintingDrawItem = some (emptyCopy item) ∧
      (paintingDrawEvent snap event s).paintingDrawClicks = 0 ∧
      (paintingDrawEvent snap event s).placedItems = s.placedItems ++ [(item, item.pos)]) := by
  have hne : ¬ item.type = PaintingType.GraphicText := by rw [harc]; decide
  constructor
  · intro hlt
    unfold paintingDrawEvent
    simp only [hitem, hpress, if_true]
    unfold paintingDrawPress
    simp only
    rw [if_pos ⟨harc, hlt⟩]
    split_ifs
    · exact ⟨⟨_, rfl, harc⟩, rfl, rfl⟩
    · exact ⟨⟨_, rfl, harc⟩, rfl, rfl⟩
    · exact ⟨⟨_, hitem, harc⟩, rfl, rfl⟩
  · intro hge h1
    unfold paintingDrawEvent
    simp only [hitem, hpress, if_true]
    unfold paintingDrawPress
    simp only
    rw [if_neg (fun h => hge h.2), if_neg hne, if_neg h1]
    exact ⟨rfl, rfl, rfl⟩

theorem paintingDrawEvents_append (snap : Point → Point) :
    ∀ (l₁ l₂ : List DrawMouseEvent) (s : GraphicsScene),
      paintingDrawEvents snap (l₁ ++ l₂) s =
        paintingDrawEvents snap l₂ (paintingDrawEvents snap l₁ s) := by
  intro l₁
  induction l₁ with
  | nil => intro l₂ s; rfl
  | cons e l₁ ih => intro l₂ s; simp only [List.cons_append, paintingDrawEvents]; exact ih _ _

/-- In mode PaintingDraw with an arc as drawing item, moves followed by one
press take the click counter from `k` to `k + 1` without a call of `placeItem`
while `k + 1 < 4`. -/
theorem paintingDrawEvents_moves_press_arc (snap : Point → Point)
    (moves : List DrawMouseEvent) (press : DrawMouseEvent) (s : GraphicsScene)
    (item : Painting) (hmoves : ∀ e ∈ moves, e.type = .move) (hpress : press.type = .press)
    (hitem : s.paintingDrawItem = some item) (harc : item.type = .EllipseArc)
    (hlt : s.paintingDrawClicks + 1 < 4) :
    (∃ item', (paintingDrawEvents snap (moves ++ [press]) s).paintingDrawItem = some item' ∧
      item'.type = .EllipseArc) ∧
    (paintingDrawEvents snap (moves ++ [press]) s).paintingDrawClicks =
      s.paintingDrawClicks + 1 ∧
    (paintingDrawEvents snap (moves ++ [press]) s).placedItems = s.placedItems := by
  rw [paintingDrawEvents_append]
  obtain ⟨⟨item₁, h1, h1'⟩, h2, h3⟩ :=
    paintingDrawEvents_moves_arc snap moves s item hmoves hitem harc
  have hp := (paintingDrawEvent_press_arc snap press (paintingDrawEvents snap moves s) item₁
    hpress h1 h1').1 (by rw [h2]; exact hlt)
  simp only [paintingDrawEvents]
  obtain ⟨h4, h5, h6⟩ := hp
  exact ⟨h4, by rw [h5, h2], by rw [h6, h3]⟩

/-- C20, counterexample: after `beginPaintingDraw` with an arc and three
presses the click counter is 3 and `placeItem` has not been called; the fourth
press places the arc. -/
theorem C20_counterexample :
    (paintingDrawEvents (fun p => p) [pressAt (0, 0), pressAt (100, 50), pressAt (100, 0)]
      (beginPaintingDraw sampleArc newGraphicsScene)).paintingDrawClicks = 3 ∧
    (paintingDrawEvents (fun p => p) [pressAt (0, 0), pressAt (100, 50), pressAt (100, 0)]
      (beginPaintingDraw sampleArc newGraphicsScene)).placedItems = [] ∧
    (paintingDrawEvents (fun p => p)
      [pressAt (0, 0), pressAt (100, 50), pressAt (100, 0), pressAt (0, 100)]
      (beginPaintingDraw sampleArc newGraphicsScene)).paintingDrawClicks = 0 ∧
    (paintingDrawEvents (fun p => p)
      [pressAt (0, 0), pressAt (100, 50), pressAt (100, 0), pressAt (0, 100)]
      (beginPaintingDraw sampleArc newGraphicsScene)).placedItems =
      [(⟨.EllipseArc, (0, 0), ((0, 0), (0, 0)), 0, 180, [], true⟩, (0, 0))] := by
  refine ⟨by decide, by decide, by decide, by decide⟩

/-- C20, amended: in PaintingDraw mode with an elliptical-arc drawing item the
arc is committed at the fourth mouse press.  Counting presses since
`beginPaintingDraw`, with any mouse moves before each press: after the presses
1, 2 and 3 the click counter is 1, 2 and 3 and `placeItem` has not been called;
at press 4 `placeItem` is called for the arc at its position, the click counter
returns to 0 and a fresh empty copy becomes the drawing item. -/
theorem C20_arc_committed_at_fourth_press (snap : Point → Point) (item : Painting)
    (s : GraphicsScene) (m₁ m₂ m₃ m₄ : List DrawMouseEvent) (p₁ p₂ p₃ p₄ : DrawMouseEvent)
    (harc : item.type = .EllipseArc)
    (hmoves : ∀ e ∈ m₁ ++ m₂ ++ m₃ ++ m₄, e.type = .move)
    (hpress : p₁.type = .press ∧ p₂.type = .press ∧ p₃.type = .press ∧ p₄.type = .press) :
    ((paintingDrawEvents snap (m₁ ++ [p₁]) (beginPaintingDraw item s)).paintingDrawClicks = 1 ∧
      (paintingDrawEvents snap (m₁ ++ [p₁]) (beginPaintingDraw item s)).placedItems =
        s.placedItems) ∧
    ((paintingDrawEvents snap ((m₁ ++ [p₁]) ++ (m₂ ++ [p₂]))
        (beginPaintingDraw item s)).paintingDrawClicks = 2 ∧
      (paintingDrawEvents snap ((m₁ ++ [p₁]) ++ (m₂ ++ [p₂]))
        (beginPaintingDraw item s)).placedItems = s.placedItems) ∧
    ((paintingDrawEvents snap ((m₁ ++ [p₁]) ++ (m₂ ++ [p₂]) ++ (m₃ ++ [p₃]))
        (beginPaintingDraw item s)).paintingDrawClicks = 3 ∧
      (paintingDrawEvents snap ((m₁ ++ [p₁]) ++ (m₂ ++ [p₂]) ++ (m₃ ++ [p₃]))
        (beginPaintingDraw item s)).placedItems = s.placedItems) ∧
    ∃ arc : Painting, arc.type = .EllipseArc ∧
      (paintingDrawEvents snap ((m₁ ++ [p₁]) ++ (m₂ ++ [p₂]) ++ (m₃ ++ [p₃]) ++ m₄)
        (beginPaintingDraw item s)).paintingDrawItem = some arc ∧
      (paintingDrawEvents snap ((m₁ ++ [p₁]) ++ (m₂ ++ [p₂]) ++ (m₃ ++ [p₃]) ++ (m₄ ++ [p₄]))
        (beginPaintingDraw item s)).placedItems = s.placedItems ++ [(arc, arc.pos)] ∧
      (paintingDrawEvents snap ((m₁ ++ [p₁]) ++ (m₂ ++ [p₂]) ++ (m₃ ++ [p₃]) ++ (m₄ ++ [p₄]))
        (beginPaintingDraw item s)).paintingDrawClicks = 0 ∧
      (paintingDrawEvents snap ((m₁ ++ [p₁]) ++ (m₂ ++ [p₂]) ++ (m₃ ++ [p₃]) ++ (m₄ ++ [p₄]))
        (beginPaintingDraw item s)).paintingDrawItem = some (emptyCopy arc) := by
  have hm₁ : ∀ e ∈ m₁, e.type = .move := fun e he => hmoves e (by simp [he])
  have hm₂ : ∀ e ∈ m₂, e.type = .move := fun e he => hmoves e (by simp [he])
  have hm₃ : ∀ e ∈ m₃, e.type = .move := fun e he => hmoves e (by simp [he])
  have hm₄ : ∀ e ∈ m₄, e.type = .move := fun e he => hmoves e (by simp [he])
  obtain ⟨hp₁, hp₂, hp₃, hp₄⟩ := hpress
  have h0 : (beginPaintingDraw item s).paintingDrawItem = some { item with inScene := false } :=
    rfl
  obtain ⟨⟨i₁, a1, a1'⟩, a2, a3⟩ := paintingDrawEvents_moves_press_arc snap m₁ p₁
    (beginPaintingDraw item s) _ hm₁ hp₁ h0 harc (by simp [beginPaintingDraw])
  have c1 : (paintingDrawEvents snap (m₁ ++ [p₁]) (beginPaintingDraw item s)).paintingDrawClicks
      = 1 := by rw [a2]; rfl
  obtain ⟨⟨i₂, b1, b1'⟩, b2, b3⟩ := paintingDrawEvents_moves_press_arc snap m₂ p₂
    (paintingDrawEvents snap (m₁ ++ [p₁]) (beginPaintingDraw item s)) i₁ hm₂ hp₂ a1 a1'
    (by rw [c1]; decide)
  rw [← paintingDrawEvents_append] at b1 b2 b3
  have c2 : (paintingDrawEvents snap ((m₁ ++ [p₁]) ++ (m₂ ++ [p₂]))
      (beginPaintingDraw item s)).paintingDrawClicks = 2 := by rw [b2, c1]; rfl
  obtain ⟨⟨i₃, d1, d1'⟩, d2, d3⟩ := paintingDrawEvents_moves_press_arc snap m₃ p₃
    (paintingDrawEvents snap ((m₁ ++ [p₁]) ++ (m₂ ++ [p₂])) (beginPaintingDraw item s)) i₂
    hm₃ hp₃ b1 b1' (by rw [c2]; decide)
  rw [← paintingDrawEvents_append] at d1 d2 d3
  have c3 : (paintingDrawEvents snap ((m₁ ++ [p₁]) ++ (m₂ ++ [p₂]) ++ (m₃ ++ [p₃]))
      (beginPaintingDraw item s)).paintingDrawClicks = 3 := by rw [d2, c2]; rfl
  obtain ⟨⟨arc, e1, e1'⟩, e2, e3⟩ := paintingDrawEvents_moves_arc snap m₄
    (paintingDrawEvents snap ((m₁ ++ [p₁]) ++ (m₂ ++ [p₂]) ++ (m₃ ++ [p₃]))
      (beginPaintingDraw item s)) i₃ hm₄ d1 d1'
  rw [← paintingDrawEvents_append] at e1 e2 e3
  obtain ⟨f1, f2, f3⟩ := (paintingDrawEvent_press_arc snap p₄ _ arc hp₄ e1 e1').2
    (by rw [e2, c3]; decide) (by rw [e2, c3]; decide)
  have hlast : paintingDrawEvents snap
      ((m₁ ++ [p₁]) ++ (m₂ ++ [p₂]) ++ (m₃ ++ [p₃]) ++ (m₄ ++ [p₄])) (beginPaintingDraw item s) =
      paintingDrawEvent snap p₄ (paintingDrawEvents snap
        ((m₁ ++ [p₁]) ++ (m₂ ++ [p₂]) ++ (m₃ ++ [p₃]) ++ m₄) (beginPaintingDraw item s)) := by
    rw [← List.append_assoc, paintingDrawEvents_append]
    rfl
  refine ⟨⟨c1, by rw [a3]; rfl⟩, ⟨c2, by rw [b3, a3]; rfl⟩, ⟨c3, by rw [d3, b3, a3]; rfl⟩,
    arc, e1', e1, ?_, ?_, ?_⟩
  · rw [hlast, f3, e3, d3, b3, a3]; rfl
  · rw [hlast, f2]
  · rw [hlast, f1]

/-- Witness for C20 (amended): four presses without moves on the sample arc. -/
theorem C20_arc_committed_at_fourth_press_witness :
    sampleArc.type = .EllipseArc ∧
    (∀ e ∈ ([] : List DrawMouseEvent) ++ [] ++ [] ++ [], e.type = .move) ∧
    ((pressAt (0, 0)).type = .press ∧ (pressAt (100, 50)).type = .press ∧
      (pressAt (100, 0)).type = .press ∧ (pressAt (0, 100)).type = .press) ∧
    (paintingDrawEvents (fun p => p) (([] ++ [pressAt (0, 0)]) ++ ([] ++ [pressAt (100, 50)]) ++
      ([] ++ [pressAt (100, 0)])) (beginPaintingDraw sampleArc newGraphicsScene)).paintingDrawClicks
      = 3 :=
  ⟨rfl, by simp, ⟨rfl, rfl, rfl, rfl⟩,
    (C20_arc_committed_at_fourth_press (fun p => p) sampleArc newGraphicsScene [] [] [] []
      (pressAt (0, 0)) (pressAt (100, 50)) (pressAt (100, 0)) (pressAt (0, 100)) rfl (by simp)
      ⟨rfl, rfl, rfl, rfl⟩).2.2.1.1⟩

/-! ### Angles of an arc -/

theorem addFullTurns_of_nonneg (x : Int) (h : 0 ≤ x) : addFullTurns x = x := by
  rw [addFullTurns, if_neg (by omega)]

/-- The loop adds full turns until the angle is not negative: on a negative
angle it returns the angle modulo 360. -/
theorem addFullTurns_eq_emod (x : Int) (hlo : -720 ≤ x) (hhi : x < 360) :
    addFullTurns x = x % 360 := by
  by_cases h0 : 0 ≤ x
  · rw [addFullTurns_of_nonneg x h0]; omega
  · rw [addFullTurns, if_pos (by omega)]
    by_cases h1 : 0 ≤ x + 360
    · rw [addFullTurns_of_nonneg _ h1]; omega
    · rw [addFullTurns, if_pos (by omega), addFullTurns_of_nonneg _ (by omega)]; omega

/-- C21: while an arc is drawn the angles set on a mouse move are normalised
to [0, 360).  For every integer angle a in [-180, 180]: a move after two
presses sets the start angle to a mod 360, and a move after three presses sets
the span angle to (a - startAngle) mod 360 when startAngle is in [0, 360);
both results lie in [0, 360).  The normalising loop `addFullTurns` is a total
function, so it terminates on every angle. -/
theorem C21_arc_angles_normalised (snap : Point → Point) (event : DrawMouseEvent)
    (item : Painting) (s : GraphicsScene) (hmove : event.type = .move)
    (hitem : s.paintingDrawItem = some item) (harc : item.type = .EllipseArc)
    (hlo : -180 ≤ event.angle) (hhi : event.angle ≤ 180) :
    (s.paintingDrawClicks = 2 →
      paintingDrawEvent snap event s =
        { s with paintingDrawItem := some { item with startAngle := event.angle % 360 } } ∧
      0 ≤ event.angle % 360 ∧ event.angle % 360 < 360) ∧
    (s.paintingDrawClicks = 3 → 0 ≤ item.startAngle → item.startAngle < 360 →
      paintingDrawEvent snap event s =
        { s with
          paintingDrawItem :=
            some { item with spanAngle := (event.angle - item.startAngle) % 360 } } ∧
      0 ≤ (event.angle - item.startAngle) % 360 ∧
      (event.angle - item.startAngle) % 360 < 360) := by
  have hnp : ¬ event.type = MouseEventType.press := by rw [hmove]; decide
  constructor
  · intro h2
    refine ⟨?_, by omega, by omega⟩
    unfold paintingDrawEvent
    simp only [hitem]
    rw [if_neg hnp, if_pos hmove]
    unfold paintingDrawMove
    rw [if_pos ⟨harc, by rw [h2]; decide⟩, if_pos h2,
      addFullTurns_eq_emod _ (by omega) (by omega)]
  · intro h3 hs0 hs1
    refine ⟨?_, by omega, by omega⟩
    unfold paintingDrawEvent
    simp only [hitem]
    rw [if_neg hnp, if_pos hmove]
    unfold paintingDrawMove
    rw [if_pos ⟨harc, by rw [h3]; decide⟩, if_neg (by rw [h3]; decide), if_pos h3,
      addFullTurns_eq_emod _ (by omega) (by omega)]


/-- Witness for C21: a move with the angle -90 after two presses sets the
start angle 270. -/
theorem C21_arc_angles_normalised_witness :
    (DrawMouseEvent.mk .move (0, 100) (-90) false).type = .move ∧
    arcAfterTwoPresses.paintingDrawItem =
      some ⟨.EllipseArc, (0, 0), ((0, 0), (0, 0)), 0, 180, [], true⟩ ∧
    arcAfterTwoPresses.paintingDrawClicks = 2 ∧
    (paintingDrawEvent (fun p => p) ⟨.move, (0, 100), -90, false⟩
      arcAfterTwoPresses).paintingDrawItem =
      some ⟨.EllipseArc, (0, 0), ((0, 0), (0, 0)), 270, 180, [], true⟩ :=
  ⟨rfl, by decide, by decide,
    by
      rw [((C21_arc_angles_normalised (fun p => p) ⟨.move, (0, 100), -90, false⟩
        ⟨.EllipseArc, (0, 0), ((0, 0), (0, 0)), 0, 180, [], true⟩ arcAfterTwoPresses rfl
        (by decide) rfl (by decide) (by decide)).1 (by decide)).1]
      rfl⟩

/-! ### Disconnecting at the start of a move -/

theorem looseEnds_disconnectPair_le (s : MoveScene) (a b : Port) (m : Connections) (x : Port) :
    looseEnds s (disconnectPair a b m) x ≤ looseEnds s m x := by
  unfold looseEnds disconnectPair
  split_ifs
  · rw [List.filter_comm]; exact List.length_filter_le _ _
  · rw [List.filter_comm]; exact List.length_filter_le _ _
  · exact le_refl _

theorem looseEnds_disconnectPair_lt (s : MoveScene) (a b : Port) (m : Connections)
    (hb : b ∈ m a) (hP : s.ofUnselectedComponent b = true) :
    looseEnds s (disconnectPair a b m) a < looseEnds s m a := by
  unfold looseEnds disconnectPair
  rw [if_pos rfl, List.filter_comm]
  apply List.length_filter_lt_length_iff_exists.2
  exact ⟨b, List.mem_filter.2 ⟨hb, hP⟩, by simp⟩

theorem disconnectPort_le (s : MoveScene) (item : ItemPtr)
    (acc : Connections × List (Port × Port) × Nat) (port x : Port) :
    looseEnds s (disconnectPort s item acc port).1 x ≤ looseEnds s acc.1 x := by
  unfold disconnectPort
  cases (acc.1 port).find? (s.disconnectible item) with
  | none => exact le_refl _
  | some other => exact looseEnds_disconnectPair_le s port other acc.1 x

theorem disconnectible_of_selected (s : MoveScene) (item : ItemPtr) (other : Port)
    (hitem : item ∈ s.selectedItems) :
    s.disconnectible item other = s.ofUnselectedComponent other := by
  unfold MoveScene.disconnectible MoveScene.ofUnselectedComponent MoveScene.isSelected
  by_cases hsel : s.parentItem other ∈ s.selectedItems
  · simp [hsel]
  · have hne : s.parentItem other ≠ item := fun h => hsel (h ▸ hitem)
    simp [hsel, hne]

theorem disconnectPort_pred (s : MoveScene) (item : ItemPtr)
    (acc : Connections × List (Port × Port) × Nat) (port : Port)
    (hitem : item ∈ s.selectedItems) :
    looseEnds s (disconnectPort s item acc port).1 port ≤ looseEnds s acc.1 port - 1 := by
  unfold disconnectPort
  cases hfind : (acc.1 port).find? (s.disconnectible item) with
  | none =>
    have hnone := List.find?_eq_none.1 hfind
    have h0 : looseEnds s acc.1 port = 0 := by
      unfold looseEnds
      rw [List.length_eq_zero, List.filter_eq_nil_iff]
      intro o ho
      have := hnone o ho
      rwa [disconnectible_of_selected s item o hitem] at this
    simp only [h0]
    exact le_refl _
  | some other =>
    have hmem := List.mem_of_find?_eq_some hfind
    have hP := List.find?_some hfind
    rw [disconnectible_of_selected s item other hitem] at hP
    have := looseEnds_disconnectPair_lt s port other acc.1 hmem hP
    simp only
    omega

theorem foldl_disconnectPort_le (s : MoveScene) (item : ItemPtr) (x : Port) :
    ∀ (l : List Port) (acc : Connections × List (Port × Port) × Nat),
      looseEnds s (l.foldl (disconnectPort s item) acc).1 x ≤ looseEnds s acc.1 x := by
  intro l
  induction l with
  | nil => intro acc; exact le_refl _
  | cons q l ih =>
    intro acc
    exact le_trans (ih _) (disconnectPort_le s item acc q x)

theorem foldl_disconnectPort_pred (s : MoveScene) (item : ItemPtr) (port : Port)
    (hitem : item ∈ s.selectedItems) :
    ∀ (l : List Port) (acc : Connections × List (Port × Port) × Nat), port ∈ l →
      looseEnds s (l.foldl (disconnectPort s item) acc).1 port ≤
        looseEnds s acc.1 port - 1 := by
  intro l
  induction l with
  | nil => intro acc h; simp at h
  | cons q l ih =>
    intro acc h
    simp only [List.foldl_cons]
    rcases List.mem_cons.1 h with h | h
    · subst h
      exact le_trans (foldl_disconnectPort_le s item port l _)
        (disconnectPort_pred s item acc port hitem)
    · have h₁ := ih (disconnectPort s item acc q) h
      have h₂ := disconnectPort_le s item acc q port
      omega

theorem disconnectItem_le (s : MoveScene)
    (acc : Connections × List (Port × Port) × List ItemPtr) (item : ItemPtr) (x : Port) :
    looseEnds s (disconnectItem s acc item).1 x ≤ looseEnds s acc.1 x :=
  foldl_disconnectPort_le s item x (s.ports item) (acc.1, acc.2.1, 0)

theorem disconnectItem_pred (s : MoveScene)
    (acc : Connections × List (Port × Port) × List ItemPtr) (item : ItemPtr) (port : Port)
    (hitem : item ∈ s.selectedItems) (hport : port ∈ s.ports item) :
    looseEnds s (disconnectItem s acc item).1 port ≤ looseEnds s acc.1 port - 1 :=
  foldl_disconnectPort_pred s item port hitem (s.ports item) (acc.1, acc.2.1, 0) hport

theorem foldl_disconnectItem_count (s : MoveScene) (item : ItemPtr) (port : Port)
    (hport : port ∈ s.ports item) :
    ∀ (l : List ItemPtr) (acc : Connections × List (Port × Port) × List ItemPtr),
      (∀ x ∈ l, x ∈ s.selectedItems) →
      looseEnds s (l.foldl (disconnectItem s) acc).1 port ≤
        looseEnds s acc.1 port - l.count item := by
  intro l
  induction l with
  | nil => intro acc _; simp
  | cons q l ih =>
    intro acc hsel
    simp only [List.foldl_cons]
    have h₁ := ih (disconnectItem s acc q) fun x hx => hsel x (List.mem_cons_of_mem _ hx)
    by_cases hq : q = item
    · subst hq
      have h₂ := disconnectItem_pred s acc q port (hsel q (List.mem_cons_self _ _)) hport
      rw [List.count_cons_self]
      omega
    · have h₂ := disconnectItem_le s acc q port
      rw [List.count_cons_of_ne (fun h => hq h.symm)]
      omega

theorem count_le_count_flatMap {α β : Type} [DecidableEq β] (f : α → List β) (x : β) (a : α) :
    ∀ l : List α, a ∈ l → (f a).count x ≤ (l.flatMap f).count x := by
  intro l
  induction l with
  | nil => intro h; simp at h
  | cons b l ih =>
    intro h
    rw [List.flatMap_cons, List.count_append]
    rcases List.mem_cons.1 h with h | h
    · subst h; omega
    · have := ih h; omega

theorem count_flatMap_if (P : Port → Bool) (x : ItemPtr) :
    ∀ l : List Port,
      (l.flatMap fun o => if P o then [x] else []).count x = (l.filter P).length := by
  intro l
  induction l with
  | nil => rfl
  | cons o l ih =>
    rw [List.flatMap_cons, List.count_append, ih]
    by_cases h : P o = true
    · simp [h]; omega
    · simp [h]

theorem looseEnds_le_count_disconnectibles (s : MoveScene) (item : ItemPtr) (port : Port)
    (hitem : item ∈ s.selectedItems) (hport : port ∈ s.ports item) :
    looseEnds s s.connections port ≤ (processForSpecialMove s).disconnectibles.count item := by
  unfold processForSpecialMove looseEnds
  simp only
  rw [← count_flatMap_if s.ofUnselectedComponent item (s.connections port)]
  refine le_trans ?_ (count_le_count_flatMap _ item item s.selectedItems hitem)
  exact count_le_count_flatMap
    (fun port => (s.connections port).flatMap fun other =>
      if s.ofUnselectedComponent other then [item] else []) item port (s.ports item) hport

theorem mem_disconnectibles (s : MoveScene) (x : ItemPtr)
    (h : x ∈ (processForSpecialMove s).disconnectibles) : x ∈ s.selectedItems := by
  unfold processForSpecialMove at h
  simp only [List.mem_flatMap] at h
  obtain ⟨item, hitem, port, _, other, _, hx⟩ := h
  split_ifs at hx
  · simp at hx; rw [hx]; exact hitem
  · simp at hx

/-- C22: when a move starts in Normal mode, all connections from selected
items to unselected components are removed.  After `processForSpecialMove`
followed by `disconnectDisconnectibles`, each pushed `DisconnectCmd` removing
the pair it names, no port of a selected item is still connected to a port
whose parent is an unselected component, however many such connections the
port had. -/
theorem C22_selected_items_disconnected (s : MoveScene) (item : ItemPtr) (port : Port)
    (hitem : item ∈ s.selectedItems) (hport : port ∈ s.ports item) :
    ¬ ∃ other, other ∈ (disconnectDisconnectibles (processForSpecialMove s)).connections port ∧
      s.type (s.parentItem other) = .ComponentType ∧ s.parentItem other ∉ s.selectedItems := by
  have hcount := looseEnds_le_count_disconnectibles s item port hitem hport
  have hfold := foldl_disconnectItem_count (processForSpecialMove s) item port hport
    (processForSpecialMove s).disconnectibles
    ((processForSpecialMove s).connections, (processForSpecialMove s).undoStack, [])
    (fun x hx => mem_disconnectibles s x hx)
  have hsame : looseEnds (processForSpecialMove s) (processForSpecialMove s).connections port =
      looseEnds s s.connections port := rfl
  have hzero : looseEnds (processForSpecialMove s)
      (disconnectDisconnectibles (processForSpecialMove s)).connections port = 0 := by
    have : (disconnectDisconnectibles (processForSpecialMove s)).connections =
        ((processForSpecialMove s).disconnectibles.foldl (disconnectItem (processForSpecialMove s))
          ((processForSpecialMove s).connections, (processForSpecialMove s).undoStack, [])).1 :=
      rfl
    rw [this]
    simp only at hfold
    omega
  rintro ⟨other, hother, htype, hsel⟩
  unfold looseEnds at hzero
  rw [List.length_eq_zero, List.filter_eq_nil_iff] at hzero
  apply hzero other hother
  show (processForSpecialMove s).ofUnselectedComponent other = true
  unfold MoveScene.ofUnselectedComponent MoveScene.isSelected
  have hsel2 : s.parentItem other ∉ (processForSpecialMove s).selectedItems := hsel
  have htype2 : (processForSpecialMove s).type ((processForSpecialMove s).parentItem other) =
      .ComponentType := htype
  simp only [htype2, decide_True, Bool.true_and, Bool.not_eq_true', decide_eq_false_iff_not]
  exact hsel2

/-- Witness for C22: the port 10 of the selected wire has two connections to
unselected components; both are removed, and so is the one of port 11. -/
theorem C22_selected_items_disconnected_witness :
    (1 : ItemPtr) ∈ wireOnComponents.selectedItems ∧
    (10 : Port) ∈ wireOnComponents.ports 1 ∧
    wireOnComponents.connections 10 = [20, 30] ∧
    (processForSpecialMove wireOnComponents).disconnectibles = [1, 1, 1] ∧
    (disconnectDisconnectibles (processForSpecialMove wireOnComponents)).undoStack =
      [(10, 20), (11, 40), (10, 30)] ∧
    (disconnectDisconnectibles (processForSpecialMove wireOnComponents)).connections 10 = [] ∧
    ¬ ∃ other,
      other ∈ (disconnectDisconnectibles (processForSpecialMove wireOnComponents)).connections 10 ∧
      wireOnComponents.type (wireOnComponents.parentItem other) = .ComponentType ∧
      wireOnComponents.parentItem other ∉ wireOnComponents.selectedItems :=
  ⟨by decide, by decide, by decide, by decide, by decide, by decide,
    C22_selected_items_disconnected wireOnComponents 1 10 (by decide) (by decide)⟩

/-! ### The macro of a move -/

theorem setMouseAction_openMacros (a : MouseAction) (s : GraphicsScene) :
    (setMouseAction a s).openMacros = s.openMacros := by
  by_cases h : s.mouseAction = a
  · simp [setMouseAction, h]
  · rw [setMouseAction_of_ne a s h, (resetState_fields _).2.2.2.2.1]
    simp only [updateShortcutBlocking, blockShortcuts]
    split_ifs <;> rfl

/-- One mouse event of mode Normal keeps `m_areItemsMoving` and the macros, or
begins a macro while no item is moving, or ends one while items are moving. -/
theorem normalEvent_step (base : MouseEvent → GraphicsScene → List ItemPtr) (e : MouseEvent)
    (s : GraphicsScene) (P : Bool → Nat → Prop) (hkeep : P s.areItemsMoving s.openMacros)
    (hbegin : s.areItemsMoving = false → P true (s.openMacros + 1))
    (hend : s.areItemsMoving = true → P false (s.openMacros - 1)) :
    P (normalEvent base e s).areItemsMoving (normalEvent base e s).openMacros := by
  unfold normalEvent
  cases e.type
  · exact hkeep
  · dsimp only
    cases hm : s.areItemsMoving
    · by_cases hb : e.buttons.left = true ∧ s.selectedItems ≠ []
      · simp only [Bool.not_false, if_true, if_pos hb]
        exact hbegin hm
      · simp only [Bool.not_false, if_true, if_neg hb]
        rw [← hm]; exact hkeep
    · simp only [Bool.not_true, Bool.false_eq_true, if_false]
      rw [← hm]; exact hkeep
  · dsimp only
    cases hm : s.areItemsMoving
    · simp only [Bool.false_eq_true, if_false]
      rw [← hm]; exact hkeep
    · simp only [if_true]
      exact hend hm
  · exact hkeep

/-- Along the mouse events of mode Normal, without a change of the mouse
action, `m_areItemsMoving` is true exactly while the macro of the move is
open. -/
theorem normalEvents_macro_open (base : MouseEvent → GraphicsScene → List ItemPtr) :
    ∀ (events : List MouseEvent) (s : GraphicsScene),
      s.openMacros = (if s.areItemsMoving then 1 else 0) →
      (normalEvents base events s).openMacros =
        (if (normalEvents base events s).areItemsMoving then 1 else 0) := by
  intro events
  induction events with
  | nil => intro s h; exact h
  | cons e events ih =>
    intro s h
    apply ih
    apply normalEvent_step base e s (fun b n => n = if b then 1 else 0) h
    · intro hm; simp [hm] at h; simp [h]
    · intro hm; simp [hm] at h; simp [h]

/-- Once a macro is left open with `m_areItemsMoving` false, no later mouse
event of mode Normal ends it. -/
theorem normalEvents_macro_stays_open (base : MouseEvent → GraphicsScene → List ItemPtr) :
    ∀ (events : List MouseEvent) (s : GraphicsScene),
      (if s.areItemsMoving then 2 else 1) ≤ s.openMacros →
      (if (normalEvents base events s).areItemsMoving then 2 else 1) ≤
        (normalEvents base events s).openMacros := by
  intro events
  induction events with
  | nil => intro s h; exact h
  | cons e events ih =>
    intro s h
    apply ih
    apply normalEvent_step base e s (fun b n => (if b then 2 else 1) ≤ n) h
    · intro hm; simp [hm] at h; simp; omega
    · intro hm; simp [hm] at h; simp; omega

/-- C23: the macro of a move can be left open.  A press on an item and a move
with the left button begin the macro "Move items" (`m_areItemsMoving` true,
one macro open).  `setMouseAction(Wiring)` then sets `m_areItemsMoving` to
false without a call of `endMacro`; back in mode Normal the release finds
`m_areItemsMoving` false and does not end the macro either, so that the macro
is open while `m_areItemsMoving` is false, and no later sequence of mouse
events of mode Normal closes it. -/
theorem C23_move_macro_left_open (base : MouseEvent → GraphicsScene → List ItemPtr)
    (events : List MouseEvent) :
    (dragStarted.mouseAction = .Normal ∧ dragStarted.areItemsMoving = true ∧
      dragStarted.openMacros = 1) ∧
    ((setMouseAction .Wiring dragStarted).areItemsMoving = false ∧
      (setMouseAction .Wiring dragStarted).openMacros = 1) ∧
    (dragInterrupted.mouseAction = .Normal ∧ dragInterrupted.areItemsMoving = false ∧
      dragInterrupted.openMacros = 1) ∧
    1 ≤ (normalEvents base events dragInterrupted).openMacros := by
  refine ⟨by decide, by decide, by decide, ?_⟩
  have h := normalEvents_macro_stays_open base events dragInterrupted (by decide)
  split_ifs at h <;> omega

/-! ### Ports of a component -/

theorem map_portData (l : List PortData) :
    (l.map fun data => (⟨data.name, data.pos⟩ : PortData)) = l := by
  induction l with
  | nil => rfl
  | cons a l ih => rw [List.map_cons, ih]

/-- C25, counterexample: a second call of `setComponentData` with the data of
the resistor leaves the component with four ports for two declarations. -/
theorem C25_counterexample :
    resistorData.ports = [⟨"A".toList, (-20, 0)⟩, ⟨"B".toList, (20, 0)⟩] ∧
    (setComponentData resistorData (setComponentData resistorData ComponentItem.new)).m_ports =
      [⟨"A".toList, (-20, 0)⟩, ⟨"B".toList, (20, 0)⟩, ⟨"A".toList, (-20, 0)⟩,
        ⟨"B".toList, (20, 0)⟩] := by
  refine ⟨by decide, by decide⟩

/-- C25, amended: `setComponentData(data)` appends to the ports that the
component already owns one new port per port declaration of the data, each
with the declared name and position, in declaration order.  A freshly
constructed component owns no port, so that after the call it owns exactly one
port per declaration; a component that holds data from an earlier call keeps
the ports of that call as well. -/
theorem C25_ports_appended_per_declaration (data : ComponentData) (c : ComponentItem) :
    (setComponentData data c).m_ports = c.m_ports ++ data.ports ∧
    ComponentItem.new.m_ports = [] ∧
    (setComponentData data ComponentItem.new).m_ports = data.ports := by
  have h : ∀ c : ComponentItem, (setComponentData data c).m_ports = c.m_ports ++ data.ports := by
    intro c
    show c.m_ports ++ (data.ports.map fun data => (⟨data.name, data.pos⟩ : PortData)) = _
    rw [map_portData]
  refine ⟨h c, rfl, ?_⟩
  rw [h]
  rfl

/-! ### Saving and loading a component -/

theorem propertyValue_setPropertyValue (k n v : QString) (m : PropertyMap) :
    propertyValue k (setPropertyValue n v m) =
      if k = n then (propertyValue k m).map fun _ => v else propertyValue k m := by
  unfold propertyValue setPropertyValue
  induction m with
  | nil => simp
  | cons p m ih =>
    simp only [List.map_cons, List.find?_cons]
    by_cases hpn : p.1 = n
    · by_cases hpk : p.1 = k
      · have hkn : k = n := hpk ▸ hpn
        simp [hpn, hkn]
      · have hkn : ¬ k = n := fun h => hpk (hpn.trans h.symm)
        have hnk : ¬ n = k := fun h => hkn h.symm
        simp only [hpn, hnk, hpk, if_true, decide_False, hkn, if_false] at ih ⊢
        exact ih
    · by_cases hpk : p.1 = k
      · have hkn : ¬ k = n := fun h => hpn (hpk.trans h)
        simp [hpn, hpk, hkn]
      · simp only [hpn, hpk, if_false, decide_False] at ih ⊢
        exact ih

theorem propertyValue_of_mem (k v : QString) :
    ∀ m : PropertyMap, (m.map Prod.fst).Nodup → (k, v) ∈ m → propertyValue k m = some v := by
  intro m
  induction m with
  | nil => intro _ h; simp at h
  | cons p m ih =>
    intro hnd h
    rw [List.map_cons, List.nodup_cons] at hnd
    unfold propertyValue
    rcases List.mem_cons.1 h with h | h
    · subst h; simp
    · have hne : ¬ p.1 = k := by
        intro hpk
        exact hnd.1 (hpk ▸ List.mem_map_of_mem Prod.fst h)
      simp only [List.find?_cons, hne, decide_False]
      exact ih hnd.2 h

theorem readProperties_of_not_mem (k : QString) :
    ∀ (written m : PropertyMap), k ∉ written.map Prod.fst →
      propertyValue k (readProperties written m) = propertyValue k m := by
  intro written
  induction written with
  | nil => intro m _; rfl
  | cons p written ih =>
    intro m h
    rw [List.map_cons, List.mem_cons, not_or] at h
    show propertyValue k (readProperties written (setPropertyValue p.1 p.2 m)) = _
    rw [ih _ h.2, propertyValue_setPropertyValue, if_neg h.1]

theorem readProperties_of_mem (k v : QString) :
    ∀ (written m : PropertyMap), (written.map Prod.fst).Nodup → (k, v) ∈ written →
      (propertyValue k m).isSome →
      propertyValue k (readProperties written m) = some v := by
  intro written
  induction written with
  | nil => intro m _ h; simp at h
  | cons p written ih =>
    intro m hnd h hsome
    rw [List.map_cons, List.nodup_cons] at hnd
    show propertyValue k (readProperties written (setPropertyValue p.1 p.2 m)) = _
    rcases List.mem_cons.1 h with h | h
    · subst h
      rw [readProperties_of_not_mem _ _ _ hnd.1, propertyValue_setPropertyValue, if_pos rfl]
      cases hv : propertyValue k m with
      | none => rw [hv] at hsome; simp at hsome
      | some w => rfl
    · have hne : ¬ k = p.1 := by
        intro hkp
        exact hnd.1 (hkp ▸ List.mem_map_of_mem Prod.fst h)
      apply ih _ hnd.2 h
      rw [propertyValue_setPropertyValue, if_neg hne]
      exact hsome

theorem propertyValue_addProperty (k n v : QString) (m : PropertyMap) :
    (propertyValue k (addProperty n v m)).isSome =
      (decide (k = n) || (propertyValue k m).isSome) := by
  unfold addProperty
  by_cases hn : (propertyValue n m).isSome = true
  · rw [if_pos hn, propertyValue_setPropertyValue]
    by_cases hk : k = n
    · subst hk; simp [hn]
    · simp [hk]
  · rw [if_neg hn]
    unfold propertyValue at hn ⊢
    by_cases hk : k = n
    · subst hk
      simp only [Option.isSome_map', List.find?_append] at hn ⊢
      simp at hn
      simp [hn]
    · have hnk : ¬ n = k := fun h => hk h.symm
      simp [List.find?_append, hk, hnk]

theorem mem_of_propertyValue (k v : QString) (m : PropertyMap)
    (h : propertyValue k m = some v) : (k, v) ∈ m := by
  unfold propertyValue at h
  cases hf : m.find? (fun p => p.1 = k) with
  | none => rw [hf] at h; simp at h
  | some p =>
    rw [hf] at h
    have hk : p.1 = k := by simpa using List.find?_some hf
    have hv : p.2 = v := by simpa using h
    have := List.mem_of_find?_eq_some hf
    rw [← hk, ← hv]
    exact this

/-! ### Blocks without a command sign -/

/-- A block without `%` whose text up to the first `=` is none of the words
label, port and property is copied, followed by the space that ends every
block. -/
theorem expandBlock_plain_text (c : Component) (netlist : Netlist) (block command : QString)
    (hne : block ≠ []) (hblock : '%' ∉ block) (hcommand : (split '=' block)[0]? = some command)
    (hlabel : command ≠ "label".toList) (hport : command ≠ "port".toList)
    (hproperty : command ≠ "property".toList) :
    expandBlock c netlist block = some (block ++ [' ']) := by
  unfold expandBlock
  rw [split_word '%' block hne hblock]
  simp only [expandSubBlocks, expandSubBlock, hcommand, if_neg hlabel, if_neg hport,
    if_neg hproperty, List.append_nil]

/-- C26: a block without `%` is not always copied as it is.  The block `label`
is expanded to the label of the component, the block `port=A` to the net
numbers of the port A and the block `property=R` to the value of the property
R, as if each began with `%`; for the resistor R1 on the nets 0 and 1 the
three blocks give `R1`, `0` and `1k`, each followed by the space that ends a
block. -/
theorem C26_bare_command_word_expanded (c : Component) (netlist : Netlist) :
    '%' ∉ "label".toList ∧
    expandBlock c netlist "label".toList = some (c.label ++ [' ']) ∧
    expandBlock c netlist "%label".toList = some (c.label ++ [' ']) ∧
    expandBlock (resistor "R1".toList 1 2) [(1, 0), (2, 1)] "label".toList =
      some "R1 ".toList ∧
    expandBlock (resistor "R1".toList 1 2) [(1, 0), (2, 1)] "port=A".toList =
      some "0 ".toList ∧
    expandBlock (resistor "R1".toList 1 2) [(1, 0), (2, 1)] "property=R".toList =
      some "1k ".toList ∧
    expandBlock (resistor "R1".toList 1 2) [(1, 0), (2, 1)] "dc=0".toList =
      some "dc=0 ".toList := by
  have h1 : split '%' "label".toList = ["label".toList] := by decide
  have h2 : split '%' "%label".toList = ["label".toList] := by decide
  have h3 : split '=' "label".toList = ["label".toList] := by decide
  have hsub : expandSubBlock c netlist "label".toList = some c.label := by
    unfold expandSubBlock
    simp only [h3]
    rfl
  refine ⟨by decide, ?_, ?_, by decide, by decide, by decide, by decide⟩
  · unfold expandBlock
    rw [h1]
    simp only [expandSubBlocks, hsub, List.append_nil]
  · unfold expandBlock
    rw [h2]
    simp only [expandSubBlocks, hsub, List.append_nil]

/-! ### Label suffixes -/

/-- On a name that is not empty `fromName` returns a painting or the null
pointer. -/
theorem fromName_of_ne_nil (tr : QString → QString) (name : QString) (hname : name ≠ []) :
    (fromName tr name).isSome = true := by
  cases name with
  | nil => exact absurd rfl hname
  | cons c cs =>
    unfold fromName
    simp only [List.getElem?_cons_zero]
    split_ifs <;> rfl

/-- C29: `Painting::fromName` fails on the empty string: the call `name.at(0)`
reads out of the range of the string.  On the twelve names it returns the
painting of the kind named, the capitalised and the lower-case name giving the
same kind, and on another name that is not empty the null pointer. -/
theorem C29_fromName_empty_name_out_of_range (tr : QString → QString) :
    fromName tr [] = none ∧
    ([] : QString)[0]? = none ∧
    ((["Line", "Arrow", "Ellipse", "Rectangle", "Elliptic Arc", "Text"].map
        fun name => fromName (fun s => s) name.toList) =
      [some (some .GraphicLine), some (some .Arrow), some (some .Ellipse),
        some (some .Rectangle), some (some .EllipseArc), some (some .GraphicText)]) ∧
    ((["line", "arrow", "ellipse", "rectangle", "ellipseArc", "text"].map
        fun name => fromName (fun s => s) name.toList) =
      [some (some .GraphicLine), some (some .Arrow), some (some .Ellipse),
        some (some .Rectangle), some (some .EllipseArc), some (some .GraphicText)]) ∧
    fromName (fun s => s) "Circle".toList = some none ∧
    fromName (fun s => s) "LINE".toList = some none := by
  refine ⟨rfl, rfl, by decide, by decide, by decide, by decide⟩

/-! ### The wiring state -/

theorem isSome_wireAt_addNewWire (a b : Point) (s : GraphicsScene) :
    (wireAt (addNewWire a b s).2.2 (addNewWire a b s).1).isSome = true := by
  unfold wireAt addNewWire
  simp only [Option.isSome_map', List.find?_isSome]
  exact ⟨(s.nextId, ⟨s.nextId, s.nextId + 1, a, b⟩), by simp, by simp⟩

theorem wireAt_deleteWire (ptr : ItemPtr) (s : GraphicsScene) :
    wireAt (deleteWire ptr s) ptr = none := by
  unfold wireAt
  rw [deleteWire_wires]
  simp only [Option.map_eq_none', List.find?_eq_none]
  intro x hx
  have := (List.mem_filter.1 hx).2
  simpa using this

theorem currentWire_congr (s t : GraphicsScene) (hw : t.wires = s.wires)
    (hp : t.currentWiringWire = s.currentWiringWire) : currentWire t = currentWire s := by
  unfold currentWire wireAt
  rw [hw, hp]

theorem resetState_currentWiringWire (s : GraphicsScene) :
    (resetState s).currentWiringWire = s.currentWiringWire := by
  unfold resetState
  cases hw : s.currentlyWiring with
  | false => simp [hw]
  | true =>
    cases hp : s.currentWiringWire with
    | none => simp [hw, hp]
    | some ptr => simp [hw, hp]

theorem resetState_wires (s : GraphicsScene) :
    (s.currentlyWiring = false → (resetState s).wires = s.wires) ∧
    (∀ ptr, s.currentlyWiring = true → s.currentWiringWire = some ptr →
      (resetState s).wires = s.wires.filter fun x => x.1 ≠ ptr) := by
  constructor
  · intro hw
    unfold resetState
    simp [hw]
  · intro ptr hw hp
    unfold resetState
    simp [hw, hp, deleteWire_wires]

theorem resetState_wiring (s : GraphicsScene) :
    (resetState s).currentlyWiring = false ∧
    (s.currentlyWiring = false → currentWire (resetState s) = currentWire s) ∧
    (s.currentlyWiring = true → currentWire (resetState s) = none) := by
  refine ⟨(resetState_fields s).2.2.2.2.2.1, ?_, ?_⟩
  · intro hw
    exact currentWire_congr s _ ((resetState_wires s).1 hw) (resetState_currentWiringWire s)
  · intro hw
    unfold currentWire
    rw [resetState_currentWiringWire]
    cases hp : s.currentWiringWire with
    | none => rfl
    | some ptr =>
      simp only
      unfold wireAt
      rw [(resetState_wires s).2 ptr hw hp]
      simp only [Option.map_eq_none', List.find?_eq_none]
      intro x hx
      have := (List.mem_filter.1 hx).2
      simpa using this

theorem wiringEventLeftMouseClick_consistent (q : SceneQueries) (pos : Point)
    (s t : GraphicsScene) (h : WiringConsistent s)
    (ht : wiringEventLeftMouseClick q pos s = some t) : WiringConsistent t := by
  unfold wiringEventLeftMouseClick at ht
  cases hw : s.currentlyWiring with
  | false =>
    simp only [hw, Bool.not_false, if_true, Option.some.injEq] at ht
    rw [← ht]
    unfold WiringConsistent
    refine ⟨fun _ => ?_, fun _ => rfl⟩
    exact isSome_wireAt_addNewWire pos pos s
  | true =>
    simp only [hw, Bool.not_true, Bool.false_eq_true, if_false] at ht
    cases hc : currentWire s with
    | none => rw [hc] at ht; simp at ht
    | some w =>
      rw [hc] at ht
      simp only at ht
      by_cases hnull : w.isNull = true
      · rw [if_pos hnull] at ht
        have : s = t := by simpa using ht
        rw [← this]; exact h
      · rw [if_neg hnull] at ht
        cases hc₂ : currentWire (splitAndCreateNodes q [w.port1, w.port2]
            (connectItems q [w.port1, w.port2] s)) with
        | none => rw [hc₂] at ht; simp at ht
        | some w₂ =>
          rw [hc₂] at ht
          simp only at ht
          have hk : Keeps s (splitAndCreateNodes q [w.port1, w.port2]
              (connectItems q [w.port1, w.port2] s)) :=
            keeps_trans (connectItems_keeps q _ s) (splitAndCreateNodes_keeps q _ _)
          by_cases hconn : hasAnyConnection (splitAndCreateNodes q [w.port1, w.port2]
              (connectItems q [w.port1, w.port2] s)).connections w₂.port2 = true
          · rw [if_pos hconn] at ht
            have ht' := Option.some.inj ht
            rw [← ht']
            unfold WiringConsistent
            constructor
            · intro hf; exact absurd hf (by simp)
            · intro hf; exact absurd hf (by simp [currentWire])
          · rw [if_neg hconn] at ht
            have ht' := Option.some.inj ht
            rw [← ht']
            unfold WiringConsistent
            refine ⟨fun _ => ?_, fun _ => ?_⟩
            · exact isSome_wireAt_addNewWire _ _ _
            · show (addNewWire w₂.scenePos2 w₂.scenePos2 (splitAndCreateNodes q [w.port1, w.port2]
                (connectItems q [w.port1, w.port2] s))).2.2.currentlyWiring = true
              rw [(addNewWire_keeps w₂.scenePos2 w₂.scenePos2 _).1, hk.1, hw]

/-- C30: the wiring state of the scene is consistent: `m_currentlyWiring` is
true if and only if `m_currentWiringWire` refers to a wire that is in the
scene.  The invariant holds after construction and is preserved by
`wiringEventLeftMouseClick`, `wiringEventRightMouseClick`,
`wiringEventMouseMove` and `resetState`: the right click, the move and
`resetState` return on every consistent state, and so does the left click
whenever the pending wire is still in the scene after `connectItems` and
`splitAndCreateNodes`. -/
theorem C30_wiring_state_consistent (q : SceneQueries) (pos newPos : Point)
    (s : GraphicsScene) (h : WiringConsistent s) :
    WiringConsistent newGraphicsScene ∧
    (∀ t, wiringEventLeftMouseClick q pos s = some t → WiringConsistent t) ∧
    ((∀ w, currentWire s = some w → w.isNull = false →
        (currentWire (splitAndCreateNodes q [w.port1, w.port2]
          (connectItems q [w.port1, w.port2] s))).isSome = true) →
      (wiringEventLeftMouseClick q pos s).isSome = true) ∧
    (∃ t, wiringEventRightMouseClick q s = some t ∧ WiringConsistent t) ∧
    (∃ t, wiringEventMouseMove newPos s = some t ∧ WiringConsistent t) ∧
    WiringConsistent (resetState s) := by
  refine ⟨?_, fun t ht => wiringEventLeftMouseClick_consistent q pos s t h ht, ?_, ?_, ?_, ?_⟩
  · unfold WiringConsistent
    decide
  · intro hstill
    unfold wiringEventLeftMouseClick
    cases hw : s.currentlyWiring with
    | false => simp
    | true =>
      simp only [Bool.not_true, Bool.false_eq_true, if_false]
      cases hc : currentWire s with
      | none =>
        have := h.1 hw
        rw [hc] at this
        simp at this
      | some w =>
        simp only
        by_cases hnull : w.isNull = true
        · rw [if_pos hnull]; rfl
        · rw [if_neg hnull]
          have hs := hstill w hc (by simpa using hnull)
          cases hc₂ : currentWire (splitAndCreateNodes q [w.port1, w.port2]
              (connectItems q [w.port1, w.port2] s)) with
          | none => rw [hc₂] at hs; simp at hs
          | some w₂ =>
            simp only
            split_ifs <;> rfl
  · unfold wiringEventRightMouseClick
    cases hw : s.currentlyWiring with
    | false =>
      refine ⟨s, by simp, h⟩
    | true =>
      simp only [if_true]
      cases hc : currentWire s with
      | none =>
        have := h.1 hw
        rw [hc] at this
        simp at this
      | some w =>
        simp only
        by_cases hnull : w.isNull = true
        · rw [if_pos hnull]; exact ⟨s, rfl, h⟩
        · rw [if_neg hnull]
          refine ⟨_, rfl, ?_⟩
          unfold WiringConsistent
          constructor
          · intro hf; exact absurd hf (by simp)
          · intro hf; exact absurd hf (by simp [currentWire])
  · unfold wiringEventMouseMove
    cases hw : s.currentlyWiring with
    | false => exact ⟨s, by simp, h⟩
    | true =>
      simp only [if_true]
      have hsome := h.1 hw
      cases hp : s.currentWiringWire with
      | none => simp [currentWire, hp] at hsome
      | some ptr =>
        cases hc : currentWire s with
        | none => rw [hc] at hsome; simp at hsome
        | some w =>
          have hwire : wireAt s ptr = some w := by
            simpa [currentWire, hp] using hc
          have hmoved : ∀ target, WiringConsistent (movePort2 ptr target s) := by
            intro target
            unfold WiringConsistent
            refine ⟨fun _ => ?_, fun _ => hw⟩
            show (currentWire (movePort2 ptr target s)).isSome = true
            unfold currentWire
            show (match s.currentWiringWire with
              | none => none
              | some ptr₁ => wireAt (movePort2 ptr target s) ptr₁).isSome = true
            rw [hp]
            simp only
            rw [wireAt_movePort2 ptr target s w hwire]
            rfl
          simp only
          split_ifs
          · exact ⟨_, rfl, hmoved _⟩
          · exact ⟨_, rfl, hmoved _⟩
  · obtain ⟨h1, h2, h3⟩ := resetState_wiring s
    unfold WiringConsistent
    rw [h1]
    cases hw : s.currentlyWiring with
    | false =>
      rw [h2 hw]
      constructor
      · intro hf; exact absurd hf (by simp)
      · intro hf
        have := h.2 hf
        rw [hw] at this
        exact this
    | true =>
      rw [h3 hw]
      simp

/-- Witness for C30: the scene with the pending wire from (0,0) to (100,0) is
consistent, and so is the scene after a right click. -/
theorem C30_wiring_state_consistent_witness :
    WiringConsistent pendingWireScene ∧
    ∃ t, wiringEventRightMouseClick exampleQueries pendingWireScene = some t ∧
      WiringConsistent t :=
  ⟨by unfold WiringConsistent; decide,
    (C30_wiring_state_consistent exampleQueries (100, 0) (100, 30) pendingWireScene
      (by unfold WiringConsistent; decide)).2.2.2.1⟩

/-! ### The ground renaming, by the pairs of the table -/

theorem findNetName_eq_some_iff_isIdOfPort (port : Port) (n : Int) :
    ∀ (netlist : Netlist) (netName : Option Int),
      findNetName port netlist netName = some n ↔
        IsIdOfPort netlist port n ∨ (netName = some n ∧ ∀ e ∈ netlist, e.1 ≠ port) := by
  intro netlist
  induction netlist with
  | nil =>
    intro netName
    unfold IsIdOfPort
    simp [findNetName]
  | cons e netlist ih =>
    intro netName
    rw [findNetName, ih]
    constructor
    · rintro (⟨before, after, hl, hafter⟩ | ⟨hname, hno⟩)
      · exact Or.inl ⟨e :: before, after, by rw [hl]; rfl, hafter⟩
      · by_cases hp : e.1 = port
        · rw [if_pos hp] at hname
          have he : e = (port, n) := by
            have h2 : e.2 = n := by simpa using hname
            rw [← hp, ← h2]
          exact Or.inl ⟨[], netlist, by rw [he]; rfl, hno⟩
        · rw [if_neg hp] at hname
          refine Or.inr ⟨hname, ?_⟩
          intro x hx
          rcases List.mem_cons.1 hx with hx | hx
          · rw [hx]; exact hp
          · exact hno x hx
    · rintro (⟨before, after, hl, hafter⟩ | ⟨hname, hno⟩)
      · cases before with
        | nil =>
          have he : e = (port, n) := by
            have := List.head_eq_of_cons_eq hl
            exact this
          have hrest : netlist = after := List.tail_eq_of_cons_eq hl
          refine Or.inr ⟨by rw [he]; simp, ?_⟩
          rw [hrest]; exact hafter
        | cons b before =>
          have hrest : netlist = before ++ (port, n) :: after := List.tail_eq_of_cons_eq hl
          exact Or.inl ⟨before, after, hrest, hafter⟩
      · have hp : ¬ e.1 = port := hno e (List.mem_cons_self _ _)
        rw [if_neg hp]
        exact Or.inr ⟨hname, fun x hx => hno x (List.mem_cons_of_mem _ hx)⟩

theorem isIdOfPort_iff_mem (netlist : Netlist) (port : Port)
    (hfun : ∀ n m, (port, n) ∈ netlist → (port, m) ∈ netlist → n = m) (m : Int) :
    IsIdOfPort netlist port m ↔ (port, m) ∈ netlist := by
  have h := findNetName_eq_some_iff_isIdOfPort port m netlist none
  rw [← findNetName_eq_some_iff_mem port netlist hfun m, h]
  simp

/-- C3: `FormatSpice::replacePortNames` folds exactly the ground nets to 0.
For every table whose ids are all at least 1 and which contains the port of
every port symbol: the ports and their order are unchanged, and the pair at
every index keeps its port and gets an id that is 0 if and only if its id
before the call is the id of the port of some port symbol with a ground label,
and that is the former id otherwise.  The id of a port is the id of its pair
in the table (of its last pair, should the table list the port under several
ids); when the table lists the port of every port symbol under a single id,
the id of the port is the id of any of its pairs. -/
theorem C3_ground_nets_fold_to_zero (portSymbols : List PortSymbol) (netlist : Netlist)
    (hids : ∀ e ∈ netlist, 1 ≤ e.2)
    (hports : ∀ s ∈ portSymbols, ∃ e ∈ netlist, e.1 = s.port) :
    (replacePortNames portSymbols netlist).map Prod.fst = netlist.map Prod.fst ∧
    (∀ (i : Nat) (e : Port × Int), netlist[i]? = some e →
      ∃ id : Int, (replacePortNames portSymbols netlist)[i]? = some (e.1, id) ∧
        (id = 0 ↔ ∃ s ∈ portSymbols, isGroundLabel s.label = true ∧
          IsIdOfPort netlist s.port e.2) ∧
        (id ≠ 0 → id = e.2)) ∧
    ((∀ s ∈ portSymbols, ∀ n m, (s.port, n) ∈ netlist → (s.port, m) ∈ netlist → n = m) →
      ∀ (i : Nat) (e : Port × Int), netlist[i]? = some e →
        ∃ id : Int, (replacePortNames portSymbols netlist)[i]? = some (e.1, id) ∧
          (id = 0 ↔ ∃ s ∈ portSymbols, isGroundLabel s.label = true ∧
            (s.port, e.2) ∈ netlist) ∧
          (id ≠ 0 → id = e.2)) := by
  have hnz : ∀ e ∈ netlist, e.2 ≠ 0 := fun e he => by have := hids e he; omega
  have hmain : ∀ (i : Nat) (e : Port × Int), netlist[i]? = some e →
      ∃ id : Int, (replacePortNames portSymbols netlist)[i]? = some (e.1, id) ∧
        (id = 0 ↔ ∃ s ∈ portSymbols, isGroundLabel s.label = true ∧
          IsIdOfPort netlist s.port e.2) ∧
        (id ≠ 0 → id = e.2) := by
    intro i e he
    rw [replacePortNames_eq portSymbols netlist hnz hports]
    refine ⟨_, foldGround_getElem? _ _ i e he, ?_, ?_⟩
    · have hiff : (∃ s ∈ portSymbols, isGroundLabel s.label = true ∧
          IsIdOfPort netlist s.port e.2) ↔ e.2 ∈ groundIds portSymbols netlist := by
        rw [mem_groundIds]
        constructor
        · rintro ⟨s, hs, hg, hid⟩
          exact ⟨s, hs, hg,
            (findNetName_eq_some_iff_isIdOfPort s.port e.2 netlist none).2 (Or.inl hid)⟩
        · rintro ⟨s, hs, hg, hfind⟩
          rcases (findNetName_eq_some_iff_isIdOfPort s.port e.2 netlist none).1 hfind with
            hid | ⟨hnone, _⟩
          · exact ⟨s, hs, hg, hid⟩
          · exact absurd hnone (by simp)
      rw [hiff]
      have hez : e.2 ≠ 0 := hnz e (List.getElem?_mem he)
      by_cases h : e.2 ∈ groundIds portSymbols netlist <;> simp [h, hez]
    · intro hne
      by_cases h : e.2 ∈ groundIds portSymbols netlist
      · simp [h] at hne
      · simp [h]
  refine ⟨replacePortNames_map_fst _ _, hmain, ?_⟩
  intro hfun i e he
  obtain ⟨id, h1, h2, h3⟩ := hmain i e he
  refine ⟨id, h1, ?_, h3⟩
  rw [h2]
  constructor
  · rintro ⟨s, hs, hg, hid⟩
    exact ⟨s, hs, hg, (isIdOfPort_iff_mem netlist s.port (hfun s hs) e.2).1 hid⟩
  · rintro ⟨s, hs, hg, hmem⟩
    exact ⟨s, hs, hg, (isIdOfPort_iff_mem netlist s.port (hfun s hs) e.2).2 hmem⟩

/-- Witness for C3: two ground symbols on the nets 1 and 3 and a symbol "out"
on net 2; the pairs of the nets 1 and 3 get the id 0. -/
theorem C3_ground_nets_fold_to_zero_witness :
    (∀ e ∈ sampleTable, 1 ≤ e.2) ∧
    (∀ s ∈ sampleSymbols, ∃ e ∈ sampleTable, e.1 = s.port) ∧
    (replacePortNames sampleSymbols sampleTable).map Prod.fst = sampleTable.map Prod.fst ∧
    replacePortNames sampleSymbols sampleTable =
      [(10, 0), (20, 0), (11, 2), (22, 2), (21, 0), (12, 4)] :=
  ⟨by decide, by decide,
    (C3_ground_nets_fold_to_zero sampleSymbols sampleTable (by decide) (by decide)).1,
    by decide⟩

/-- The part of the round trip that does not pass through the transform: for
a component known to the library, `loadData` applied to the element written by
`saveData` yields the same name, library, position, label and property values;
the transform is what the reader returns for the scene transform that was
written, and the rotation is the one of the component that loads. -/
theorem loadData_saveData_fields (componentData : QString → QString → Option ComponentData)
    (readTransformAttribute : QTransform → QTransform)
    (c target : ComponentItem) (data : ComponentData)
    (hknown : componentData c.d.name c.d.library = some data)
    (hname : data.name = c.d.name) (hlibrary : data.library = c.d.library)
    (hkeys : (c.d.properties.map Prod.fst).Nodup)
    (hprops : ∀ p ∈ c.d.properties,
      p.1 = "label".toList ∨ (propertyValue p.1 data.properties).isSome) :
    (loadData componentData readTransformAttribute (saveData c) target).d.name = c.d.name ∧
    (loadData componentData readTransformAttribute (saveData c) target).d.library =
      c.d.library ∧
    (loadData componentData readTransformAttribute (saveData c) target).pos = c.pos ∧
    (∀ l, c.label = some l →
      (loadData componentData readTransformAttribute (saveData c) target).label = some l) ∧
    (∀ p ∈ c.d.properties,
      propertyValue p.1
        (loadData componentData readTransformAttribute (saveData c) target).d.properties =
        some p.2) ∧
    (loadData componentData readTransformAttribute (saveData c) target).transform =
      readTransformAttribute c.sceneTransform ∧
    (loadData componentData readTransformAttribute (saveData c) target).rotation =
      target.rotation := by
  have hload : loadData componentData readTransformAttribute (saveData c) target =
      { setComponentData data
          { target with pos := c.pos, transform := readTransformAttribute c.sceneTransform } with
        d := { (setComponentData data
            { target with
              pos := c.pos, transform := readTransformAttribute c.sceneTransform }).d with
          properties := readProperties c.d.properties
            (addProperty "label".toList (data.labelPrefix ++ ['1']) data.properties) } } := by
    unfold loadData
    simp only [saveData, hknown]
    rfl
  have hvalue : ∀ p ∈ c.d.properties, propertyValue p.1 (readProperties c.d.properties
      (addProperty "label".toList (data.labelPrefix ++ ['1']) data.properties)) = some p.2 := by
    intro p hp
    apply readProperties_of_mem p.1 p.2 _ _ hkeys hp
    rw [propertyValue_addProperty]
    rcases hprops p hp with h | h
    · rw [h]; simp
    · rw [h]; simp
  rw [hload]
  refine ⟨hname, hlibrary, rfl, ?_, hvalue, rfl, rfl⟩
  intro l hl
  exact hvalue ("label".toList, l) (mem_of_propertyValue _ _ _ hl)

/-- With a reader that returns the six entries as written the loaded resistor
is moved by its position a second time; with a reader that drops the
translation its scene transform is the saved one, its rotation and its
transform are not. -/
theorem loadData_rotatedResistor_readers :
    rotatedResistor.sceneTransform = ⟨0, 1, -1, 0, 100, 40⟩ ∧
    (loadData sampleLibrary readAsWritten (saveData rotatedResistor)
      ComponentItem.new).sceneTransform = ⟨0, 1, -1, 0, 200, 80⟩ ∧
    (loadData sampleLibrary readWithoutTranslation (saveData rotatedResistor)
      ComponentItem.new).sceneTransform = ⟨0, 1, -1, 0, 100, 40⟩ ∧
    (loadData sampleLibrary readWithoutTranslation (saveData rotatedResistor)
      ComponentItem.new).transform = ⟨0, 1, -1, 0, 0, 0⟩ := by
  refine ⟨by decide, by decide, by decide, by decide⟩

/-- The items that are not wires are put, in the order of the list, at the
running coordinate, which starts at `x` and advances by the rounded sum with
`dx` after each of them; their y coordinates are kept.  The wires are not
moved. -/
theorem distributeLoopX_moved (fl : ℚ → ℚ) (dx : ℚ) :
    ∀ (items : List MovableItem) (x : ℚ) (j : Nat),
      (movedItems (distributeLoopX fl dx x items))[j]? =
        ((movedItems items)[j]?).map fun item =>
          { item with pos := ((fun y => fl (y + dx))^[j] x, item.pos.2) } := by
  intro items
  induction items with
  | nil => intro x j; simp [distributeLoopX, movedItems]
  | cons item items ih =>
    intro x j
    by_cases hw : item.type = .WireType
    · have h1 : distributeLoopX fl dx x (item :: items) =
          item :: distributeLoopX fl dx x items := by
        simp [distributeLoopX, hw]
      have h2 : ∀ l, movedItems (item :: l) = movedItems l := by
        intro l; simp [movedItems, hw]
      rw [h1, h2, h2]
      exact ih x j
    · have h1 : distributeLoopX fl dx x (item :: items) =
          { item with pos := (x, item.pos.2) } :: distributeLoopX fl dx (fl (x + dx)) items := by
        simp [distributeLoopX, hw]
      have h2 : ∀ (a : MovableItem) l, a.type = item.type →
          movedItems (a :: l) = a :: movedItems l := by
        intro a l ha; simp [movedItems, ha, hw]
      rw [h1, h2 { item with pos := (x, item.pos.2) } _ rfl, h2 item items rfl]
      cases j with
      | zero => simp
      | succ j =>
        simp only [List.getElem?_cons_succ]
        rw [ih (fl (x + dx)) j]
        rfl

theorem distributeLoopX_length (fl : ℚ → ℚ) (dx : ℚ) :
    ∀ (items : List MovableItem) (x : ℚ),
      (distributeLoopX fl dx x items).length = items.length := by
  intro items
  induction items with
  | nil => intro x; rfl
  | cons item items ih =>
    intro x
    unfold distributeLoopX
    split_ifs <;> simp [ih]

/-- Called through `distributeElements` the method finds at least two items:
it returns, and the step is the rounded quotient of the rounded distance of
the first and the last item by the number of all items, wires included, less
one. -/
theorem distributeElements_step (fl : ℚ → ℚ) (sortX sortY : List MovableItem → List MovableItem)
    (items : List MovableItem) (first last : MovableItem) (hsize : 2 ≤ items.length)
    (hfirst : (sortX items).head? = some first) (hlast : (sortX items).getLast? = some last) :
    distributeElements fl sortX sortY true items =
      some (true,
        distributeLoopX fl
          (fl (fl (last.pos.1 - first.pos.1) / (((sortX items).length : ℚ) - 1)))
          first.pos.1 (sortX items)) := by
  unfold distributeElements
  rw [if_neg (by omega)]
  simp only [if_true]
  unfold distributeElementsHorizontally
  simp only [hfirst, hlast, Option.map_some']

/-- C28: with a wire in the selection the moved items do not reach the
rightmost position.  Of the component at 0, the wire at 10 and the components
at 20 and 30 the step is 30 / 3 = 10, the wire being counted, and the three
components are put at 0, 10 and 20: the last one ends at 20, not at 30.
Without the wire, the components at 0, 5 and 30 are put at 0, 15 and 30.  The
arithmetic is that of `qreal`, whose rounding leaves the whole numbers up to
2^53 as they are. -/
theorem C28_wire_counted_in_step (fl : ℚ → ℚ) (sortY : List MovableItem → List MovableItem)
    (hfl : ∀ k : ℤ, |k| ≤ 2 ^ 53 → fl (k : ℚ) = (k : ℚ)) :
    (distributeElements fl (fun l => l) sortY true componentsAndWire).map
        (fun r => (r.1, r.2.map fun item => (item.type, item.pos))) =
      some (true, [(.ComponentType, (0, 0)), (.WireType, (10, 5)), (.ComponentType, (10, 7)),
        (.ComponentType, (20, 9))]) ∧
    (componentsAndWire.getLast?.map fun item => item.pos.1) = some 30 ∧
    (distributeElements fl (fun l => l) sortY true threeComponents).map
        (fun r => (r.1, r.2.map fun item => (item.type, item.pos))) =
      some (true, [(.ComponentType, (0, 0)), (.ComponentType, (15, 5)),
        (.ComponentType, (30, 9))]) := by
  have h10 : fl 10 = 10 := by
    have := hfl 10 (by norm_num)
    simpa using this
  have h15 : fl 15 = 15 := by
    have := hfl 15 (by norm_num)
    simpa using this
  have h20 : fl 20 = 20 := by
    have := hfl 20 (by norm_num)
    simpa using this
  have h30 : fl 30 = 30 := by
    have := hfl 30 (by norm_num)
    simpa using this
  refine ⟨?_, by simp [componentsAndWire], ?_⟩
  · rw [distributeElements_step fl (fun l => l) sortY componentsAndWire
      ⟨.ComponentType, (0, 0)⟩ ⟨.ComponentType, (30, 9)⟩ (by decide) rfl rfl]
    have hdx : fl (fl ((30 : ℚ) - 0) / (((4 : Nat) : ℚ) - 1)) = 10 := by
      norm_num [h30, h10]
    show (some (true, distributeLoopX fl
      (fl (fl ((30 : ℚ) - 0) / (((4 : Nat) : ℚ) - 1))) 0 componentsAndWire)).map _ = _
    rw [hdx]
    simp [componentsAndWire, distributeLoopX]
    norm_num [h10, h20]
  · rw [distributeElements_step fl (fun l => l) sortY threeComponents
      ⟨.ComponentType, (0, 0)⟩ ⟨.ComponentType, (30, 9)⟩ (by decide) rfl rfl]
    have hdx : fl (fl ((30 : ℚ) - 0) / (((3 : Nat) : ℚ) - 1)) = 15 := by
      norm_num [h30, h15]
    show (some (true, distributeLoopX fl
      (fl (fl ((30 : ℚ) - 0) / (((3 : Nat) : ℚ) - 1))) 0 threeComponents)).map _ = _
    rw [hdx]
    simp [threeComponents, distributeLoopX]
    norm_num [h15, h30]

/-- Witness for C28: exact arithmetic leaves the whole numbers as they are. -/
theorem C28_wire_counted_in_step_witness :
    (∀ k : ℤ, |k| ≤ 2 ^ 53 → (fun x : ℚ => x) (k : ℚ) = (k : ℚ)) ∧
    (distributeElements (fun x => x) (fun l => l) (fun l => l) true componentsAndWire).map
        (fun r => (r.1, r.2.map fun item => (item.type, item.pos))) =
      some (true, [(.ComponentType, (0, 0)), (.WireType, (10, 5)), (.ComponentType, (10, 7)),
        (.ComponentType, (20, 9))]) :=
  ⟨fun _ _ => rfl,
    (C28_wire_counted_in_step (fun x => x) (fun l => l) (fun _ _ => rfl)).1⟩

end Caneda
